import Mathlib

/-!
# pexports: export-table listing of a PE image

A shallow embedding of `src/pexports.c`: the section lookup (`find_section`),
the RVA resolver (`rva_to_ptr`), the line renderer (`dump_symbol`), the
export-directory decoder (`dump_exports`), the loader (`load_pe_image`), the
include-path list (`add_path_list`, `str_list_add`, `find_file`), the header
step (`parse_headers`) and `main` with its argument loop and section scan.

Conventions of the embedding.
* The loaded file (the buffer `dos_hdr` points at) is a list of bytes; a
  pointer into it is `some offset`, and `none` is the C `NULL`.
* The section table (the view `IMAGE_SECTION_HDR(0..NumberOfSections-1)`) is a
  list of section headers in file order.
* `uint32_t` arithmetic that can overflow is written with an explicit
  `% 2 ^ 32`; the conversion of such a value to `int` is `to_int32`.
* A C run with undefined behaviour (a `NULL` dereference, a read outside the
  buffer, `sprintf` past the end of `char s[256]`) is a `Fault`; the functions
  return `Except Fault _`, and a faulting run has no modelled output.
* Standard output is a list of `Line`s; every `printf` of the source is one
  piece of a line, and `Line.render` gives the bytes written.
-/

namespace Pexports

/-- Undefined behaviour the C code can run into. -/
inductive Fault where
  | nullSection
  | nullPointer
  | outOfBounds
  | bufferOverflow
  deriving DecidableEq, Repr

/-- Modelled from the spec: the section descriptor `IMAGE_SECTION_HEADER` of
`pexports.h` (not under src/), with the fields `pexports.c` reads: the 8-byte
name, the virtual address, the size and file offset of the raw data, and the
characteristic flags. The numeric fields are `uint32_t`. -/
structure IMAGE_SECTION_HEADER where
  Name : List Nat
  VirtualAddress : Nat
  SizeOfRawData : Nat
  PointerToRawData : Nat
  Characteristics : Nat
  deriving DecidableEq, Repr

/-- Modelled from the spec: the "contains code" characteristic bit of
`pexports.h` (not under src/), `0x00000020` in the PE/COFF format. -/
def IMAGE_SCN_CNT_CODE : Nat := 0x20

/-- The section `find_section` returns for `rva`: the loop of lines 336-339
over the section table, `NULL` (`none`) when it runs off the end. -/
def find_section : List IMAGE_SECTION_HEADER → Nat → Option IMAGE_SECTION_HEADER
  | [], _ => none
  | sec :: rest, rva =>
    if sec.VirtualAddress ≤ rva ∧
        rva ≤ (sec.VirtualAddress + sec.SizeOfRawData) % 2 ^ 32 then
      some sec
    else find_section rest rva

/-- The pointer `rva_to_ptr` returns, as an offset from `dos_hdr` (`none` is
`NULL`). `section->PointerToRawData` is read without a `NULL` test, so an rva
that `find_section` does not place is a fault. -/
def rva_to_ptr (sections : List IMAGE_SECTION_HEADER) (rva : Nat) : Except Fault (Option Nat) :=
  match find_section sections rva with
  | none => .error .nullSection
  | some sec =>
    .ok (if sec.PointerToRawData ≠ 0 then
          some (rva - sec.VirtualAddress + sec.PointerToRawData)
        else none)

/-- The conversion of a `uint32_t` value to `int` (two's complement), as at
the call `dump_symbol(..., ordinal_table[i] + exports->Base, ...)`. -/
def to_int32 (n : Nat) : Int :=
  if n < 2 ^ 31 then (n : Int) else (n : Int) - 2 ^ 32

/-- The text of a run of bytes, one character per byte. -/
def text_of (bytes : List Nat) : String :=
  String.mk (bytes.map Char.ofNat)

/-- The bytes of the C string that starts a run of bytes: those before the
first NUL, `none` when the run holds no NUL. -/
def c_string : List Nat → Option (List Nat)
  | [] => none
  | b :: rest => if b = 0 then some [] else (c_string rest).map (b :: ·)

/-- The byte `p[i]` of the image; a fault when `p` is `NULL` or the byte lies
outside the buffer. -/
def read_byte (image : List Nat) (p : Option Nat) (i : Nat) : Except Fault Nat :=
  match p with
  | none => .error .nullPointer
  | some off =>
    match image.get? (off + i) with
    | some b => .ok b
    | none => .error .outOfBounds

/-- The little-endian `uint16_t` at byte offset `i` from `p`. -/
def read_u16 (image : List Nat) (p : Option Nat) (i : Nat) : Except Fault Nat := do
  let b0 ← read_byte image p i
  let b1 ← read_byte image p (i + 1)
  pure (b0 + 256 * b1)

/-- The little-endian `uint32_t` at byte offset `i` from `p`. -/
def read_u32 (image : List Nat) (p : Option Nat) (i : Nat) : Except Fault Nat := do
  let b0 ← read_byte image p i
  let b1 ← read_byte image p (i + 1)
  let b2 ← read_byte image p (i + 2)
  let b3 ← read_byte image p (i + 3)
  pure (b0 + 256 * b1 + 65536 * b2 + 16777216 * b3)

/-- The C string at `p`, as text; a fault when `p` is `NULL` or no NUL byte
follows inside the buffer. -/
def read_cstr (image : List Nat) (p : Option Nat) : Except Fault String :=
  match p with
  | none => .error .nullPointer
  | some off =>
    match c_string (image.drop off) with
    | some bytes => .ok (text_of bytes)
    | none => .error .outOfBounds

/-- The text `strchr(str, '.') + 1` points at: what follows the first `.` of
the characters; `none` when there is no `.` (the C value is then `NULL + 1`). -/
def strchr_dot_plus1 : List Char → Option (List Char)
  | [] => none
  | c :: rest => if c = '.' then some rest else strchr_dot_plus1 rest

/-- The printf conversion `%-Ns`: the text, padded with blanks on the right up
to `width` characters. -/
def fmt_left (width : Nat) (s : String) : String :=
  s ++ String.mk (List.replicate (width - s.length) ' ')

/-- The printf conversion `%.8s` applied to a section name: at most 8 bytes,
stopping at a NUL. -/
def fmt_name8 (name : List Nat) : String :=
  text_of ((name.take 8).takeWhile (· ≠ 0))

/-- The printf conversion `%0Nx`: lower-case hexadecimal, zero-padded on the
left up to `width` digits. -/
def fmt_hex (width : Nat) (n : Nat) : String :=
  let digits := Nat.toDigits 16 n
  String.mk (List.replicate (width - digits.length) '0' ++ digits)

/-- The global state `pexports.c` reads while it dumps: the image buffer, the
section table, the symbol tree and the two option flags.
Modelled from the spec: the symbol tree of `str_tree.h` (not under src/), as
the lookup `name -> optional stack-argument size` that `str_tree_find` and
`symbol->extra` provide. -/
structure Ctx where
  image : List Nat
  sections : List IMAGE_SECTION_HEADER
  symbols : String → Option Int
  verbose : Bool
  ordinal_flag : Bool

/-- What one call of `dump_symbol` printed, piece by piece, together with the
arguments of the call: `s` is the buffer of lines 303/305, `head` the printf of
lines 309/311, `data` tells whether `printf(" DATA")` ran, and `notes` are the
verbose printfs in order. -/
structure Symbol where
  name : String
  ord : Int
  rva : Nat
  s : String
  head : String
  data : Bool
  notes : List String
  deriving DecidableEq, Repr

/-- The bytes one `dump_symbol` call wrote. -/
def Symbol.render (sym : Symbol) : String :=
  sym.head ++ (if sym.data then " DATA" else "") ++ String.join sym.notes

/-- Lines 300-305 of `dump_symbol`: the text `sprintf` writes to the buffer
`s`, the name with `@` and the stack size of its symbol when the tree has one. -/
def decorated_name (ctx : Ctx) (name : String) : String :=
  match ctx.symbols name with
  | some extra => name ++ "@" ++ toString extra
  | none => name

/-- The function `dump_symbol` (lines 296-329). The buffer `char s[256]` holds
texts of up to 255 characters; a longer one is a fault. -/
def dump_symbol (ctx : Ctx) (name : String) (ord : Int) (rva : Nat) : Except Fault Symbol :=
  let s := decorated_name ctx name
  if 256 ≤ s.length then .error .bufferOverflow
  else
    let head := if ctx.ordinal_flag then fmt_left 24 s ++ "\t@" ++ toString ord else s
    let (data, note) :=
      match find_section ctx.sections rva with
      | none => (true, " ; no section")
      | some sec =>
        (decide (sec.Characteristics &&& IMAGE_SCN_CNT_CODE = 0), " ; " ++ fmt_name8 sec.Name)
    .ok { name := name, ord := ord, rva := rva, s := s, head := head, data := data,
          notes := if ctx.verbose then [note, " ; RVA " ++ fmt_hex 8 rva] else [] }

/-- One line of standard output. `comment` is a verbose diagnostic line (its
text starts with `; `), `library` and `exports_kw` are the preamble,
`library_comment` is the `; LIBRARY name` line of a later `dump_exports` call,
`named` is the line of the named export of index `i` and `orphan` the line of
the function-table index `j` recovered from a forwarder; `usage` is the usage
text `main` prints when no file is named (several lines in one piece). -/
inductive Line where
  | usage (text : String)
  | comment (text : String)
  | library (name : String)
  | exports_kw
  | library_comment (name : String)
  | named (i : Nat) (sym : Symbol) (forwarder : Option String)
  | orphan (j : Nat) (sym : Symbol) (forwarder : String)
  deriving DecidableEq, Repr

/-- The bytes a line stands for. -/
def Line.render : Line → String
  | .usage text => text
  | .comment text => text ++ "\n"
  | .library name => "LIBRARY " ++ name ++ "\n"
  | .exports_kw => "EXPORTS\n"
  | .library_comment name => "; LIBRARY " ++ name ++ "\n"
  | .named _ sym none => sym.render ++ "\n"
  | .named _ sym (some fwd) => sym.render ++ " ; Forwarder (" ++ fwd ++ ")" ++ "\n"
  | .orphan _ sym fwd =>
    sym.render ++ " ; WARNING: Symbol name guessed from forwarder (" ++ fwd ++ ")\n"

/-- Modelled from the spec: the fields of `IMAGE_EXPORT_DIRECTORY`
(`pexports.h`, not under src/) in the standard PE/COFF export-table layout
(`Name` at byte 12, `Base` at 16, `NumberOfFunctions` at 20, `NumberOfNames` at
24, `AddressOfFunctions` at 28, `AddressOfNames` at 32, `AddressOfNameOrdinals`
at 36, all `uint32_t`), as read through `exports`, together with the four
pointers `dump_exports` sets up in lines 232-235. -/
structure ExportView where
  Name : Nat
  Base : Nat
  NumberOfFunctions : Nat
  NumberOfNames : Nat
  AddressOfFunctions : Nat
  AddressOfNames : Nat
  AddressOfNameOrdinals : Nat
  export_name : Option Nat
  name_table : Option Nat
  ordinal_table : Option Nat
  function_table : Option Nat
  deriving DecidableEq, Repr

/-- Lines 229-235 of `dump_exports`: the export directory at `exports_rva` and
the pointers to the module name and the three tables. -/
def export_view (ctx : Ctx) (exports_rva : Nat) : Except Fault ExportView := do
  let exports ← rva_to_ptr ctx.sections exports_rva
  let Name ← read_u32 ctx.image exports 12
  let export_name ← rva_to_ptr ctx.sections Name
  let AddressOfNames ← read_u32 ctx.image exports 32
  let name_table ← rva_to_ptr ctx.sections AddressOfNames
  let AddressOfNameOrdinals ← read_u32 ctx.image exports 36
  let ordinal_table ← rva_to_ptr ctx.sections AddressOfNameOrdinals
  let AddressOfFunctions ← read_u32 ctx.image exports 28
  let function_table ← rva_to_ptr ctx.sections AddressOfFunctions
  let Base ← read_u32 ctx.image exports 16
  let NumberOfFunctions ← read_u32 ctx.image exports 20
  let NumberOfNames ← read_u32 ctx.image exports 24
  pure { Name := Name, Base := Base, NumberOfFunctions := NumberOfFunctions,
         NumberOfNames := NumberOfNames, AddressOfFunctions := AddressOfFunctions,
         AddressOfNames := AddressOfNames, AddressOfNameOrdinals := AddressOfNameOrdinals,
         export_name := export_name, name_table := name_table,
         ordinal_table := ordinal_table, function_table := function_table }

/-- The test of lines 266 and 275-276: `rva` lies at or above `exports_rva` and
below `exports_rva + exports_size`, the sum taken in `uint32_t`. -/
def in_export_range (exports_rva exports_size rva : Nat) : Bool :=
  decide (exports_rva ≤ rva ∧ rva < (exports_rva + exports_size) % 2 ^ 32)

/-- The body of the loop of lines 258-271 for the index `i`: one named export
line. -/
def named_line (ctx : Ctx) (v : ExportView) (exports_rva exports_size i : Nat) :
    Except Fault Line := do
  let name_rva ← read_u32 ctx.image v.name_table (4 * i)
  let name_ptr ← rva_to_ptr ctx.sections name_rva
  let f_off ← read_u16 ctx.image v.ordinal_table (2 * i)
  let target ← read_u32 ctx.image v.function_table (4 * f_off)
  let name ← read_cstr ctx.image name_ptr
  let sym ← dump_symbol ctx name (to_int32 ((f_off + v.Base) % 2 ^ 32)) target
  if in_export_range exports_rva exports_size target && ctx.verbose then
    let fwd_ptr ← rva_to_ptr ctx.sections target
    let fwd ← read_cstr ctx.image fwd_ptr
    pure (Line.named i sym (some fwd))
  else
    pure (Line.named i sym none)

/-- The loop of lines 258-271, from index `i` on, with `count` iterations
left. -/
def named_pass (ctx : Ctx) (v : ExportView) (exports_rva exports_size : Nat) :
    Nat → Nat → Except Fault (List Line)
  | 0, _ => pure []
  | count + 1, i => do
    let line ← named_line ctx v exports_rva exports_size i
    let rest ← named_pass ctx v exports_rva exports_size count (i + 1)
    pure (line :: rest)

/-- The loop of lines 280-285: whether some `ordinal_table[n]`, from `n` on
with `count` entries left, equals `j`. -/
def name_present (ctx : Ctx) (v : ExportView) (j : Nat) : Nat → Nat → Except Fault Bool
  | 0, _ => pure false
  | count + 1, n => do
    let o ← read_u16 ctx.image v.ordinal_table (2 * n)
    if o = j then pure true else name_present ctx v j count (n + 1)

/-- The body of the loop of lines 273-293 for the index `j`: the line of a
recovered ordinal, or nothing. -/
def orphan_line (ctx : Ctx) (v : ExportView) (exports_rva exports_size j : Nat) :
    Except Fault (Option Line) := do
  let target ← read_u32 ctx.image v.function_table (4 * j)
  if in_export_range exports_rva exports_size target then
    let present ← name_present ctx v j v.NumberOfNames 0
    if present then pure none
    else
      let fwd_ptr ← rva_to_ptr ctx.sections target
      let fwd ← read_cstr ctx.image fwd_ptr
      match strchr_dot_plus1 fwd.data with
      | none => .error .nullPointer
      | some name =>
        let sym ← dump_symbol ctx (String.mk name) (to_int32 ((j + v.Base) % 2 ^ 32)) target
        pure (some (Line.orphan j sym fwd))
  else pure none

/-- The loop of lines 273-293, from index `j` on, with `count` iterations
left. -/
def orphan_pass (ctx : Ctx) (v : ExportView) (exports_rva exports_size : Nat) :
    Nat → Nat → Except Fault (List Line)
  | 0, _ => pure []
  | count + 1, j => do
    let line ← orphan_line ctx v exports_rva exports_size j
    let rest ← orphan_pass ctx v exports_rva exports_size count (j + 1)
    pure (line.toList ++ rest)

/-- The verbose lines 225-227 and 237-247 and the preamble of lines 249-256. -/
def export_header (ctx : Ctx) (first : Bool) (v : ExportView) (section_name export_name : String) :
    List Line :=
  (if ctx.verbose then
    [Line.comment ("; Reading exports from section: " ++ section_name),
     Line.comment ("; Export table: " ++ export_name),
     Line.comment ("; Ordinal base: " ++ toString (to_int32 v.Base)),
     Line.comment ("; Ordinal table RVA: " ++ fmt_hex 8 v.AddressOfNameOrdinals),
     Line.comment ("; Name table RVA: " ++ fmt_hex 7 v.AddressOfNames),
     Line.comment ("; Export address table RVA: " ++ fmt_hex 8 v.AddressOfFunctions)]
  else []) ++
  (if first then [Line.library export_name, Line.exports_kw]
  else [Line.library_comment export_name])

/-- Lines 223-227 of `dump_exports`: the name of the section found for
`exports_rva`, which only the verbose printf reads (through `section`, without
a `NULL` test). The `%s` has no precision: it prints the name up to its first
NUL, and for a name that fills all 8 bytes of `Name[8]` it reads on past the
array (into the header fields that follow), which is a fault. -/
def reading_section (ctx : Ctx) (exports_rva : Nat) : Except Fault String :=
  if ctx.verbose then
    match find_section ctx.sections exports_rva with
    | none => .error .nullSection
    | some sec =>
      match c_string (sec.Name.take 8) with
      | some name => pure (text_of name)
      | none => .error .outOfBounds
  else pure ""

/-- The function `dump_exports` (lines 211-294). `first` is the static flag of
line 221; the second component of the result is its value after the call.
The loop counters are naturals. -/
def dump_exports (ctx : Ctx) (first : Bool) (exports_rva exports_size : Nat) :
    Except Fault (List Line × Bool) := do
  let section_name ← reading_section ctx exports_rva
  let v ← export_view ctx exports_rva
  let export_name ← read_cstr ctx.image v.export_name
  let named ← named_pass ctx v exports_rva exports_size v.NumberOfNames 0
  let orphans ← orphan_pass ctx v exports_rva exports_size v.NumberOfFunctions 0
  pure (export_header ctx first v section_name export_name ++ named ++ orphans, false)

/-- The signature `exp_sign` of line 46: the bytes of `.edata`. -/
def exp_sign : List Nat := [0x2e, 0x65, 0x64, 0x61, 0x74, 0x61]

/-- The address the scan of lines 196-204 passes to `dump_exports` for one
section, if it calls it. -/
def scan_target (exp_rva : Nat) (sec : IMAGE_SECTION_HEADER) : Option Nat :=
  if sec.Name.take 6 = exp_sign then some sec.VirtualAddress
  else if sec.VirtualAddress ≤ exp_rva ∧
      exp_rva < (sec.VirtualAddress + sec.SizeOfRawData) % 2 ^ 32 then some exp_rva
  else none

/-- The loop of lines 196-204 of `main` over the sections still to visit;
`first` is the static flag of `dump_exports`. -/
def scan_sections (ctx : Ctx) (exp_rva exp_size : Nat) :
    List IMAGE_SECTION_HEADER → Bool → Except Fault (List Line × Bool)
  | [], first => pure ([], first)
  | sec :: rest, first => do
    let (out, first1) ←
      match scan_target exp_rva sec with
      | some rva => dump_exports ctx first rva exp_size
      | none => pure ([], first)
    let (more, first2) ← scan_sections ctx exp_rva exp_size rest first1
    pure (out ++ more, first2)

/-- The verbose line of lines 188-191 for one section. -/
def section_comment (sec : IMAGE_SECTION_HEADER) : Line :=
  Line.comment ("; " ++ fmt_left 8 (fmt_name8 sec.Name) ++ ": RVA: " ++
    fmt_hex 8 sec.VirtualAddress ++ ", File offset: " ++ fmt_hex 8 sec.PointerToRawData)

/-- The part of `main` that follows the loading of the image (lines 183-207),
for the export directory entry `(exp_rva, exp_size)` of the optional header:
the listing written to standard output. The exit status of this part is 0. -/
def main_listing (ctx : Ctx) (exp_rva exp_size : Nat) : Except Fault (List Line) := do
  let (out, _) ← scan_sections ctx exp_rva exp_size ctx.sections true
  pure ((if ctx.verbose then ctx.sections.map section_comment else []) ++ out)

/-- The four bytes of a `uint32_t`, little-endian. -/
def le32 (n : Nat) : List Nat :=
  [n % 256, n / 256 % 256, n / 65536 % 256, n / 16777216 % 256]

/-- The two bytes of a `uint16_t`, little-endian. -/
def le16 (n : Nat) : List Nat :=
  [n % 256, n / 256 % 256]

/-- The bytes of a NUL-terminated string. -/
def cstr (s : String) : List Nat :=
  s.data.map Char.toNat ++ [0]

/-- The bytes of an export directory record. -/
def export_directory (name base nfunctions nnames functions names ordinals : Nat) : List Nat :=
  le32 0 ++ le32 0 ++ le16 0 ++ le16 0 ++ le32 name ++ le32 base ++ le32 nfunctions ++
    le32 nnames ++ le32 functions ++ le32 names ++ le32 ordinals

/-- A run of bytes padded with zeros up to `size` bytes. -/
def pad_to (size : Nat) (bytes : List Nat) : List Nat :=
  bytes ++ List.replicate (size - bytes.length) 0

/-- Example section: code at RVA 0x1000, raw data at file offset 0x400. -/
def demo_text : IMAGE_SECTION_HEADER :=
  { Name := [0x2e, 0x74, 0x65, 0x78, 0x74, 0, 0, 0], VirtualAddress := 0x1000,
    SizeOfRawData := 0x200, PointerToRawData := 0x400, Characteristics := 0x60000020 }

/-- Example section: `.edata` at RVA 0x2000, raw data at file offset 0x200. -/
def demo_edata : IMAGE_SECTION_HEADER :=
  { Name := [0x2e, 0x65, 0x64, 0x61, 0x74, 0x61, 0, 0], VirtualAddress := 0x2000,
    SizeOfRawData := 0x200, PointerToRawData := 0x200, Characteristics := 0x40000040 }

/-- Example export data of `foo.dll`, placed at RVA 0x2000: base `base`, three
functions (code at 0x1010, a forwarder string at 0x2050, a forwarder string at
0x205f), and the two names `Bar` and `Baz` with ordinal indices 0 and 1. The
third function has no name. -/
def demo_export_data (base : Nat) : List Nat :=
  export_directory 0x2040 base 3 2 0x2028 0x2034 0x203c ++
    (le32 0x1010 ++ le32 0x2050 ++ le32 0x205f) ++
    (le32 0x2048 ++ le32 0x204c) ++
    (le16 0 ++ le16 1) ++
    cstr "foo.dll" ++ cstr "Bar" ++ cstr "Baz" ++
    cstr "KERNEL32.Sleep" ++ cstr "NTDLL.RtlFoo"

/-- Example file: 0x200 bytes of headers (not read by the functions modelled
here), the export data at 0x200, the code section at 0x400. -/
def demo_image (base : Nat) : List Nat :=
  List.replicate 0x200 0 ++ pad_to 0x200 (demo_export_data base) ++ List.replicate 0x200 0

/-- Example state: the example file, no symbol tree, the given flags. -/
def demo_ctx (base : Nat) (verbose ordinal_flag : Bool) : Ctx :=
  { image := demo_image base, sections := [demo_text, demo_edata],
    symbols := fun _ => none, verbose := verbose, ordinal_flag := ordinal_flag }

/-- Example section: code at RVA 0x1000 with 0x1000 bytes of raw data at file
offset 0x400; its inclusive range ends at RVA 0x2000. -/
def boundary_text : IMAGE_SECTION_HEADER :=
  { Name := [0x2e, 0x74, 0x65, 0x78, 0x74, 0, 0, 0], VirtualAddress := 0x1000,
    SizeOfRawData := 0x1000, PointerToRawData := 0x400, Characteristics := 0x60000020 }

/-- Example section: data at RVA 0x2000, raw data at file offset 0x1600. -/
def boundary_data : IMAGE_SECTION_HEADER :=
  { Name := [0x2e, 0x64, 0x61, 0x74, 0x61, 0, 0, 0], VirtualAddress := 0x2000,
    SizeOfRawData := 0x200, PointerToRawData := 0x1600, Characteristics := 0xC0000040 }

/-- The orphan test in the spec's words, for comparison with the code: the
function-table entry `j` is readable and lies in the export range
`[exports_rva, exports_rva + exports_size)` (sum in `uint32_t`), and no readable
entry `ordinal_table[n]`, `n < NumberOfNames`, equals `j`. -/
def orphan_ordinal (ctx : Ctx) (v : ExportView) (exports_rva exports_size j : Nat) : Bool :=
  match read_u32 ctx.image v.function_table (4 * j) with
  | .ok target =>
    in_export_range exports_rva exports_size target &&
      (List.range v.NumberOfNames).all fun n =>
        match read_u16 ctx.image v.ordinal_table (2 * n) with
        | .ok o => o != j
        | .error _ => true
  | .error _ => false

/-- Whether a line of the listing is an export line: the line of a named
export or of a recovered ordinal. -/
def Line.is_export : Line → Bool
  | .named _ _ _ => true
  | .orphan _ _ _ => true
  | _ => false

/-- Whether a line is the preamble line `LIBRARY name`. -/
def Line.is_library : Line → Bool
  | .library _ => true
  | _ => false

/-- Whether a line is the preamble line `EXPORTS`. -/
def Line.is_exports_kw : Line → Bool
  | .exports_kw => true
  | _ => false

/-- The export directory of the example file, as `dump_exports` reads it. -/
def demo_view (base : Nat) : ExportView :=
  { Name := 0x2040, Base := base, NumberOfFunctions := 3, NumberOfNames := 2,
    AddressOfFunctions := 0x2028, AddressOfNames := 0x2034, AddressOfNameOrdinals := 0x203c,
    export_name := some 0x240, name_table := some 0x234, ordinal_table := some 0x23c,
    function_table := some 0x228 }

/-- The lines `dump_exports` writes for the example with base 1, verbose off
and ordinals off. -/
def demo_listing : List Line :=
  [Line.library "foo.dll", Line.exports_kw,
   Line.named 0 (Symbol.mk "Bar" 1 0x1010 "Bar" "Bar" false []) none,
   Line.named 1 (Symbol.mk "Baz" 2 0x2050 "Baz" "Baz" true []) none,
   Line.orphan 2 (Symbol.mk "RtlFoo" 3 0x205f "RtlFoo" "RtlFoo" true []) "NTDLL.RtlFoo"]

/-- The lines `dump_exports` writes for the example with base 1, verbose on and
ordinals on. -/
def demo_listing_verbose : List Line :=
  [Line.comment "; Reading exports from section: .edata",
   Line.comment "; Export table: foo.dll",
   Line.comment "; Ordinal base: 1",
   Line.comment "; Ordinal table RVA: 0000203c",
   Line.comment "; Name table RVA: 0002034",
   Line.comment "; Export address table RVA: 00002028",
   Line.library "foo.dll", Line.exports_kw,
   Line.named 0 (Symbol.mk "Bar" 1 0x1010 "Bar" "Bar                     \t@1" false
     [" ; .text", " ; RVA 00001010"]) none,
   Line.named 1 (Symbol.mk "Baz" 2 0x2050 "Baz" "Baz                     \t@2" true
     [" ; .edata", " ; RVA 00002050"]) (some "KERNEL32.Sleep"),
   Line.orphan 2 (Symbol.mk "RtlFoo" 3 0x205f "RtlFoo" "RtlFoo                  \t@3" true
     [" ; .edata", " ; RVA 0000205f"]) "NTDLL.RtlFoo"]

/-- The lines `dump_exports` writes for the example with base 0x80000000,
verbose off and ordinals on. -/
def demo_listing_high_base : List Line :=
  [Line.library "foo.dll", Line.exports_kw,
   Line.named 0 (Symbol.mk "Bar" (-2147483648) 0x1010 "Bar"
     "Bar                     \t@-2147483648" false []) none,
   Line.named 1 (Symbol.mk "Baz" (-2147483647) 0x2050 "Baz"
     "Baz                     \t@-2147483647" true []) none,
   Line.orphan 2 (Symbol.mk "RtlFoo" (-2147483646) 0x205f "RtlFoo"
     "RtlFoo                  \t@-2147483646" true []) "NTDLL.RtlFoo"]

/-- Second example, section `.text`: code at RVA 0x1000, raw data at file
offset 0x600. -/
def twin_text : IMAGE_SECTION_HEADER :=
  { Name := [0x2e, 0x74, 0x65, 0x78, 0x74, 0, 0, 0], VirtualAddress := 0x1000,
    SizeOfRawData := 0x200, PointerToRawData := 0x600, Characteristics := 0x60000020 }

/-- Second example, section `.rdata`: read-only data at RVA 0x3000, raw data at
file offset 0x400. It holds the export directory the optional header names. -/
def twin_rdata : IMAGE_SECTION_HEADER :=
  { Name := [0x2e, 0x72, 0x64, 0x61, 0x74, 0x61, 0, 0], VirtualAddress := 0x3000,
    SizeOfRawData := 0x200, PointerToRawData := 0x400, Characteristics := 0x40000040 }

/-- Second example, the export data placed at RVA 0x3000: one function (code
at 0x1020) with the name `Qux`, base 1; 0x40 bytes. -/
def twin_export_data : List Nat :=
  export_directory 0x3034 1 1 1 0x3028 0x302c 0x3030 ++
    le32 0x1020 ++ le32 0x303c ++ (le16 0 ++ le16 0) ++ cstr "foo.dll" ++ cstr "Qux"

/-- Second example, the file: 0x200 bytes of headers, the data of `.edata`
(the export data of the first example) at 0x200, the data of `.rdata` at 0x400,
the code at 0x600. -/
def twin_image : List Nat :=
  List.replicate 0x200 0 ++ pad_to 0x200 (demo_export_data 1) ++
    pad_to 0x200 twin_export_data ++ List.replicate 0x200 0

/-- Second example, the state: sections `.text`, `.edata`, `.rdata` in file
order, no symbol tree, verbose off, ordinals off. The export directory entry
of its optional header is `(0x3000, 0x40)`. -/
def twin_ctx : Ctx :=
  { image := twin_image, sections := [twin_text, demo_edata, twin_rdata],
    symbols := fun _ => none, verbose := false, ordinal_flag := false }

/-- Second example, the export directory at RVA 0x3000 as `dump_exports` reads
it. -/
def twin_view : ExportView :=
  { Name := 0x3034, Base := 1, NumberOfFunctions := 1, NumberOfNames := 1,
    AddressOfFunctions := 0x3028, AddressOfNames := 0x302c, AddressOfNameOrdinals := 0x3030,
    export_name := some 0x434, name_table := some 0x42c, ordinal_table := some 0x430,
    function_table := some 0x428 }

/-- Second example, the listing `main` writes. -/
def twin_listing : List Line :=
  [Line.library "foo.dll", Line.exports_kw,
   Line.named 0 (Symbol.mk "Bar" 1 0x1010 "Bar" "Bar" false []) none,
   Line.named 1 (Symbol.mk "Baz" 2 0x2050 "Baz" "Baz" true []) none,
   Line.library_comment "foo.dll",
   Line.named 0 (Symbol.mk "Qux" 1 0x1020 "Qux" "Qux" false []) none]

/-- Whether a line is the comment line `; LIBRARY name` of a later
`dump_exports` call. -/
def Line.is_library_comment : Line → Bool
  | .library_comment _ => true
  | _ => false

/-- A sequence of `dump_exports` calls in one run, each with its
`(exports_rva, exports_size)`: the static flag `first` of line 221 passes from
each call to the next. The result lists the output of every call, in order. -/
def dump_exports_calls (ctx : Ctx) :
    List (Nat × Nat) → Bool → Except Fault (List (List Line) × Bool)
  | [], first => pure ([], first)
  | call :: rest, first => do
    let (out, first1) ← dump_exports ctx first call.1 call.2
    let (outs, first2) ← dump_exports_calls ctx rest first1
    pure (out :: outs, first2)

/-- Third example, a second header for the data of `.edata`: a section
`.rdata` with the same range, RVA 0x2000 and file offset 0x200. -/
def alias_rdata : IMAGE_SECTION_HEADER :=
  { Name := [0x2e, 0x72, 0x64, 0x61, 0x74, 0x61, 0, 0], VirtualAddress := 0x2000,
    SizeOfRawData := 0x200, PointerToRawData := 0x200, Characteristics := 0x40000040 }

/-- Third example, the state: the file of the first example with the section
table `.text`, `.edata`, `.rdata`; verbose off, ordinals off. The export
directory entry of its optional header is `(0x2000, 0x6c)`. -/
def alias_ctx : Ctx :=
  { image := demo_image 1, sections := [demo_text, demo_edata, alias_rdata],
    symbols := fun _ => none, verbose := false, ordinal_flag := false }
/-- Modelled from the spec: the machine code `IMAGE_FILE_MACHINE_I386` of
`pexports.h` (not under src/), `0x014c` in the PE/COFF format. -/
def IMAGE_FILE_MACHINE_I386 : Nat := 0x14c

/-- The `count` bytes at byte offset `i` from `p`. -/
def read_bytes (image : List Nat) (p : Option Nat) (i : Nat) : Nat → Except Fault (List Nat)
  | 0 => pure []
  | count + 1 => do
    let b ← read_byte image p i
    let rest ← read_bytes image p (i + 1) count
    pure (b :: rest)

/-- Modelled from the spec: the field `e_lfanew` of `IMAGE_DOS_HEADER`
(`pexports.h`, not under src/), the 4-byte offset of the extended header, at
byte 0x3c of the file. It is read as an unsigned offset; a signed reading
differs only for values from 2^31 on, which lie outside every file shorter
than 2 GiB. -/
def e_lfanew (image : List Nat) : Except Fault Nat :=
  read_u32 image (some 0) 0x3c

/-- Lines 172-181 of `main`: the export directory entry `DataDirectory[0]` of
the optional header, `(VirtualAddress, Size)`.
Modelled from the spec: the layout of `IMAGE_NT_HEADERS32/64` (`pexports.h`,
not under src/) in the PE/COFF format: the machine field at byte 4 of the NT
headers, the optional header at byte 24, its data directory at byte 96 (32-bit
layout) or 112 (64-bit layout). -/
def export_entry (image : List Nat) : Except Fault (Nat × Nat) := do
  let nt ← e_lfanew image
  let machine ← read_u16 image (some nt) 4
  if machine = IMAGE_FILE_MACHINE_I386 then
    let exp_rva ← read_u32 image (some nt) 120
    let exp_size ← read_u32 image (some nt) 124
    pure (exp_rva, exp_size)
  else
    let exp_rva ← read_u32 image (some nt) 136
    let exp_size ← read_u32 image (some nt) 140
    pure (exp_rva, exp_size)

/-- The macro `IMAGE_SECTION_HDR(n)` (lines 20-25) and the fields read through
it: the section header `n`, 40 bytes, at `4 + sizeof(IMAGE_FILE_HEADER) +
SizeOfOptionalHeader + 40 * n` from the NT headers.
Modelled from the spec: the layout of the 40-byte section record (`pexports.h`,
not under src/) in the PE/COFF format: name at byte 0, virtual address at 12,
size of raw data at 16, pointer to raw data at 20, characteristics at 36; the
file header is 20 bytes. -/
def IMAGE_SECTION_HDR (image : List Nat) (nt optional_size n : Nat) :
    Except Fault IMAGE_SECTION_HEADER := do
  let p := some (nt + 4 + 20 + optional_size + 40 * n)
  let name ← read_bytes image p 0 8
  let va ← read_u32 image p 12
  let size ← read_u32 image p 16
  let raw ← read_u32 image p 20
  let flags ← read_u32 image p 36
  pure { Name := name, VirtualAddress := va, SizeOfRawData := size, PointerToRawData := raw,
         Characteristics := flags }

/-- The section headers `n, n + 1, ...` with `count` headers left. -/
def section_headers (image : List Nat) (nt optional_size : Nat) :
    Nat → Nat → Except Fault (List IMAGE_SECTION_HEADER)
  | 0, _ => pure []
  | count + 1, n => do
    let sec ← IMAGE_SECTION_HDR image nt optional_size n
    let rest ← section_headers image nt optional_size count (n + 1)
    pure (sec :: rest)

/-- The section table `IMAGE_SECTION_HDR(0 .. NumberOfSections - 1)` of a
loaded image: `NumberOfSections` is the 16-bit field at byte 6 of the NT
headers and `SizeOfOptionalHeader` the one at byte 20. The C code reads a
field of a section header when it needs it; the model reads the whole table,
so it has a fault where a header of the table runs past the end of the file
even if the C code would not touch the missing bytes. -/
def section_table (image : List Nat) : Except Fault (List IMAGE_SECTION_HEADER) := do
  let nt ← e_lfanew image
  let count ← read_u16 image (some nt) 6
  let optional_size ← read_u16 image (some nt) 20
  section_headers image nt optional_size count 0

/-- The 64 bytes of a DOS header: `MZ`, and `e_lfanew = 0x40`. -/
def dos_header : List Nat :=
  [0x4d, 0x5a] ++ List.replicate 58 0 ++ le32 0x40

/-- The 248 bytes of 32-bit NT headers: `PE\0\0`, the file header (machine
0x14c, the section count, optional header size 0xe0) and the optional header
with the export directory entry in `DataDirectory[0]`. -/
def nt_headers32 (nsections exp_rva exp_size : Nat) : List Nat :=
  [0x50, 0x45, 0, 0] ++
    (le16 0x14c ++ le16 nsections ++ le32 0 ++ le32 0 ++ le32 0 ++ le16 0xe0 ++ le16 0x2102) ++
    (le16 0x10b ++ List.replicate 94 0) ++ (le32 exp_rva ++ le32 exp_size) ++
    List.replicate 120 0

/-- The 40 bytes of a section header. -/
def section_bytes (sec : IMAGE_SECTION_HEADER) : List Nat :=
  sec.Name ++ le32 sec.SizeOfRawData ++ le32 sec.VirtualAddress ++ le32 sec.SizeOfRawData ++
    le32 sec.PointerToRawData ++ List.replicate 12 0 ++ le32 sec.Characteristics

/-- A 32-bit PE file: the headers and the section table, padded to 0x200
bytes, then the raw data of the sections. -/
def pe_file (sections : List IMAGE_SECTION_HEADER) (exp_rva exp_size : Nat)
    (data : List Nat) : List Nat :=
  pad_to 0x200
    (dos_header ++ nt_headers32 sections.length exp_rva exp_size ++
      (sections.map section_bytes).flatten) ++ data

/-- The spec's example, the export data of `foo.dll` placed at RVA 0x2000:
base 1, the two functions at 0x1010 and 0x1020 (code), the names `Bar` and
`Baz` with ordinal indices 0 and 1; 0x4c bytes. -/
def foo_export_data : List Nat :=
  export_directory 0x203c 1 2 2 0x2028 0x2030 0x2038 ++
    (le32 0x1010 ++ le32 0x1020) ++ (le32 0x2044 ++ le32 0x2048) ++ (le16 0 ++ le16 1) ++
    cstr "foo.dll" ++ cstr "Bar" ++ cstr "Baz"

/-- The spec's example, the file `foo.dll`: sections `.text` (code, RVA 0x1000,
file offset 0x400) and `.edata` (RVA 0x2000, file offset 0x200), export
directory entry `(0x2000, 0x4c)`. -/
def foo_dll : List Nat :=
  pe_file [demo_text, demo_edata] 0x2000 0x4c
    (pad_to 0x200 foo_export_data ++ List.replicate 0x200 0)

/-- The spec's example, the state after loading `foo.dll` with the given
flags and no symbol tree. -/
def foo_ctx (verbose ordinal_flag : Bool) : Ctx :=
  { image := foo_dll, sections := [demo_text, demo_edata],
    symbols := fun _ => none, verbose := verbose, ordinal_flag := ordinal_flag }

/-- The spec's example, the listing with ordinal display on and verbose off. -/
def foo_listing_ordinal : List Line :=
  [Line.library "foo.dll", Line.exports_kw,
   Line.named 0 (Symbol.mk "Bar" 1 0x1010 "Bar" "Bar                     \t@1" false []) none,
   Line.named 1 (Symbol.mk "Baz" 2 0x1020 "Baz" "Baz                     \t@2" false []) none]

/-- The spec's example, the listing with ordinal display off and verbose off. -/
def foo_listing : List Line :=
  [Line.library "foo.dll", Line.exports_kw,
   Line.named 0 (Symbol.mk "Bar" 1 0x1010 "Bar" "Bar" false []) none,
   Line.named 1 (Symbol.mk "Baz" 2 0x1020 "Baz" "Baz" false []) none]
/-- Fourth example, a section `.rdata` whose range holds RVA 0x2000 and which
has no raw data in the file (`PointerToRawData` is 0). -/
def hollow_rdata : IMAGE_SECTION_HEADER :=
  { Name := [0x2e, 0x72, 0x64, 0x61, 0x74, 0x61, 0, 0], VirtualAddress := 0x2000,
    SizeOfRawData := 0x200, PointerToRawData := 0, Characteristics := 0x40000040 }

/-- Fourth example, the state: sections `.text` and the hollow `.rdata`,
verbose off, ordinals off; the export directory entry is `(0x2000, 0x6c)`. -/
def hollow_ctx : Ctx :=
  { image := demo_image 1, sections := [demo_text, hollow_rdata],
    symbols := fun _ => none, verbose := false, ordinal_flag := false }

/-- The spec's example with a symbol tree that lists `Bar` with 8 bytes of
stack arguments. -/
def stdcall_ctx : Ctx :=
  { image := foo_dll, sections := [demo_text, demo_edata],
    symbols := fun name => if name = "Bar" then some 8 else none,
    verbose := false, ordinal_flag := false }

/-- The signature `mz_sign` of line 44: the bytes of `MZ`. -/
def mz_sign : List Nat := [0x4d, 0x5a]

/-- The signature `pe_sign` of line 45: the bytes of `PE\0\0`. -/
def pe_sign : List Nat := [0x50, 0x45, 0, 0]

/-- The function `load_pe_image` (lines 353-402). The argument is the content
of the named file, `none` when `stat`, `fopen` or `fread` fails on it; the
result is the buffered image, `none` for the `NULL` the function returns when
it fails. An empty file makes `fread(phdr, 0, 1, f)` return 0, which the code
takes for a read failure. The two `memcmp` calls and the read of `e_lfanew`
are reads of the buffer, faults where the file is too short for them. A
failing `malloc` (which ends the run with status 1) is not modelled. -/
def load_pe_image (file : Option (List Nat)) : Except Fault (Option (List Nat)) :=
  match file with
  | none => pure none
  | some content =>
    if content.length = 0 then pure none
    else do
      let magic ← read_bytes content (some 0) 0 2
      if magic ≠ mz_sign then pure none
      else
        let off ← e_lfanew content
        let signature ← read_bytes content (some off) 0 4
        if signature ≠ pe_sign then pure none else pure (some content)
/-- The function `str_list_add` (lines 490-508): a copy of the string is put
at the end of the list. A failing `malloc` (which ends the run with status 1)
is not modelled. -/
def str_list_add {α : Type} (head : List α) (s : α) : List α :=
  head ++ [s]

/-- The byte `buf[p]` of a string buffer: `buf` holds the characters of the
string, and the terminating NUL follows them. -/
def byte_at (buf : List Nat) (p : Nat) : Nat :=
  buf.getD p 0

/-- The C string that starts at index `start` of a string buffer: the bytes up
to the first NUL. -/
def string_at (buf : List Nat) (start : Nat) : List Nat :=
  (buf.drop start).takeWhile (· ≠ 0)

/-- The loop of lines 546-556 of `add_path_list`, with `fuel` iterations at
most: the state is the buffer, the index `p`, the index `path` where the
current segment starts, and the list `inc_path`. At a separator the code
writes a NUL over it, adds the string at `path`, and writes the separator
back. `sep` is `PATH_SEPARATOR` (`;` on Windows, `:` elsewhere). -/
def add_path_loop (sep : Nat) :
    Nat → List Nat → Nat → Nat → List (List Nat) → List Nat × Nat × Nat × List (List Nat)
  | 0, buf, p, path, inc_path => (buf, p, path, inc_path)
  | fuel + 1, buf, p, path, inc_path =>
    if byte_at buf p = 0 then (buf, p, path, inc_path)
    else if byte_at buf p = sep then
      let buf1 := buf.set p 0
      let inc_path1 := str_list_add inc_path (string_at buf1 path)
      let buf2 := buf1.set p sep
      add_path_loop sep fuel buf2 (p + 1) (p + 1) inc_path1
    else add_path_loop sep fuel buf (p + 1) path inc_path

/-- The function `add_path_list` (lines 539-559) for the path list `path`
(`none` is `NULL`, else the characters of the string): the new `inc_path` and
the content of the buffer afterwards. The loop gets one iteration more than
the string has characters, which is enough for it to reach the terminating
NUL. For the empty string the test `p[-1] != PATH_SEPARATOR` reads the byte
before the buffer, a fault. -/
def add_path_list (sep : Nat) (inc_path : List (List Nat)) (path : Option (List Nat)) :
    Except Fault (List (List Nat) × Option (List Nat)) :=
  match path with
  | none => pure (inc_path, none)
  | some buf =>
    let (buf1, p, path1, inc_path1) := add_path_loop sep (buf.length + 1) buf 0 0 inc_path
    if p = 0 then .error .outOfBounds
    else if byte_at buf1 (p - 1) ≠ sep then
      pure (str_list_add inc_path1 (string_at buf1 path1), some buf1)
    else pure (inc_path1, some buf1)

/-- What `main` sees of the world around it. `file` gives the bytes of the
file at a path that can be opened and read, `none` otherwise. The two
include-path variables are `none` when unset. `PATH_SEPARATOR` and `PATH_MAX`
are the macros of the platform headers, and the two `PACKAGE_` strings are the
macros of the build configuration that the usage text prints. -/
structure World where
  file : String → Option (List Nat)
  /-- Modelled from the spec: the parser `yyparse` of the header grammar
  (`hparse`, not under src/), run on the output of the command that `popen`
  starts: the symbol tree it builds, `none` when `popen` fails. The parser
  writes nothing to standard output. -/
  popen : String → Option (String → Option Int)
  C_INCLUDE_PATH : Option (List Nat)
  CPLUS_INCLUDE_PATH : Option (List Nat)
  PATH_SEPARATOR : Nat
  PATH_MAX : Nat
  PACKAGE_VERSION_STRING : String
  PACKAGE_BUG_REPORT : String

/-- The globals the command line sets (lines 52-61): the two flags, the list
of header files, the preprocessor command and the file name. -/
structure Options where
  verbose : Bool
  ordinal_flag : Bool
  header_files : List String
  cpp : String
  filename : Option String

/-- The initial values of the globals of lines 52-61. -/
def initial_options : Options :=
  { verbose := false, ordinal_flag := false, header_files := [], cpp := "gcc -E -xc-header",
    filename := none }

/-- The loop of lines 104-140 of `main` over `argv[1..]`; `none` is the
`return 1` after a message on standard error (an unknown option, or `-h` or
`-p` without an argument). Only the character after `-` selects the option. -/
def parse_args : List String → Options → Option Options
  | [], o => some o
  | arg :: rest, o =>
    match arg.data with
    | '-' :: flag =>
      match flag.head? with
      | some 'v' => parse_args rest { o with verbose := true }
      | some 'o' => parse_args rest { o with ordinal_flag := true }
      | some 'h' =>
        match rest with
        | [] => none
        | header :: rest1 =>
          parse_args rest1 { o with header_files := str_list_add o.header_files header }
      | some 'p' =>
        match rest with
        | [] => none
        | command :: rest1 => parse_args rest1 { o with cpp := command }
      | _ => none
    | _ => parse_args rest { o with filename := some arg }

/-- The loop of lines 522-534 of `find_file` over the include path: the first
`path/name` that can be opened. `strcpy` and `strcat` build the name in
`fullname[PATH_MAX]`; a name that does not fit is a fault. -/
def find_in_path (w : World) (name : String) : List (List Nat) → Except Fault (Option String)
  | [] => pure none
  | path :: rest =>
    let fullname := text_of path ++ "/" ++ name
    if w.PATH_MAX ≤ fullname.length then .error .bufferOverflow
    else if (w.file fullname).isSome then pure (some fullname)
    else find_in_path w name rest

/-- The function `find_file` (lines 510-537): the name itself when it can be
opened, else the first hit in the include path, else `NULL`. -/
def find_file (w : World) (inc_path : List (List Nat)) (name : String) :
    Except Fault (Option String) :=
  if (w.file name).isSome then pure (some name) else find_in_path w name inc_path

/-- The loop of lines 431-453 of `parse_headers`: the text appended to the
command for the headers still to visit, ` -include name` for a header that has
a successor and ` name` for the last; `none` when a header is not found. -/
def header_arguments (w : World) (inc_path : List (List Nat)) :
    List String → Except Fault (Option String)
  | [] => pure (some "")
  | header :: rest => do
    match ← find_file w inc_path header with
    | none => pure none
    | some fullname =>
      match ← header_arguments w inc_path rest with
      | none => pure none
      | some more =>
        pure (some ((if rest = [] then " " ++ fullname else " -include " ++ fullname) ++ more))

/-- The function `parse_headers` (lines 404-476): what it writes to standard
output, and the symbol tree it leaves, `none` when it ends the run with
`exit(1)` (a header that is not found, or a failing `popen`). Without header
files the tree stays empty. The command is modelled as a text; the NUL bytes
that line 454 and the `sprintf` of line 450 write one byte past the block
`realloc` returned are not tracked. -/
def parse_headers (w : World) (inc_path : List (List Nat)) (o : Options) :
    Except Fault (List Line × Option (String → Option Int)) :=
  if o.header_files = [] then pure ([], some fun _ => none)
  else do
    match ← header_arguments w inc_path o.header_files with
    | none => pure ([], none)
    | some arguments =>
      let cpp_cmd := o.cpp ++ arguments
      let shown := if o.verbose then [Line.comment ("; " ++ cpp_cmd)] else []
      match w.popen cpp_cmd with
      | none => pure (shown, none)
      | some symbols => pure (shown, some symbols)

/-- The usage text of lines 144-157. -/
def usage_text (w : World) (program_name : String) : String :=
  "PExports " ++ w.PACKAGE_VERSION_STRING ++
    "; Originally written 1998, Anders Norlander\n" ++
    "Updated 1999, Paul Sokolovsky, 2008, Tor Lillqvist, 2013, 2015, Keith Marshall\n" ++
    "Copyright (C) 1998, 1999, 2008, 2013, 2015, MinGW.org Project\n\n" ++
    "This program is free software; you may redistribute it under the terms of\n" ++
    "the GNU General Public License.  This program has absolutely no warranty.\n" ++
    "\nUsage: " ++ program_name ++ " [-v] [-o] [-h header] [-p preprocessor] dll\n" ++
    "  -h\tparse header\n" ++
    "  -o\tprint ordinals\n" ++
    "  -p\tset preprocessor program\n" ++
    "  -v\tverbose mode\n" ++
    "\nReport bugs as directed at " ++ w.PACKAGE_BUG_REPORT ++ "\n"

/-- What a run of `main` leaves: the lines on standard output and the exit
status. -/
structure Outcome where
  stdout : List Line
  status : Nat
  deriving DecidableEq, Repr

/-- Lines 95-97 of `main`: the include path built from the two environment
variables. -/
def include_paths (w : World) : Except Fault (List (List Nat)) := do
  let (inc_path1, _) ← add_path_list w.PATH_SEPARATOR [] w.C_INCLUDE_PATH
  let (inc_path2, _) ← add_path_list w.PATH_SEPARATOR inc_path1 w.CPLUS_INCLUDE_PATH
  pure inc_path2

/-- Lines 164-207 of `main`, from `load_pe_image` on, for the file content
`file`, the output `shown` written so far and the symbol tree. -/
def main_load (file : Option (List Nat)) (o : Options) (symbols : String → Option Int)
    (shown : List Line) : Except Fault Outcome := do
  match ← load_pe_image file with
  | none => pure { stdout := shown, status := 1 }
  | some image =>
    let (exp_rva, exp_size) ← export_entry image
    let sections ← section_table image
    let listing ← main_listing
      { image := image, sections := sections, symbols := symbols, verbose := o.verbose,
        ordinal_flag := o.ordinal_flag } exp_rva exp_size
    pure { stdout := shown ++ listing, status := 0 }

/-- The function `main` (lines 65-208) for the argument vector `argv`, whose
first entry is the program name. The Windows-only lines 72-91 are left out. -/
def main (w : World) (argv : List String) : Except Fault Outcome := do
  let inc_path ← include_paths w
  match parse_args argv.tail initial_options with
  | none => pure { stdout := [], status := 1 }
  | some o =>
    match o.filename with
    | none => pure { stdout := [Line.usage (usage_text w (argv.headD ""))], status := 1 }
    | some filename =>
      let (shown, symbols) ← parse_headers w inc_path o
      match symbols with
      | none => pure { stdout := shown, status := 1 }
      | some symbols => main_load (w.file filename) o symbols shown

/-- Fifth example, the world: the header `foo.h`, the file `foo.dll` of the
spec's example, the file `bad.dll` of 64 zero bytes (no `MZ` signature) and
the file `plain.exe` with the one section `.text` (RVA 0x1000, 0x200 bytes)
and the export directory entry `(0x1200, 0x28)`, one byte past that section; the
preprocessor runs and yields an empty symbol tree; no include-path variable
is set. -/
def demo_world : World :=
  { file := fun name =>
      if name = "foo.h" then some [0x0a]
      else if name = "foo.dll" then some foo_dll
      else if name = "bad.dll" then some (List.replicate 64 0)
      else if name = "plain.exe" then
        some (pe_file [demo_text] 0x1200 0x28 (List.replicate 0x400 0))
      else none,
    popen := fun _ => some fun _ => none,
    C_INCLUDE_PATH := none, CPLUS_INCLUDE_PATH := none,
    PATH_SEPARATOR := 58, PATH_MAX := 260,
    PACKAGE_VERSION_STRING := "0.47", PACKAGE_BUG_REPORT := "http://mingw.org/Reporting_Bugs" }

/-- Sixth example, the export data: that of the first example with the
ordinal table `[1, 0]` in place of `[0, 1]`, so the first name `Bar` has the
higher ordinal 2 (its target 0x2050 is the forwarder string `KERNEL32.Sleep`)
and the second name `Baz` the ordinal 1 (target 0x1010 in `.text`). -/
def shuffled_export_data : List Nat :=
  export_directory 0x2040 1 3 2 0x2028 0x2034 0x203c ++
    (le32 0x1010 ++ le32 0x2050 ++ le32 0x205f) ++
    (le32 0x2048 ++ le32 0x204c) ++
    (le16 1 ++ le16 0) ++
    cstr "foo.dll" ++ cstr "Bar" ++ cstr "Baz" ++
    cstr "KERNEL32.Sleep" ++ cstr "NTDLL.RtlFoo"

/-- Sixth example, the state: the sections of the first example, verbose off,
ordinals on. -/
def shuffled_ctx : Ctx :=
  { image := List.replicate 0x200 0 ++ pad_to 0x200 shuffled_export_data ++
      List.replicate 0x200 0,
    sections := [demo_text, demo_edata],
    symbols := fun _ => none, verbose := false, ordinal_flag := true }

/-- Sixth example, the listing. -/
def shuffled_listing : List Line :=
  [Line.library "foo.dll", Line.exports_kw,
   Line.named 0 (Symbol.mk "Bar" 2 0x2050 "Bar" (fmt_left 24 "Bar" ++ "\t@2") true []) none,
   Line.named 1 (Symbol.mk "Baz" 1 0x1010 "Baz" (fmt_left 24 "Baz" ++ "\t@1") false []) none,
   Line.orphan 2 (Symbol.mk "RtlFoo" 3 0x205f "RtlFoo" (fmt_left 24 "RtlFoo" ++ "\t@3") true [])
     "NTDLL.RtlFoo"]

/-- Fourth example, the file: `hollow.dll` with the section table `.text` and
the hollow `.rdata` (no raw data), the export directory entry `(0x2000, 0x6c)`
and the data of the first example behind the headers. -/
def hollow_dll : List Nat :=
  pe_file [demo_text, hollow_rdata] 0x2000 0x6c
    (pad_to 0x200 (demo_export_data 1) ++ List.replicate 0x200 0)

/-- Fourth example, the world: the one file `hollow.dll`, no include-path
variable. -/
def hollow_world : World :=
  { demo_world with file := fun name => if name = "hollow.dll" then some hollow_dll else none }

set_option maxRecDepth 100000

/-! ## Section lookup and RVA resolution -/

theorem find_section_eq_none_iff (sections : List IMAGE_SECTION_HEADER) (rva : Nat) :
    find_section sections rva = none ↔
      ∀ s ∈ sections,
        ¬ (s.VirtualAddress ≤ rva ∧ rva ≤ (s.VirtualAddress + s.SizeOfRawData) % 2 ^ 32) := by
  induction sections with
  | nil => simp [find_section]
  | cons sec rest ih =>
    by_cases h : sec.VirtualAddress ≤ rva ∧
        rva ≤ (sec.VirtualAddress + sec.SizeOfRawData) % 2 ^ 32
    · simp only [find_section, if_pos h, List.forall_mem_cons]
      exact ⟨fun hh => (by cases hh), fun hh => absurd h hh.1⟩
    · simp only [find_section, if_neg h, ih, List.forall_mem_cons]
      exact ⟨fun hr => ⟨h, hr⟩, fun hr => hr.2⟩

theorem find_section_eq_some_iff (sections : List IMAGE_SECTION_HEADER) (rva : Nat)
    (s : IMAGE_SECTION_HEADER) :
    find_section sections rva = some s ↔
      ∃ before after, sections = before ++ s :: after ∧
        (∀ t ∈ before,
          ¬ (t.VirtualAddress ≤ rva ∧ rva ≤ (t.VirtualAddress + t.SizeOfRawData) % 2 ^ 32)) ∧
        s.VirtualAddress ≤ rva ∧ rva ≤ (s.VirtualAddress + s.SizeOfRawData) % 2 ^ 32 := by
  induction sections with
  | nil => simp [find_section]
  | cons sec rest ih =>
    by_cases h : sec.VirtualAddress ≤ rva ∧
        rva ≤ (sec.VirtualAddress + sec.SizeOfRawData) % 2 ^ 32
    · simp only [find_section, if_pos h, Option.some.injEq]
      constructor
      · rintro rfl
        exact ⟨[], rest, rfl, by simp, h.1, h.2⟩
      · rintro ⟨before, after, heq, hbefore, _, _⟩
        cases before with
        | nil =>
          simp only [List.nil_append, List.cons.injEq] at heq
          exact heq.1
        | cons b bs =>
          simp only [List.cons_append, List.cons.injEq] at heq
          exact absurd (heq.1 ▸ h) (hbefore b (by simp))
    · simp only [find_section, if_neg h, ih]
      constructor
      · rintro ⟨before, after, heq, hbefore, hlo, hhi⟩
        refine ⟨sec :: before, after, by simp [heq], ?_, hlo, hhi⟩
        intro t ht
        rcases List.mem_cons.mp ht with rfl | ht
        · exact h
        · exact hbefore t ht
      · rintro ⟨before, after, heq, hbefore, hlo, hhi⟩
        cases before with
        | nil =>
          simp only [List.nil_append, List.cons.injEq] at heq
          exact absurd (heq.1 ▸ ⟨hlo, hhi⟩) h
        | cons b bs =>
          simp only [List.cons_append, List.cons.injEq] at heq
          exact ⟨bs, after, heq.2, fun t ht => hbefore t (by simp [ht]), hlo, hhi⟩

/-- C1: for every section table and every rva, `find_section` returns none
exactly when no section passes the range test `VirtualAddress <= rva <=
(VirtualAddress + SizeOfRawData) mod 2^32`, and it returns the section `s`
exactly when `s` stands in the table after sections that all fail the test and
passes it itself, that is, `s` is the first section in file order that passes. -/
theorem find_section_first_match (sections : List IMAGE_SECTION_HEADER) (rva : Nat) :
    (find_section sections rva = none ↔
      ∀ s ∈ sections,
        ¬ (s.VirtualAddress ≤ rva ∧ rva ≤ (s.VirtualAddress + s.SizeOfRawData) % 2 ^ 32)) ∧
    (∀ s, find_section sections rva = some s ↔
      ∃ before after, sections = before ++ s :: after ∧
        (∀ t ∈ before,
          ¬ (t.VirtualAddress ≤ rva ∧ rva ≤ (t.VirtualAddress + t.SizeOfRawData) % 2 ^ 32)) ∧
        s.VirtualAddress ≤ rva ∧ rva ≤ (s.VirtualAddress + s.SizeOfRawData) % 2 ^ 32) :=
  ⟨find_section_eq_none_iff sections rva, find_section_eq_some_iff sections rva⟩

/-- C2, as stated, fails: RVA 0x2000 lies in the range of the section
`boundary_data` of the table, whose raw-data offset is not zero, and the claim
gives `0x2000 - 0x2000 + 0x1600 = 0x1600`; `rva_to_ptr` gives `0x1400`, computed
from `boundary_text`, the earlier section whose inclusive range also holds
0x2000. -/
theorem rva_to_ptr_not_by_every_section :
    boundary_data ∈ [boundary_text, boundary_data] ∧
    boundary_data.VirtualAddress ≤ 0x2000 ∧
    0x2000 ≤ boundary_data.VirtualAddress + boundary_data.SizeOfRawData ∧
    boundary_data.PointerToRawData ≠ 0 ∧
    0x2000 - boundary_data.VirtualAddress + boundary_data.PointerToRawData = 0x1600 ∧
    rva_to_ptr [boundary_text, boundary_data] 0x2000 = .ok (some 0x1400) := by
  refine ⟨by simp, by decide, by decide, by decide, by decide, ?_⟩
  rfl

/-- C2, amended: when `S` is the first section in file order whose range test
`VirtualAddress <= rva <= (VirtualAddress + SizeOfRawData) mod 2^32` holds,
`rva_to_ptr` returns the offset `rva - S.VirtualAddress + S.PointerToRawData`
if `S.PointerToRawData` is not zero, and none (`NULL`) if it is zero. -/
theorem rva_to_ptr_first_section (before after : List IMAGE_SECTION_HEADER)
    (S : IMAGE_SECTION_HEADER) (rva : Nat)
    (hbefore : ∀ t ∈ before,
      ¬ (t.VirtualAddress ≤ rva ∧ rva ≤ (t.VirtualAddress + t.SizeOfRawData) % 2 ^ 32))
    (hlo : S.VirtualAddress ≤ rva)
    (hhi : rva ≤ (S.VirtualAddress + S.SizeOfRawData) % 2 ^ 32) :
    (S.PointerToRawData ≠ 0 →
      rva_to_ptr (before ++ S :: after) rva =
        .ok (some (rva - S.VirtualAddress + S.PointerToRawData))) ∧
    (S.PointerToRawData = 0 → rva_to_ptr (before ++ S :: after) rva = .ok none) := by
  have hfound : find_section (before ++ S :: after) rva = some S :=
    (find_section_eq_some_iff _ rva S).mpr ⟨before, after, rfl, hbefore, hlo, hhi⟩
  constructor
  · intro hp
    simp [rva_to_ptr, hfound, hp]
  · intro hp
    simp [rva_to_ptr, hfound, hp]

/-- Witness of C2 (amended): RVA 0x2100 is first held by `boundary_data`. -/
theorem rva_to_ptr_first_section_witness :
    rva_to_ptr [boundary_text, boundary_data] 0x2100 = .ok (some 0x1700) :=
  (rva_to_ptr_first_section [boundary_text] [] boundary_data 0x2100
    (by decide) (by decide) (by decide)).1 (by decide)

/-- C3, the code at a failing input: no section of the table holds RVA 0x5000,
`find_section` returns `NULL`, and `rva_to_ptr` dereferences it
(`section->PointerToRawData`) instead of returning `NULL`. -/
theorem rva_to_ptr_unplaced_rva_faults :
    find_section [demo_text, demo_edata] 0x5000 = none ∧
    rva_to_ptr [demo_text, demo_edata] 0x5000 = .error .nullSection :=
  ⟨rfl, rfl⟩

/-! ## The line renderer -/

theorem dump_symbol_ok (ctx : Ctx) (name : String) (ord : Int) (rva : Nat) (sym : Symbol) :
    dump_symbol ctx name ord rva = .ok sym ↔
      (decorated_name ctx name).length < 256 ∧
      sym = { name := name, ord := ord, rva := rva, s := decorated_name ctx name,
              head := if ctx.ordinal_flag then
                  fmt_left 24 (decorated_name ctx name) ++ "\t@" ++ toString ord
                else decorated_name ctx name,
              data := match find_section ctx.sections rva with
                | none => true
                | some sec => decide (sec.Characteristics &&& IMAGE_SCN_CNT_CODE = 0),
              notes := if ctx.verbose then
                  [match find_section ctx.sections rva with
                    | none => " ; no section"
                    | some sec => " ; " ++ fmt_name8 sec.Name,
                   " ; RVA " ++ fmt_hex 8 rva]
                else [] } := by
  unfold dump_symbol
  by_cases hlen : 256 ≤ (decorated_name ctx name).length
  · simp [hlen]
  · simp only [hlen, if_false, Except.ok.injEq]
    constructor
    · intro h
      refine ⟨by omega, ?_⟩
      subst h
      cases find_section ctx.sections rva <;> rfl
    · rintro ⟨_, h⟩
      subst h
      cases find_section ctx.sections rva <;> rfl

theorem Symbol.render_of_data (sym : Symbol) (h : sym.data = true) :
    sym.render = sym.head ++ " DATA" ++ String.join sym.notes := by
  unfold Symbol.render
  rw [if_pos h]

theorem Symbol.render_of_not_data (sym : Symbol) (h : sym.data = false) :
    sym.render = sym.head ++ "" ++ String.join sym.notes := by
  unfold Symbol.render
  rw [if_neg (by simp [h])]

/-- C4: for every state, name, ordinal and target rva whose decorated name
fits the buffer, `dump_symbol` returns, and it prints the ` DATA` marker if and
only if `find_section` finds no owning section for the rva or the owning
section lacks the code characteristic; the bytes written are the name part,
then ` DATA` in exactly that case, then the verbose notes. In particular an
rva owned by a section without the code bit is rendered with the marker and
one owned by a code section without it. -/
theorem dump_symbol_data_marker (ctx : Ctx) (name : String) (ord : Int) (rva : Nat)
    (hfit : (decorated_name ctx name).length < 256) :
    ∃ sym, dump_symbol ctx name ord rva = .ok sym ∧
      (sym.data = true ↔
        (find_section ctx.sections rva = none ∨
          ∃ sec, find_section ctx.sections rva = some sec ∧
            sec.Characteristics &&& IMAGE_SCN_CNT_CODE = 0)) ∧
      (sym.data = true → sym.render = sym.head ++ " DATA" ++ String.join sym.notes) ∧
      (sym.data = false → sym.render = sym.head ++ "" ++ String.join sym.notes) ∧
      (∀ sec, find_section ctx.sections rva = some sec →
        sec.Characteristics &&& IMAGE_SCN_CNT_CODE = 0 → sym.data = true) ∧
      (∀ sec, find_section ctx.sections rva = some sec →
        sec.Characteristics &&& IMAGE_SCN_CNT_CODE ≠ 0 → sym.data = false) := by
  refine ⟨_, (dump_symbol_ok ctx name ord rva _).mpr ⟨hfit, rfl⟩, ?_, ?_, ?_, ?_, ?_⟩
  · cases h : find_section ctx.sections rva <;> simp
  · exact Symbol.render_of_data _
  · exact Symbol.render_of_not_data _
  · intro sec h hc
    simp [h, hc]
  · intro sec h hc
    simp [h, hc]

/-- Witness of C4: the name `Baz` with a target in the data section `.edata`
of the example, and no symbol tree. -/
theorem dump_symbol_data_marker_witness :
    ∃ sym, dump_symbol (demo_ctx 1 false false) "Baz" 2 0x2050 = .ok sym ∧
      (sym.data = true ↔
        (find_section (demo_ctx 1 false false).sections 0x2050 = none ∨
          ∃ sec, find_section (demo_ctx 1 false false).sections 0x2050 = some sec ∧
            sec.Characteristics &&& IMAGE_SCN_CNT_CODE = 0)) ∧
      (sym.data = true → sym.render = sym.head ++ " DATA" ++ String.join sym.notes) ∧
      (sym.data = false → sym.render = sym.head ++ "" ++ String.join sym.notes) ∧
      (∀ sec, find_section (demo_ctx 1 false false).sections 0x2050 = some sec →
        sec.Characteristics &&& IMAGE_SCN_CNT_CODE = 0 → sym.data = true) ∧
      (∀ sec, find_section (demo_ctx 1 false false).sections 0x2050 = some sec →
        sec.Characteristics &&& IMAGE_SCN_CNT_CODE ≠ 0 → sym.data = false) :=
  dump_symbol_data_marker (demo_ctx 1 false false) "Baz" 2 0x2050 (by decide)

/-! ## Inversion lemmas for the export decoder -/

theorem bind_eq_ok {α β : Type} (x : Except Fault α) (f : α → Except Fault β) (b : β) :
    (x >>= f) = .ok b ↔ ∃ a, x = .ok a ∧ f a = .ok b := by
  cases x <;> simp [bind, Except.bind]

theorem pure_eq_ok {α : Type} (a b : α) : (pure a : Except Fault α) = .ok b ↔ a = b := by
  simp [pure, Except.pure]

theorem named_line_ok (ctx : Ctx) (v : ExportView) (exports_rva exports_size i : Nat)
    (line : Line) (h : named_line ctx v exports_rva exports_size i = .ok line) :
    ∃ name_rva name_ptr f_off target name sym,
      read_u32 ctx.image v.name_table (4 * i) = .ok name_rva ∧
      rva_to_ptr ctx.sections name_rva = .ok name_ptr ∧
      read_u16 ctx.image v.ordinal_table (2 * i) = .ok f_off ∧
      read_u32 ctx.image v.function_table (4 * f_off) = .ok target ∧
      read_cstr ctx.image name_ptr = .ok name ∧
      dump_symbol ctx name (to_int32 ((f_off + v.Base) % 2 ^ 32)) target = .ok sym ∧
      (((in_export_range exports_rva exports_size target && ctx.verbose) = true ∧
          ∃ fwd_ptr fwd, rva_to_ptr ctx.sections target = .ok fwd_ptr ∧
            read_cstr ctx.image fwd_ptr = .ok fwd ∧ line = Line.named i sym (some fwd)) ∨
        ((in_export_range exports_rva exports_size target && ctx.verbose) = false ∧
          line = Line.named i sym none)) := by
  simp only [named_line, bind_eq_ok] at h
  obtain ⟨name_rva, h1, name_ptr, h2, f_off, h3, target, h4, name, h5, sym, h6, h7⟩ := h
  refine ⟨name_rva, name_ptr, f_off, target, name, sym, h1, h2, h3, h4, h5, h6, ?_⟩
  by_cases hc : (in_export_range exports_rva exports_size target && ctx.verbose) = true
  · rw [if_pos hc] at h7
    simp only [bind_eq_ok, pure_eq_ok] at h7
    obtain ⟨fwd_ptr, h8, fwd, h9, h10⟩ := h7
    exact Or.inl ⟨hc, fwd_ptr, fwd, h8, h9, h10.symm⟩
  · rw [if_neg hc] at h7
    simp only [pure_eq_ok] at h7
    exact Or.inr ⟨by simpa using hc, h7.symm⟩

theorem strchr_dot_plus1_eq_some (cs rest : List Char) :
    strchr_dot_plus1 cs = some rest ↔ ∃ before, cs = before ++ '.' :: rest ∧ '.' ∉ before := by
  induction cs with
  | nil => simp [strchr_dot_plus1]
  | cons c tail ih =>
    by_cases hc : c = '.'
    · subst hc
      simp only [strchr_dot_plus1, if_true, Option.some.injEq]
      constructor
      · rintro rfl
        exact ⟨[], rfl, by simp⟩
      · rintro ⟨before, heq, hnot⟩
        cases before with
        | nil =>
          simp only [List.nil_append, List.cons.injEq, true_and] at heq
          exact heq
        | cons b bs =>
          simp only [List.cons_append, List.cons.injEq] at heq
          exact absurd (by simp [← heq.1]) hnot
    · simp only [strchr_dot_plus1, if_neg hc, ih]
      constructor
      · rintro ⟨before, heq, hnot⟩
        refine ⟨c :: before, by simp [heq], ?_⟩
        simp only [List.mem_cons, not_or]
        exact ⟨fun h => hc h.symm, hnot⟩
      · rintro ⟨before, heq, hnot⟩
        cases before with
        | nil =>
          simp only [List.nil_append, List.cons.injEq] at heq
          exact absurd heq.1 hc
        | cons b bs =>
          simp only [List.cons_append, List.cons.injEq] at heq
          exact ⟨bs, heq.2, fun h => hnot (by simp [h])⟩

theorem name_present_ok (ctx : Ctx) (v : ExportView) (j count n : Nat) (b : Bool)
    (h : name_present ctx v j count n = .ok b) :
    b = true ↔ ∃ k, k < count ∧ read_u16 ctx.image v.ordinal_table (2 * (n + k)) = .ok j := by
  induction count generalizing n with
  | zero =>
    simp only [name_present, pure_eq_ok] at h
    simp [← h]
  | succ count ih =>
    simp only [name_present, bind_eq_ok] at h
    obtain ⟨o, ho, h⟩ := h
    by_cases hoj : o = j
    · rw [if_pos hoj, pure_eq_ok] at h
      subst hoj
      simp only [← h, true_iff]
      exact ⟨0, by omega, by simpa using ho⟩
    · rw [if_neg hoj] at h
      rw [ih (n + 1) h]
      constructor
      · rintro ⟨k, hk, hr⟩
        exact ⟨k + 1, by omega, by rw [← hr]; congr 2; omega⟩
      · rintro ⟨k, hk, hr⟩
        cases k with
        | zero =>
          simp only [Nat.add_zero] at hr
          rw [ho] at hr
          exact absurd (Except.ok.inj hr) hoj
        | succ k =>
          exact ⟨k, by omega, by rw [← hr]; congr 2; omega⟩

theorem orphan_line_ok (ctx : Ctx) (v : ExportView) (exports_rva exports_size j : Nat)
    (o : Option Line) (h : orphan_line ctx v exports_rva exports_size j = .ok o) :
    ∃ target, read_u32 ctx.image v.function_table (4 * j) = .ok target ∧
      ((in_export_range exports_rva exports_size target = false ∧ o = none) ∨
       (in_export_range exports_rva exports_size target = true ∧
          name_present ctx v j v.NumberOfNames 0 = .ok true ∧ o = none) ∨
       (in_export_range exports_rva exports_size target = true ∧
          name_present ctx v j v.NumberOfNames 0 = .ok false ∧
          ∃ fwd_ptr fwd name sym, rva_to_ptr ctx.sections target = .ok fwd_ptr ∧
            read_cstr ctx.image fwd_ptr = .ok fwd ∧
            strchr_dot_plus1 fwd.data = some name ∧
            dump_symbol ctx (String.mk name) (to_int32 ((j + v.Base) % 2 ^ 32)) target =
              .ok sym ∧
            o = some (Line.orphan j sym fwd))) := by
  simp only [orphan_line, bind_eq_ok] at h
  obtain ⟨target, h1, h2⟩ := h
  refine ⟨target, h1, ?_⟩
  by_cases hr : in_export_range exports_rva exports_size target = true
  · rw [if_pos hr] at h2
    simp only [bind_eq_ok] at h2
    obtain ⟨present, h3, h4⟩ := h2
    cases present with
    | true =>
      simp only [if_true, pure_eq_ok] at h4
      exact Or.inr (Or.inl ⟨hr, h3, h4.symm⟩)
    | false =>
      simp only [Bool.false_eq_true, if_false, bind_eq_ok] at h4
      obtain ⟨fwd_ptr, h5, fwd, h6, h7⟩ := h4
      cases hs : strchr_dot_plus1 fwd.data with
      | none => simp [hs] at h7
      | some name =>
        simp only [hs, bind_eq_ok, pure_eq_ok] at h7
        obtain ⟨sym, h8, h9⟩ := h7
        exact Or.inr (Or.inr ⟨hr, h3, fwd_ptr, fwd, name, sym, h5, h6, hs, h8, h9.symm⟩)
  · rw [if_neg hr, pure_eq_ok] at h2
    exact Or.inl ⟨by simpa using hr, h2.symm⟩

theorem orphan_ordinal_iff (ctx : Ctx) (v : ExportView) (exports_rva exports_size j : Nat) :
    orphan_ordinal ctx v exports_rva exports_size j = true ↔
      ∃ target, read_u32 ctx.image v.function_table (4 * j) = .ok target ∧
        exports_rva ≤ target ∧ target < (exports_rva + exports_size) % 2 ^ 32 ∧
        ∀ n, n < v.NumberOfNames → read_u16 ctx.image v.ordinal_table (2 * n) ≠ .ok j := by
  unfold orphan_ordinal
  cases hr : read_u32 ctx.image v.function_table (4 * j) with
  | error e => simp
  | ok target =>
    simp only [Bool.and_eq_true, List.all_eq_true, List.mem_range, Except.ok.injEq,
      exists_eq_left', in_export_range, decide_eq_true_eq]
    constructor
    · rintro ⟨⟨h1, h2⟩, h3⟩
      refine ⟨h1, h2, fun n hn heq => ?_⟩
      have := h3 n hn
      rw [heq] at this
      simp at this
    · rintro ⟨h1, h2, h3⟩
      refine ⟨⟨h1, h2⟩, fun n hn => ?_⟩
      cases hq : read_u16 ctx.image v.ordinal_table (2 * n) with
      | error e => rfl
      | ok o =>
        have := h3 n hn
        rw [hq] at this
        simpa using fun h => this (by rw [h])

theorem orphan_line_some_iff (ctx : Ctx) (v : ExportView) (exports_rva exports_size j : Nat)
    (o : Option Line) (h : orphan_line ctx v exports_rva exports_size j = .ok o) :
    o.isSome = orphan_ordinal ctx v exports_rva exports_size j := by
  obtain ⟨target, ht, hcases⟩ := orphan_line_ok ctx v exports_rva exports_size j o h
  have hrange : in_export_range exports_rva exports_size target = true ↔
      exports_rva ≤ target ∧ target < (exports_rva + exports_size) % 2 ^ 32 := by
    simp [in_export_range]
  rcases hcases with ⟨hr, rfl⟩ | ⟨hr, hp, rfl⟩ | ⟨hr, hp, _, fwd, name, sym, _, _, _, _, rfl⟩
  · simp only [Option.isSome_none]
    symm
    rw [Bool.eq_false_iff]
    intro hc
    obtain ⟨t, ht2, h1, h2, _⟩ := (orphan_ordinal_iff ..).mp hc
    rw [ht] at ht2
    cases ht2
    rw [hrange.mpr ⟨h1, h2⟩] at hr
    cases hr
  · simp only [Option.isSome_none]
    symm
    rw [Bool.eq_false_iff]
    intro hc
    obtain ⟨t, _, _, _, h3⟩ := (orphan_ordinal_iff ..).mp hc
    obtain ⟨k, hk, hk2⟩ := (name_present_ok ctx v j v.NumberOfNames 0 true hp).mp rfl
    simp only [Nat.zero_add] at hk2
    exact h3 k hk hk2
  · simp only [Option.isSome_some]
    symm
    rw [orphan_ordinal_iff]
    refine ⟨target, ht, (hrange.mp hr).1, (hrange.mp hr).2, fun n hn heq => ?_⟩
    have := (name_present_ok ctx v j v.NumberOfNames 0 false hp).mpr
      ⟨n, hn, by simpa using heq⟩
    cases this

theorem named_pass_ok (ctx : Ctx) (v : ExportView) (exports_rva exports_size count i : Nat)
    (ls : List Line) (h : named_pass ctx v exports_rva exports_size count i = .ok ls) :
    List.Forall₂ (fun k l => named_line ctx v exports_rva exports_size k = .ok l)
      (List.range' i count) ls := by
  induction count generalizing i ls with
  | zero =>
    simp only [named_pass, pure_eq_ok] at h
    subst h
    exact List.Forall₂.nil
  | succ count ih =>
    simp only [named_pass, bind_eq_ok, pure_eq_ok] at h
    obtain ⟨line, h1, rest, h2, h3⟩ := h
    subst h3
    rw [List.range'_succ]
    exact List.Forall₂.cons h1 (ih (i + 1) rest h2)

theorem orphan_pass_ok (ctx : Ctx) (v : ExportView) (exports_rva exports_size count j : Nat)
    (ls : List Line) (h : orphan_pass ctx v exports_rva exports_size count j = .ok ls) :
    List.Forall₂ (fun k l => orphan_line ctx v exports_rva exports_size k = .ok (some l))
      ((List.range' j count).filter (orphan_ordinal ctx v exports_rva exports_size)) ls := by
  induction count generalizing j ls with
  | zero =>
    simp only [orphan_pass, pure_eq_ok] at h
    subst h
    exact List.Forall₂.nil
  | succ count ih =>
    simp only [orphan_pass, bind_eq_ok, pure_eq_ok] at h
    obtain ⟨o, h1, rest, h2, h3⟩ := h
    subst h3
    have hsome := orphan_line_some_iff ctx v exports_rva exports_size j o h1
    rw [List.range'_succ]
    cases o with
    | none =>
      simp only [Option.isSome_none] at hsome
      rw [List.filter_cons_of_neg (by simp [← hsome])]
      exact ih (j + 1) rest h2
    | some l =>
      simp only [Option.isSome_some] at hsome
      rw [List.filter_cons_of_pos hsome.symm]
      exact List.Forall₂.cons h1 (ih (j + 1) rest h2)

theorem dump_exports_ok (ctx : Ctx) (first : Bool) (exports_rva exports_size : Nat)
    (out : List Line) (first1 : Bool)
    (h : dump_exports ctx first exports_rva exports_size = .ok (out, first1)) :
    ∃ v section_name export_name named orphans,
      export_view ctx exports_rva = .ok v ∧
      read_cstr ctx.image v.export_name = .ok export_name ∧
      named_pass ctx v exports_rva exports_size v.NumberOfNames 0 = .ok named ∧
      orphan_pass ctx v exports_rva exports_size v.NumberOfFunctions 0 = .ok orphans ∧
      out = export_header ctx first v section_name export_name ++ named ++ orphans ∧
      first1 = false := by
  simp only [dump_exports, bind_eq_ok, pure_eq_ok, Prod.mk.injEq] at h
  obtain ⟨section_name, _, v, h1, export_name, h2, named, h3, orphans, h4, h5, h6⟩ := h
  exact ⟨v, section_name, export_name, named, orphans, h1, h2, h3, h4, h5.symm, h6.symm⟩

theorem export_header_no_export (ctx : Ctx) (first : Bool) (v : ExportView)
    (section_name export_name : String) (l : Line)
    (h : l ∈ export_header ctx first v section_name export_name) : l.is_export = false := by
  unfold export_header at h
  rw [List.mem_append] at h
  rcases h with h | h
  · split at h
    · simp only [List.mem_cons, List.mem_singleton, List.not_mem_nil, or_false] at h
      rcases h with rfl | rfl | rfl | rfl | rfl | rfl <;> rfl
    · cases h
  · split at h
    · simp only [List.mem_cons, List.mem_singleton, List.not_mem_nil, or_false] at h
      rcases h with rfl | rfl <;> rfl
    · simp only [List.mem_singleton] at h
      subst h
      rfl

theorem forall₂_mem_right {α β : Type} {R : α → β → Prop} {l₁ : List α} {l₂ : List β}
    (h : List.Forall₂ R l₁ l₂) {b : β} (hb : b ∈ l₂) : ∃ a, a ∈ l₁ ∧ R a b := by
  induction h with
  | nil => cases hb
  | cons hab _ ih =>
    rcases List.mem_cons.mp hb with rfl | hb
    · exact ⟨_, by simp, hab⟩
    · obtain ⟨a, ha, hr⟩ := ih hb
      exact ⟨a, by simp [ha], hr⟩

theorem forall₂_mem_left {α β : Type} {R : α → β → Prop} {l₁ : List α} {l₂ : List β}
    (h : List.Forall₂ R l₁ l₂) {a : α} (ha : a ∈ l₁) : ∃ b, b ∈ l₂ ∧ R a b := by
  induction h with
  | nil => cases ha
  | cons hab _ ih =>
    rcases List.mem_cons.mp ha with rfl | ha
    · exact ⟨_, by simp, hab⟩
    · obtain ⟨b, hb, hr⟩ := ih ha
      exact ⟨b, by simp [hb], hr⟩

theorem named_line_is_named (ctx : Ctx) (v : ExportView) (exports_rva exports_size i : Nat)
    (line : Line) (h : named_line ctx v exports_rva exports_size i = .ok line) :
    ∃ sym fwd, line = Line.named i sym fwd := by
  obtain ⟨_, _, _, _, _, sym, _, _, _, _, _, _, h7⟩ := named_line_ok _ _ _ _ _ _ h
  rcases h7 with ⟨_, _, fwd, _, _, rfl⟩ | ⟨_, rfl⟩
  · exact ⟨sym, some fwd, rfl⟩
  · exact ⟨sym, none, rfl⟩

theorem orphan_line_is_orphan (ctx : Ctx) (v : ExportView) (exports_rva exports_size j : Nat)
    (line : Line) (h : orphan_line ctx v exports_rva exports_size j = .ok (some line)) :
    ∃ sym fwd, line = Line.orphan j sym fwd := by
  obtain ⟨_, _, hcases⟩ := orphan_line_ok _ _ _ _ _ _ h
  rcases hcases with ⟨_, h0⟩ | ⟨_, _, h0⟩ | ⟨_, _, _, fwd, _, sym, _, _, _, _, h0⟩
  · cases h0
  · cases h0
  · cases h0
    exact ⟨sym, fwd, rfl⟩

theorem dump_exports_parts (ctx : Ctx) (first : Bool) (exports_rva exports_size : Nat)
    (out : List Line) (first1 : Bool) (v : ExportView)
    (hrun : dump_exports ctx first exports_rva exports_size = .ok (out, first1))
    (hview : export_view ctx exports_rva = .ok v) :
    ∃ section_name export_name named orphans,
      out = export_header ctx first v section_name export_name ++ named ++ orphans ∧
      List.Forall₂ (fun k l => named_line ctx v exports_rva exports_size k = .ok l)
        (List.range' 0 v.NumberOfNames) named ∧
      List.Forall₂ (fun k l => orphan_line ctx v exports_rva exports_size k = .ok (some l))
        ((List.range' 0 v.NumberOfFunctions).filter
          (orphan_ordinal ctx v exports_rva exports_size)) orphans := by
  obtain ⟨v1, section_name, export_name, named, orphans, hv, _, hn, ho, hout, _⟩ :=
    dump_exports_ok ctx first exports_rva exports_size out first1 hrun
  rw [hview] at hv
  cases hv
  exact ⟨section_name, export_name, named, orphans, hout,
    named_pass_ok _ _ _ _ _ _ _ hn, orphan_pass_ok _ _ _ _ _ _ _ ho⟩

theorem named_mem_out (ctx : Ctx) (first : Bool) (exports_rva exports_size : Nat)
    (out : List Line) (first1 : Bool) (v : ExportView)
    (hrun : dump_exports ctx first exports_rva exports_size = .ok (out, first1))
    (hview : export_view ctx exports_rva = .ok v) (i : Nat) (sym : Symbol)
    (fwd : Option String) :
    Line.named i sym fwd ∈ out ↔
      i < v.NumberOfNames ∧
        named_line ctx v exports_rva exports_size i = .ok (Line.named i sym fwd) := by
  obtain ⟨section_name, export_name, named, orphans, hout, hn, ho⟩ :=
    dump_exports_parts ctx first exports_rva exports_size out first1 v hrun hview
  subst hout
  constructor
  · intro h
    simp only [List.mem_append] at h
    rcases h with (h | h) | h
    · exact absurd (export_header_no_export _ _ _ _ _ _ h) (by simp [Line.is_export])
    · obtain ⟨k, hk, hline⟩ := forall₂_mem_right hn h
      obtain ⟨sym1, fwd1, heq⟩ := named_line_is_named _ _ _ _ _ _ hline
      cases heq
      exact ⟨by simpa [List.mem_range'_1] using hk, hline⟩
    · obtain ⟨k, _, hline⟩ := forall₂_mem_right ho h
      obtain ⟨sym1, fwd1, heq⟩ := orphan_line_is_orphan _ _ _ _ _ _ hline
      cases heq
  · rintro ⟨hi, hline⟩
    obtain ⟨l, hl, hline1⟩ := forall₂_mem_left hn
      (show i ∈ List.range' 0 v.NumberOfNames by simpa [List.mem_range'_1] using hi)
    rw [hline] at hline1
    cases hline1
    simp [hl]

theorem orphan_mem_out (ctx : Ctx) (first : Bool) (exports_rva exports_size : Nat)
    (out : List Line) (first1 : Bool) (v : ExportView)
    (hrun : dump_exports ctx first exports_rva exports_size = .ok (out, first1))
    (hview : export_view ctx exports_rva = .ok v) (j : Nat) (sym : Symbol) (fwd : String) :
    Line.orphan j sym fwd ∈ out ↔
      j < v.NumberOfFunctions ∧
        orphan_line ctx v exports_rva exports_size j = .ok (some (Line.orphan j sym fwd)) := by
  obtain ⟨section_name, export_name, named, orphans, hout, hn, ho⟩ :=
    dump_exports_parts ctx first exports_rva exports_size out first1 v hrun hview
  subst hout
  constructor
  · intro h
    simp only [List.mem_append] at h
    rcases h with (h | h) | h
    · exact absurd (export_header_no_export _ _ _ _ _ _ h) (by simp [Line.is_export])
    · obtain ⟨k, _, hline⟩ := forall₂_mem_right hn h
      obtain ⟨sym1, fwd1, heq⟩ := named_line_is_named _ _ _ _ _ _ hline
      cases heq
    · obtain ⟨k, hk, hline⟩ := forall₂_mem_right ho h
      obtain ⟨sym1, fwd1, heq⟩ := orphan_line_is_orphan _ _ _ _ _ _ hline
      cases heq
      exact ⟨by simpa [List.mem_range'_1] using (List.mem_filter.mp hk).1, hline⟩
  · rintro ⟨hj, hline⟩
    have hord : orphan_ordinal ctx v exports_rva exports_size j = true := by
      rw [← orphan_line_some_iff _ _ _ _ _ _ hline]
      rfl
    obtain ⟨l, hl, hline1⟩ := forall₂_mem_left ho
      (show j ∈ (List.range' 0 v.NumberOfFunctions).filter
          (orphan_ordinal ctx v exports_rva exports_size) from
        List.mem_filter.mpr ⟨by simpa [List.mem_range'_1] using hj, hord⟩)
    rw [hline] at hline1
    cases hline1
    simp [hl]

theorem named_line_exists (ctx : Ctx) (first : Bool) (exports_rva exports_size : Nat)
    (out : List Line) (first1 : Bool) (v : ExportView)
    (hrun : dump_exports ctx first exports_rva exports_size = .ok (out, first1))
    (hview : export_view ctx exports_rva = .ok v) (i : Nat) (hi : i < v.NumberOfNames) :
    ∃ sym fwd, named_line ctx v exports_rva exports_size i = .ok (Line.named i sym fwd) := by
  obtain ⟨_, _, named, _, _, hn, _⟩ :=
    dump_exports_parts ctx first exports_rva exports_size out first1 v hrun hview
  obtain ⟨l, _, hline⟩ := forall₂_mem_left hn
    (show i ∈ List.range' 0 v.NumberOfNames by simpa [List.mem_range'_1] using hi)
  obtain ⟨sym, fwd, heq⟩ := named_line_is_named _ _ _ _ _ _ hline
  exact ⟨sym, fwd, heq ▸ hline⟩

theorem orphan_line_exists (ctx : Ctx) (first : Bool) (exports_rva exports_size : Nat)
    (out : List Line) (first1 : Bool) (v : ExportView)
    (hrun : dump_exports ctx first exports_rva exports_size = .ok (out, first1))
    (hview : export_view ctx exports_rva = .ok v) (j : Nat) (hj : j < v.NumberOfFunctions)
    (hord : orphan_ordinal ctx v exports_rva exports_size j = true) :
    ∃ sym fwd,
      orphan_line ctx v exports_rva exports_size j = .ok (some (Line.orphan j sym fwd)) := by
  obtain ⟨_, _, _, orphans, _, _, ho⟩ :=
    dump_exports_parts ctx first exports_rva exports_size out first1 v hrun hview
  obtain ⟨l, _, hline⟩ := forall₂_mem_left ho
    (show j ∈ (List.range' 0 v.NumberOfFunctions).filter
        (orphan_ordinal ctx v exports_rva exports_size) from
      List.mem_filter.mpr ⟨by simpa [List.mem_range'_1] using hj, hord⟩)
  obtain ⟨sym, fwd, heq⟩ := orphan_line_is_orphan _ _ _ _ _ _ hline
  exact ⟨sym, fwd, heq ▸ hline⟩

theorem to_int32_of_lt (n : Nat) (h : n < 2 ^ 31) : to_int32 (n % 2 ^ 32) = (n : Int) := by
  have h1 : n % 2 ^ 32 = n := Nat.mod_eq_of_lt (by omega)
  rw [h1]
  unfold to_int32
  rw [if_pos h]

theorem named_pass_completes (ctx : Ctx) (v : ExportView) (exports_rva exports_size : Nat)
    (count i : Nat)
    (h : ∀ k, i ≤ k → k < i + count →
      ∃ l, named_line ctx v exports_rva exports_size k = .ok l) :
    ∃ ls, named_pass ctx v exports_rva exports_size count i = .ok ls := by
  induction count generalizing i with
  | zero => exact ⟨[], rfl⟩
  | succ count ih =>
    obtain ⟨l, hl⟩ := h i (Nat.le_refl i) (by omega)
    obtain ⟨ls, hls⟩ := ih (i + 1) (fun k h1 h2 => h k (by omega) (by omega))
    exact ⟨l :: ls, by simp only [named_pass, hl, hls]; rfl⟩

theorem orphan_pass_completes (ctx : Ctx) (v : ExportView) (exports_rva exports_size : Nat)
    (count j : Nat)
    (h : ∀ k, j ≤ k → k < j + count →
      ∃ o, orphan_line ctx v exports_rva exports_size k = .ok o) :
    ∃ ls, orphan_pass ctx v exports_rva exports_size count j = .ok ls := by
  induction count generalizing j with
  | zero => exact ⟨[], rfl⟩
  | succ count ih =>
    obtain ⟨o, ho⟩ := h j (Nat.le_refl j) (by omega)
    obtain ⟨ls, hls⟩ := ih (j + 1) (fun k h1 h2 => h k (by omega) (by omega))
    exact ⟨o.toList ++ ls, by simp only [orphan_pass, ho, hls]; rfl⟩

theorem export_view_section (ctx : Ctx) (exports_rva : Nat) (v : ExportView)
    (h : export_view ctx exports_rva = .ok v) :
    ∃ sec, find_section ctx.sections exports_rva = some sec := by
  simp only [export_view, bind_eq_ok] at h
  obtain ⟨p, hp, _⟩ := h
  unfold rva_to_ptr at hp
  cases hf : find_section ctx.sections exports_rva with
  | none => simp [hf] at hp
  | some sec => exact ⟨sec, rfl⟩

/-- A run of `dump_exports` completes whenever the export directory and the
module name can be read, the name of the section that is printed in verbose
mode has a NUL among its 8 bytes, and every iteration of its two loops
completes: the loops add no fault of their own, and the flag `first` is clear
afterwards. -/
theorem dump_exports_completes (ctx : Ctx) (first : Bool) (exports_rva exports_size : Nat)
    (v : ExportView) (export_name : String)
    (hview : export_view ctx exports_rva = .ok v)
    (hname : read_cstr ctx.image v.export_name = .ok export_name)
    (hsection : ctx.verbose = true → ∀ sec, find_section ctx.sections exports_rva = some sec →
      ∃ name, c_string (sec.Name.take 8) = some name)
    (hnamed : ∀ i, i < v.NumberOfNames →
      ∃ l, named_line ctx v exports_rva exports_size i = .ok l)
    (horphan : ∀ j, j < v.NumberOfFunctions →
      ∃ o, orphan_line ctx v exports_rva exports_size j = .ok o) :
    ∃ out, dump_exports ctx first exports_rva exports_size = .ok (out, false) := by
  obtain ⟨sec, hsec⟩ := export_view_section ctx exports_rva v hview
  obtain ⟨named, hn⟩ := named_pass_completes ctx v exports_rva exports_size v.NumberOfNames 0
    (fun k _ hk => hnamed k (by omega))
  obtain ⟨orphans, ho⟩ := orphan_pass_completes ctx v exports_rva exports_size
    v.NumberOfFunctions 0 (fun k _ hk => horphan k (by omega))
  have hread : ∃ section_name, reading_section ctx exports_rva = .ok section_name := by
    unfold reading_section
    cases hv : ctx.verbose with
    | false => exact ⟨_, rfl⟩
    | true =>
      obtain ⟨name, hn⟩ := hsection hv sec hsec
      rw [hsec]
      simp only [if_true, hn]
      exact ⟨_, rfl⟩
  obtain ⟨section_name, hr⟩ := hread
  refine ⟨export_header ctx first v section_name export_name ++ named ++ orphans, ?_⟩
  simp only [dump_exports, bind_eq_ok, pure_eq_ok]
  exact ⟨section_name, hr, v, hview, export_name, hname, named, hn, orphans, ho, rfl⟩

/-! ## The example runs -/

theorem demo_view_plain : export_view (demo_ctx 1 false false) 0x2000 = .ok (demo_view 1) := rfl

theorem demo_view_verbose : export_view (demo_ctx 1 true true) 0x2000 = .ok (demo_view 1) := rfl

theorem demo_view_high_base :
    export_view (demo_ctx 0x80000000 false true) 0x2000 = .ok (demo_view 0x80000000) := rfl

theorem demo_run_plain :
    dump_exports (demo_ctx 1 false false) true 0x2000 0x6c = .ok (demo_listing, false) := rfl

theorem demo_run_verbose :
    dump_exports (demo_ctx 1 true true) true 0x2000 0x6c = .ok (demo_listing_verbose, false) :=
  rfl

theorem demo_run_high_base :
    dump_exports (demo_ctx 0x80000000 false true) true 0x2000 0x6c =
      .ok (demo_listing_high_base, false) := rfl

/-! ## The export passes -/

/-- C5, as stated, fails: in the example with base 0x80000000 the function-table
entry 2 lies in the export range and no ordinal-table entry equals 2, so the
orphan pass emits its line; the ordinal the line carries is -2147483646 (printed
after `@`), not `2 + Base = 2147483650`. -/
theorem orphan_ordinal_not_sum :
    dump_exports (demo_ctx 0x80000000 false true) true 0x2000 0x6c =
      .ok (demo_listing_high_base, false) ∧
    export_view (demo_ctx 0x80000000 false true) 0x2000 = .ok (demo_view 0x80000000) ∧
    Line.orphan 2 (Symbol.mk "RtlFoo" (-2147483646) 0x205f "RtlFoo"
      "RtlFoo                  \t@-2147483646" true []) "NTDLL.RtlFoo" ∈ demo_listing_high_base ∧
    (2 : Int) + ((demo_view 0x80000000).Base : Int) = 2147483650 :=
  ⟨demo_run_high_base, demo_view_high_base, by simp [demo_listing_high_base], by decide⟩

/-- C5, amended: for every run of `dump_exports` that completes, the orphan
pass emits a line for the index `j` if and only if `j < NumberOfFunctions`,
`function_table[j]` lies in `[exports_rva, exports_rva + exports_size)` (the sum
in unsigned 32-bit arithmetic) and no `ordinal_table[n]`, `n < NumberOfNames`,
equals `j`. Each such line carries the ordinal `j + Base` reduced modulo 2^32
and read as a signed 32-bit integer (which is `j + Base` when that is below
2^31), printed after `@` when ordinal display is on, and ends with the
`Symbol name guessed from forwarder` warning. -/
theorem orphan_recovery_lines (ctx : Ctx) (first : Bool) (exports_rva exports_size : Nat)
    (out : List Line) (first1 : Bool) (v : ExportView)
    (hrun : dump_exports ctx first exports_rva exports_size = .ok (out, first1))
    (hview : export_view ctx exports_rva = .ok v) :
    (∀ j, (∃ sym fwd, Line.orphan j sym fwd ∈ out) ↔
      j < v.NumberOfFunctions ∧
        ∃ target, read_u32 ctx.image v.function_table (4 * j) = .ok target ∧
          exports_rva ≤ target ∧ target < (exports_rva + exports_size) % 2 ^ 32 ∧
          ∀ n, n < v.NumberOfNames →
            read_u16 ctx.image v.ordinal_table (2 * n) ≠ .ok j) ∧
    (∀ j sym fwd, Line.orphan j sym fwd ∈ out →
      sym.ord = to_int32 ((j + v.Base) % 2 ^ 32) ∧
      (j + v.Base < 2 ^ 31 → sym.ord = ((j + v.Base : Nat) : Int)) ∧
      (ctx.ordinal_flag = true →
        sym.head = fmt_left 24 sym.s ++ "\t@" ++ toString sym.ord) ∧
      (Line.orphan j sym fwd).render =
        sym.render ++ " ; WARNING: Symbol name guessed from forwarder (" ++ fwd ++ ")\n") := by
  constructor
  · intro j
    rw [← orphan_ordinal_iff]
    constructor
    · rintro ⟨sym, fwd, hmem⟩
      obtain ⟨hj, hline⟩ := (orphan_mem_out _ _ _ _ _ _ _ hrun hview j sym fwd).mp hmem
      refine ⟨hj, ?_⟩
      rw [← orphan_line_some_iff _ _ _ _ _ _ hline]
      rfl
    · rintro ⟨hj, hord⟩
      obtain ⟨sym, fwd, hline⟩ := orphan_line_exists _ _ _ _ _ _ _ hrun hview j hj hord
      exact ⟨sym, fwd, (orphan_mem_out _ _ _ _ _ _ _ hrun hview j sym fwd).mpr ⟨hj, hline⟩⟩
  · intro j sym fwd hmem
    obtain ⟨_, hline⟩ := (orphan_mem_out _ _ _ _ _ _ _ hrun hview j sym fwd).mp hmem
    obtain ⟨target, _, hcases⟩ := orphan_line_ok _ _ _ _ _ _ hline
    rcases hcases with ⟨_, h0⟩ | ⟨_, _, h0⟩ | ⟨_, _, _, fwd1, name, sym1, _, _, _, hsym, h0⟩
    · cases h0
    · cases h0
    · cases h0
      obtain ⟨_, hs⟩ := (dump_symbol_ok _ _ _ _ _).mp hsym
      have hord : sym.ord = to_int32 ((j + v.Base) % 2 ^ 32) := by rw [hs]
      refine ⟨hord, fun hlt => ?_, fun hflag => ?_, rfl⟩
      · rw [hord, to_int32_of_lt _ hlt]
      · rw [hs]
        simp only [hflag, if_true]

/-- Witness of C5 (amended): the verbose example run, index 2. -/
theorem orphan_recovery_lines_witness :
    dump_exports (demo_ctx 1 true true) true 0x2000 0x6c = .ok (demo_listing_verbose, false) ∧
    export_view (demo_ctx 1 true true) 0x2000 = .ok (demo_view 1) ∧
    ((∃ sym fwd, Line.orphan 2 sym fwd ∈ demo_listing_verbose) ↔
      2 < (demo_view 1).NumberOfFunctions ∧
        ∃ target,
          read_u32 (demo_ctx 1 true true).image (demo_view 1).function_table (4 * 2) =
            .ok target ∧
          0x2000 ≤ target ∧ target < (0x2000 + 0x6c) % 2 ^ 32 ∧
          ∀ n, n < (demo_view 1).NumberOfNames →
            read_u16 (demo_ctx 1 true true).image (demo_view 1).ordinal_table (2 * n) ≠
              .ok 2) :=
  ⟨demo_run_verbose, demo_view_verbose,
    (orphan_recovery_lines (demo_ctx 1 true true) true 0x2000 0x6c demo_listing_verbose false
      (demo_view 1) demo_run_verbose demo_view_verbose).1 2⟩

/-- C6: for every run of `dump_exports` that completes and every orphan line
of its output, the forwarder string read at `function_table[j]` splits as
`before ++ "." ++ name` with no `.` in `before`, where `name` is the
undecorated name of the line: the name passed to `dump_symbol` is the text
after the first `.`. What is printed is that name, decorated by the symbol
tree if it lists the name, and it is the whole name text when ordinal display
is off. -/
theorem orphan_name_after_first_dot (ctx : Ctx) (first : Bool)
    (exports_rva exports_size : Nat) (out : List Line) (first1 : Bool) (v : ExportView)
    (hrun : dump_exports ctx first exports_rva exports_size = .ok (out, first1))
    (hview : export_view ctx exports_rva = .ok v)
    (j : Nat) (sym : Symbol) (fwd : String) (hmem : Line.orphan j sym fwd ∈ out) :
    ∃ target fwd_ptr before,
      read_u32 ctx.image v.function_table (4 * j) = .ok target ∧
      rva_to_ptr ctx.sections target = .ok fwd_ptr ∧
      read_cstr ctx.image fwd_ptr = .ok fwd ∧
      fwd.data = before ++ '.' :: sym.name.data ∧ '.' ∉ before ∧
      sym.s = decorated_name ctx sym.name ∧
      (ctx.symbols sym.name = none → sym.s = sym.name) ∧
      (ctx.ordinal_flag = false → sym.head = sym.s) := by
  obtain ⟨_, hline⟩ := (orphan_mem_out _ _ _ _ _ _ _ hrun hview j sym fwd).mp hmem
  obtain ⟨target, ht, hcases⟩ := orphan_line_ok _ _ _ _ _ _ hline
  rcases hcases with ⟨_, h0⟩ | ⟨_, _, h0⟩ |
    ⟨_, _, fwd_ptr, fwd1, name, sym1, hp, hf, hdot, hsym, h0⟩
  · cases h0
  · cases h0
  · cases h0
    obtain ⟨before, hsplit, hbefore⟩ := (strchr_dot_plus1_eq_some _ _).mp hdot
    obtain ⟨_, hs⟩ := (dump_symbol_ok _ _ _ _ _).mp hsym
    refine ⟨target, fwd_ptr, before, ht, hp, hf, ?_, hbefore, ?_, ?_, ?_⟩
    · rw [hsplit, hs]
    · rw [hs]
    · intro hnone
      have hnone1 : ctx.symbols (String.mk name) = none := by rw [hs] at hnone; exact hnone
      rw [hs]
      simp only [decorated_name, hnone1]
    · intro hflag
      rw [hs]
      simp only [hflag, Bool.false_eq_true, if_false]

/-- Witness of C6: the orphan line of the plain example run. -/
theorem orphan_name_after_first_dot_witness :
    Line.orphan 2 (Symbol.mk "RtlFoo" 3 0x205f "RtlFoo" "RtlFoo" true []) "NTDLL.RtlFoo" ∈
      demo_listing ∧
    ∃ target fwd_ptr before,
      read_u32 (demo_ctx 1 false false).image (demo_view 1).function_table (4 * 2) =
        .ok target ∧
      rva_to_ptr (demo_ctx 1 false false).sections target = .ok fwd_ptr ∧
      read_cstr (demo_ctx 1 false false).image fwd_ptr = .ok "NTDLL.RtlFoo" ∧
      "NTDLL.RtlFoo".data = before ++ '.' :: "RtlFoo".data ∧ '.' ∉ before :=
  have hmem : Line.orphan 2 (Symbol.mk "RtlFoo" 3 0x205f "RtlFoo" "RtlFoo" true [])
      "NTDLL.RtlFoo" ∈ demo_listing := by simp [demo_listing]
  have h := orphan_name_after_first_dot (demo_ctx 1 false false) true 0x2000 0x6c demo_listing
    false (demo_view 1) demo_run_plain demo_view_plain 2 _ _ hmem
  ⟨hmem, by
    obtain ⟨target, fwd_ptr, before, h1, h2, h3, h4, h5, _⟩ := h
    exact ⟨target, fwd_ptr, before, h1, h2, h3, h4, h5⟩⟩

/-- C7, as stated, fails: in the plain example run (verbose off) the named
export 1 (`Baz`) has `ordinal_table[1] = 1` and `function_table[1] = 0x2050`,
inside the export range `[0x2000, 0x206c)`, yet its line is `Baz DATA` with no
forwarder annotation. -/
theorem named_forwarder_silent_without_verbose :
    dump_exports (demo_ctx 1 false false) true 0x2000 0x6c = .ok (demo_listing, false) ∧
    read_u16 (demo_ctx 1 false false).image (demo_view 1).ordinal_table (2 * 1) = .ok 1 ∧
    read_u32 (demo_ctx 1 false false).image (demo_view 1).function_table (4 * 1) =
      .ok 0x2050 ∧
    0x2000 ≤ 0x2050 ∧ 0x2050 < 0x2000 + 0x6c ∧
    demo_listing.map Line.render =
      ["LIBRARY foo.dll\n", "EXPORTS\n", "Bar\n", "Baz DATA\n",
       "RtlFoo DATA ; WARNING: Symbol name guessed from forwarder (NTDLL.RtlFoo)\n"] ∧
    ∀ sym fwd, Line.named 1 sym (some fwd) ∉ demo_listing :=
  ⟨demo_run_plain, rfl, rfl, by decide, by decide, by decide, by simp [demo_listing]⟩

/-- C7, amended: for every run of `dump_exports` that completes and every
named export `i` whose target `function_table[ordinal_table[i]]` lies in
`[exports_rva, exports_rva + exports_size)` (the sum in unsigned 32-bit
arithmetic), the line of that export carries the forwarder annotation with the
string found at the target when verbose is on, whatever the ordinal flag is;
when verbose is off the line carries no forwarder annotation. -/
theorem named_forwarder_annotated_iff_verbose (ctx : Ctx) (first : Bool)
    (exports_rva exports_size : Nat) (out : List Line) (first1 : Bool) (v : ExportView)
    (hrun : dump_exports ctx first exports_rva exports_size = .ok (out, first1))
    (hview : export_view ctx exports_rva = .ok v)
    (i f_off target : Nat) (hi : i < v.NumberOfNames)
    (hoff : read_u16 ctx.image v.ordinal_table (2 * i) = .ok f_off)
    (htarget : read_u32 ctx.image v.function_table (4 * f_off) = .ok target)
    (hlo : exports_rva ≤ target)
    (hhi : target < (exports_rva + exports_size) % 2 ^ 32) :
    (ctx.verbose = true →
      ∃ sym fwd_ptr fwd,
        rva_to_ptr ctx.sections target = .ok fwd_ptr ∧
        read_cstr ctx.image fwd_ptr = .ok fwd ∧
        Line.named i sym (some fwd) ∈ out ∧
        (Line.named i sym (some fwd)).render =
          sym.render ++ " ; Forwarder (" ++ fwd ++ ")" ++ "\n") ∧
    (ctx.verbose = false →
      ∃ sym, Line.named i sym none ∈ out ∧
        (Line.named i sym none).render = sym.render ++ "\n" ∧
        ∀ sym1 fwd, Line.named i sym1 (some fwd) ∉ out) := by
  obtain ⟨sym, fwd, hline⟩ := named_line_exists _ _ _ _ _ _ _ hrun hview i hi
  obtain ⟨_, _, f_off1, target1, _, sym1, _, _, h3, h4, _, _, h7⟩ :=
    named_line_ok _ _ _ _ _ _ hline
  rw [hoff] at h3
  cases h3
  rw [htarget] at h4
  cases h4
  have hrange : in_export_range exports_rva exports_size target = true := by
    simp only [in_export_range, decide_eq_true_eq]
    exact ⟨hlo, hhi⟩
  constructor
  · intro hverbose
    rcases h7 with ⟨_, fwd_ptr, fwd1, hp, hf, heq⟩ | ⟨hfalse, _⟩
    · cases heq
      exact ⟨sym, fwd_ptr, fwd1, hp, hf,
        (named_mem_out _ _ _ _ _ _ _ hrun hview i sym _).mpr ⟨hi, hline⟩, rfl⟩
    · rw [hrange, hverbose] at hfalse
      cases hfalse
  · intro hverbose
    rcases h7 with ⟨htrue, _⟩ | ⟨_, heq⟩
    · rw [hrange, hverbose] at htrue
      cases htrue
    · cases heq
      refine ⟨sym, (named_mem_out _ _ _ _ _ _ _ hrun hview i sym _).mpr ⟨hi, hline⟩, rfl, ?_⟩
      intro sym2 fwd2 hmem
      obtain ⟨_, hline2⟩ := (named_mem_out _ _ _ _ _ _ _ hrun hview i sym2 _).mp hmem
      rw [hline] at hline2
      cases hline2

/-- Witness of C7 (amended): the named export 1 of the verbose example run. -/
theorem named_forwarder_annotated_iff_verbose_witness :
    ∃ sym fwd_ptr fwd,
      rva_to_ptr (demo_ctx 1 true true).sections 0x2050 = .ok fwd_ptr ∧
      read_cstr (demo_ctx 1 true true).image fwd_ptr = .ok fwd ∧
      Line.named 1 sym (some fwd) ∈ demo_listing_verbose ∧
      (Line.named 1 sym (some fwd)).render =
        sym.render ++ " ; Forwarder (" ++ fwd ++ ")" ++ "\n" :=
  (named_forwarder_annotated_iff_verbose (demo_ctx 1 true true) true 0x2000 0x6c
    demo_listing_verbose false (demo_view 1) demo_run_verbose demo_view_verbose
    1 1 0x2050 (by decide) rfl rfl (by decide) (by decide)).1 rfl

/-- C8, as stated, fails: in the example with base 0x80000000 and ordinal
display on, the named export 0 has `ordinal_table[0] = 0`, so the claim gives
the ordinal `0 + Base = 2147483648`; the line prints `@-2147483648`. -/
theorem named_ordinal_not_sum :
    dump_exports (demo_ctx 0x80000000 false true) true 0x2000 0x6c =
      .ok (demo_listing_high_base, false) ∧
    read_u16 (demo_ctx 0x80000000 false true).image
      (demo_view 0x80000000).ordinal_table (2 * 0) = .ok 0 ∧
    (demo_view 0x80000000).Base = 2147483648 ∧
    demo_listing_high_base.map Line.render =
      ["LIBRARY foo.dll\n", "EXPORTS\n",
       "Bar                     \t@-2147483648\n",
       "Baz                     \t@-2147483647 DATA\n",
       "RtlFoo                  \t@-2147483646 DATA" ++
         " ; WARNING: Symbol name guessed from forwarder (NTDLL.RtlFoo)\n"] :=
  ⟨demo_run_high_base, rfl, rfl, by decide⟩

/-- C8, amended: for every run of `dump_exports` that completes and every
`i < NumberOfNames`, the output holds the line of the named export `i`, and the
ordinal it carries is `ordinal_table[i] + Base` reduced modulo 2^32 and read as
a signed 32-bit integer; it equals `ordinal_table[i] + Base` whenever that sum
is below 2^31. With ordinal display on, the name part of the line is the
decorated name padded to 24 columns, a tab, `@` and that number in decimal. -/
theorem named_ordinal_emitted (ctx : Ctx) (first : Bool) (exports_rva exports_size : Nat)
    (out : List Line) (first1 : Bool) (v : ExportView)
    (hrun : dump_exports ctx first exports_rva exports_size = .ok (out, first1))
    (hview : export_view ctx exports_rva = .ok v)
    (i : Nat) (hi : i < v.NumberOfNames) :
    ∃ f_off sym fwd,
      read_u16 ctx.image v.ordinal_table (2 * i) = .ok f_off ∧
      Line.named i sym fwd ∈ out ∧
      sym.ord = to_int32 ((f_off + v.Base) % 2 ^ 32) ∧
      (f_off + v.Base < 2 ^ 31 → sym.ord = ((f_off + v.Base : Nat) : Int)) ∧
      (ctx.ordinal_flag = true →
        sym.head = fmt_left 24 sym.s ++ "\t@" ++ toString sym.ord) := by
  obtain ⟨sym, fwd, hline⟩ := named_line_exists _ _ _ _ _ _ _ hrun hview i hi
  obtain ⟨_, _, f_off, target, name, sym1, _, _, h3, _, _, hsym, h7⟩ :=
    named_line_ok _ _ _ _ _ _ hline
  have hsame : sym1 = sym := by
    rcases h7 with ⟨_, _, _, _, _, heq⟩ | ⟨_, heq⟩ <;> cases heq <;> rfl
  subst hsame
  obtain ⟨_, hs⟩ := (dump_symbol_ok _ _ _ _ _).mp hsym
  have hord : sym1.ord = to_int32 ((f_off + v.Base) % 2 ^ 32) := by rw [hs]
  refine ⟨f_off, sym1, fwd, h3,
    (named_mem_out _ _ _ _ _ _ _ hrun hview i sym1 fwd).mpr ⟨hi, hline⟩, hord,
    fun hlt => ?_, fun hflag => ?_⟩
  · rw [hord, to_int32_of_lt _ hlt]
  · rw [hs]
    simp only [hflag, if_true]

/-- Witness of C8 (amended): the named export 1 of the verbose example run,
whose line prints `@2`. -/
theorem named_ordinal_emitted_witness :
    ∃ f_off sym fwd,
      read_u16 (demo_ctx 1 true true).image (demo_view 1).ordinal_table (2 * 1) = .ok f_off ∧
      Line.named 1 sym fwd ∈ demo_listing_verbose ∧
      sym.ord = to_int32 ((f_off + (demo_view 1).Base) % 2 ^ 32) ∧
      (f_off + (demo_view 1).Base < 2 ^ 31 →
        sym.ord = ((f_off + (demo_view 1).Base : Nat) : Int)) ∧
      ((demo_ctx 1 true true).ordinal_flag = true →
        sym.head = fmt_left 24 sym.s ++ "\t@" ++ toString sym.ord) :=
  named_ordinal_emitted (demo_ctx 1 true true) true 0x2000 0x6c demo_listing_verbose false
    (demo_view 1) demo_run_verbose demo_view_verbose 1 (by decide)

theorem dump_symbol_text (ctx : Ctx) (name : String) (ord : Int) (rva : Nat) (sym : Symbol)
    (h : dump_symbol ctx name ord rva = .ok sym) :
    sym.name = name ∧ sym.ord = ord ∧
      ∃ rest, sym.render = decorated_name ctx name ++ rest := by
  obtain ⟨_, hsym⟩ := (dump_symbol_ok ctx name ord rva sym).mp h
  have hname : sym.name = name := by rw [hsym]
  have hord : sym.ord = ord := by rw [hsym]
  have hhead : sym.head =
      if ctx.ordinal_flag then fmt_left 24 (decorated_name ctx name) ++ "\t@" ++ toString ord
      else decorated_name ctx name := by rw [hsym]
  refine ⟨hname, hord, ?_⟩
  cases hf : ctx.ordinal_flag with
  | false =>
    rw [hf] at hhead
    simp only [Bool.false_eq_true, if_false] at hhead
    exact ⟨(if sym.data then " DATA" else "") ++ String.join sym.notes, by
      rw [Symbol.render, hhead, String.append_assoc]⟩
  | true =>
    rw [hf] at hhead
    simp only [if_true, fmt_left] at hhead
    exact ⟨String.mk (List.replicate (24 - (decorated_name ctx name).length) ' ') ++ "\t@" ++
        toString ord ++ (if sym.data then " DATA" else "") ++ String.join sym.notes, by
      rw [Symbol.render, hhead]
      simp only [String.append_assoc]⟩

theorem named_line_text (ctx : Ctx) (v : ExportView) (exports_rva exports_size i : Nat)
    (line : Line) (h : named_line ctx v exports_rva exports_size i = .ok line) :
    ∃ name_rva name_ptr name f_off sym fwd rest,
      read_u32 ctx.image v.name_table (4 * i) = .ok name_rva ∧
      rva_to_ptr ctx.sections name_rva = .ok name_ptr ∧
      read_cstr ctx.image name_ptr = .ok name ∧
      read_u16 ctx.image v.ordinal_table (2 * i) = .ok f_off ∧
      line = Line.named i sym fwd ∧
      sym.name = name ∧
      sym.ord = to_int32 ((f_off + v.Base) % 2 ^ 32) ∧
      line.render = decorated_name ctx name ++ rest := by
  obtain ⟨name_rva, name_ptr, f_off, target, name, sym, h1, h2, h3, _, h5, h6, h7⟩ :=
    named_line_ok ctx v exports_rva exports_size i line h
  obtain ⟨hn, ho, rest, hr⟩ := dump_symbol_text ctx name _ target sym h6
  rcases h7 with ⟨_, _, fwd, _, _, rfl⟩ | ⟨_, rfl⟩
  · refine ⟨name_rva, name_ptr, name, f_off, sym, some fwd,
      rest ++ " ; Forwarder (" ++ fwd ++ ")" ++ "\n", h1, h2, h5, h3, rfl, hn, ho, ?_⟩
    show sym.render ++ " ; Forwarder (" ++ fwd ++ ")" ++ "\n" = _
    rw [hr]
    simp only [String.append_assoc]
  · refine ⟨name_rva, name_ptr, name, f_off, sym, none, rest ++ "\n", h1, h2, h5, h3, rfl, hn, ho, ?_⟩
    show sym.render ++ "\n" = _
    rw [hr]
    simp only [String.append_assoc]

theorem orphan_line_text (ctx : Ctx) (v : ExportView) (exports_rva exports_size j : Nat)
    (line : Line) (h : orphan_line ctx v exports_rva exports_size j = .ok (some line)) :
    ∃ target fwd_ptr fwd name sym rest,
      read_u32 ctx.image v.function_table (4 * j) = .ok target ∧
      rva_to_ptr ctx.sections target = .ok fwd_ptr ∧
      read_cstr ctx.image fwd_ptr = .ok fwd ∧
      strchr_dot_plus1 fwd.data = some name ∧
      line = Line.orphan j sym fwd ∧
      sym.name = String.mk name ∧
      sym.ord = to_int32 ((j + v.Base) % 2 ^ 32) ∧
      line.render = decorated_name ctx (String.mk name) ++ rest := by
  obtain ⟨target, ht, hcase⟩ := orphan_line_ok ctx v exports_rva exports_size j _ h
  rcases hcase with ⟨_, ho⟩ | ⟨_, _, ho⟩ | ⟨_, _, fwd_ptr, fwd, name, sym, h1, h2, h3, h4, ho⟩
  · cases ho
  · cases ho
  · cases ho
    obtain ⟨hn, hord, rest, hr⟩ := dump_symbol_text ctx (String.mk name) _ target sym h4
    refine ⟨target, fwd_ptr, fwd, name, sym,
      rest ++ " ; WARNING: Symbol name guessed from forwarder (" ++ fwd ++ ")\n",
      ht, h1, h2, h3, rfl, hn, hord, ?_⟩
    show sym.render ++ " ; WARNING: Symbol name guessed from forwarder (" ++ fwd ++ ")\n" = _
    rw [hr]
    simp only [String.append_assoc]

theorem shuffled_run :
    dump_exports shuffled_ctx true 0x2000 0x6c = .ok (shuffled_listing, false) := rfl

theorem shuffled_view_eq : export_view shuffled_ctx 0x2000 = .ok (demo_view 1) := rfl

/-- C9: for every run of `dump_exports` that completes, the output is a
header without export lines, then one line for every `i = 0 .. NumberOfNames-1`
in that order, then the lines of the recovered ordinals. The line `i` of the
first group is the line of the name that `name_table[i]` points at: its text
starts with that name (decorated), and its ordinal is `ordinal_table[i] + Base`,
whatever the order of those ordinals is. The lines of the second group are
those of the function-table indices `j` that are recovered (target in the
export range, no name entry), in strictly ascending order of `j`; the text of
the line for `j` starts with the name that follows the first `.` of the
forwarder string `function_table[j]` points at. So no line of a recovered
ordinal comes before the line of a named export. -/
theorem export_lines_order (ctx : Ctx) (first : Bool) (exports_rva exports_size : Nat)
    (out : List Line) (first1 : Bool) (v : ExportView)
    (hrun : dump_exports ctx first exports_rva exports_size = .ok (out, first1))
    (hview : export_view ctx exports_rva = .ok v) :
    ∃ header named orphans js,
      out = header ++ named ++ orphans ∧
      (∀ l ∈ header, l.is_export = false) ∧
      List.Forall₂ (fun i l => ∃ name_rva name_ptr name f_off sym fwd rest,
          read_u32 ctx.image v.name_table (4 * i) = .ok name_rva ∧
          rva_to_ptr ctx.sections name_rva = .ok name_ptr ∧
          read_cstr ctx.image name_ptr = .ok name ∧
          read_u16 ctx.image v.ordinal_table (2 * i) = .ok f_off ∧
          l = Line.named i sym fwd ∧
          sym.name = name ∧
          sym.ord = to_int32 ((f_off + v.Base) % 2 ^ 32) ∧
          l.render = decorated_name ctx name ++ rest)
        (List.range v.NumberOfNames) named ∧
      List.Forall₂ (fun j l => ∃ target fwd_ptr fwd name sym rest,
          read_u32 ctx.image v.function_table (4 * j) = .ok target ∧
          rva_to_ptr ctx.sections target = .ok fwd_ptr ∧
          read_cstr ctx.image fwd_ptr = .ok fwd ∧
          strchr_dot_plus1 fwd.data = some name ∧
          l = Line.orphan j sym fwd ∧
          sym.name = String.mk name ∧
          sym.ord = to_int32 ((j + v.Base) % 2 ^ 32) ∧
          l.render = decorated_name ctx (String.mk name) ++ rest) js orphans ∧
      js = (List.range v.NumberOfFunctions).filter
        (orphan_ordinal ctx v exports_rva exports_size) ∧
      js.Pairwise (· < ·) ∧
      ∀ j ∈ js, j < v.NumberOfFunctions := by
  obtain ⟨section_name, export_name, named, orphans, hout, hn, ho⟩ :=
    dump_exports_parts ctx first exports_rva exports_size out first1 v hrun hview
  refine ⟨export_header ctx first v section_name export_name, named, orphans,
    (List.range' 0 v.NumberOfFunctions).filter (orphan_ordinal ctx v exports_rva exports_size),
    hout, ?_, ?_, ?_, ?_, ?_, ?_⟩
  · exact fun l hl => export_header_no_export _ _ _ _ _ _ hl
  · rw [List.range_eq_range']
    exact hn.imp fun k l h => named_line_text _ _ _ _ _ _ h
  · exact ho.imp fun k l h => orphan_line_text _ _ _ _ _ _ h
  · rw [List.range_eq_range']
  · exact (List.pairwise_lt_range' 0 v.NumberOfFunctions).filter _
  · intro j hj
    simpa [List.mem_range'_1] using (List.mem_filter.mp hj).1

/-- Witness of C9: the sixth example, where the ordinal table is `[1, 0]`: the
line of `Bar` (ordinal 2) comes before the line of `Baz` (ordinal 1), in the
order of the name-pointer table, and the recovered ordinal 3 comes last. -/
theorem export_lines_order_witness :
    (∃ header named orphans js,
      shuffled_listing = header ++ named ++ orphans ∧
      (∀ l ∈ header, l.is_export = false) ∧
      List.Forall₂ (fun i l => ∃ name_rva name_ptr name f_off sym fwd rest,
          read_u32 shuffled_ctx.image (demo_view 1).name_table (4 * i) = .ok name_rva ∧
          rva_to_ptr shuffled_ctx.sections name_rva = .ok name_ptr ∧
          read_cstr shuffled_ctx.image name_ptr = .ok name ∧
          read_u16 shuffled_ctx.image (demo_view 1).ordinal_table (2 * i) = .ok f_off ∧
          l = Line.named i sym fwd ∧
          sym.name = name ∧
          sym.ord = to_int32 ((f_off + (demo_view 1).Base) % 2 ^ 32) ∧
          l.render = decorated_name shuffled_ctx name ++ rest)
        (List.range (demo_view 1).NumberOfNames) named ∧
      List.Forall₂ (fun j l => ∃ target fwd_ptr fwd name sym rest,
          read_u32 shuffled_ctx.image (demo_view 1).function_table (4 * j) = .ok target ∧
          rva_to_ptr shuffled_ctx.sections target = .ok fwd_ptr ∧
          read_cstr shuffled_ctx.image fwd_ptr = .ok fwd ∧
          strchr_dot_plus1 fwd.data = some name ∧
          l = Line.orphan j sym fwd ∧
          sym.name = String.mk name ∧
          sym.ord = to_int32 ((j + (demo_view 1).Base) % 2 ^ 32) ∧
          l.render = decorated_name shuffled_ctx (String.mk name) ++ rest) js orphans ∧
      js = (List.range (demo_view 1).NumberOfFunctions).filter
        (orphan_ordinal shuffled_ctx (demo_view 1) 0x2000 0x6c) ∧
      js.Pairwise (· < ·) ∧
      ∀ j ∈ js, j < (demo_view 1).NumberOfFunctions) ∧
    shuffled_listing.map Line.render =
      ["LIBRARY foo.dll\n", "EXPORTS\n",
       "Bar                     \t@2 DATA\n", "Baz                     \t@1\n",
       "RtlFoo                  \t@3 DATA ; WARNING: Symbol name guessed from forwarder (NTDLL.RtlFoo)\n"] :=
  ⟨export_lines_order shuffled_ctx true 0x2000 0x6c shuffled_listing false
    (demo_view 1) shuffled_run shuffled_view_eq, by decide⟩

/-! ## The section scan of `main` -/

theorem twin_run : main_listing twin_ctx 0x3000 0x40 = .ok twin_listing := rfl

theorem twin_view_eq : export_view twin_ctx 0x3000 = .ok twin_view := rfl

theorem scan_sections_none (ctx : Ctx) (exp_rva exp_size : Nat)
    (sections : List IMAGE_SECTION_HEADER) (first : Bool)
    (hscan : sections.filterMap (scan_target exp_rva) = []) :
    scan_sections ctx exp_rva exp_size sections first = .ok ([], first) := by
  induction sections with
  | nil => rfl
  | cons sec rest ih =>
    cases hs : scan_target exp_rva sec with
    | some r => simp [List.filterMap_cons_some hs] at hscan
    | none =>
      rw [List.filterMap_cons_none hs] at hscan
      simp only [scan_sections, hs, pure, Except.pure, bind, Except.bind]
      rw [ih hscan]
      rfl

theorem scan_sections_single (ctx : Ctx) (exp_rva exp_size rva : Nat)
    (sections : List IMAGE_SECTION_HEADER) (first : Bool)
    (hscan : sections.filterMap (scan_target exp_rva) = [rva])
    (out : List Line) (first1 : Bool)
    (hrun : scan_sections ctx exp_rva exp_size sections first = .ok (out, first1)) :
    dump_exports ctx first rva exp_size = .ok (out, first1) := by
  induction sections with
  | nil => simp at hscan
  | cons sec rest ih =>
    cases hs : scan_target exp_rva sec with
    | some r =>
      rw [List.filterMap_cons_some hs] at hscan
      simp only [List.cons.injEq] at hscan
      obtain ⟨hr, hrest⟩ := hscan
      subst hr
      simp only [scan_sections, hs, bind_eq_ok] at hrun
      obtain ⟨⟨out1, f1⟩, h1, h2⟩ := hrun
      simp only [scan_sections_none ctx exp_rva exp_size rest f1 hrest, bind_eq_ok,
        Except.ok.injEq, exists_eq_left', pure_eq_ok, Prod.mk.injEq,
        List.append_nil] at h2
      rw [h1, ← h2.1, ← h2.2]
    | none =>
      rw [List.filterMap_cons_none hs] at hscan
      simp only [scan_sections, hs, bind_eq_ok, pure_eq_ok] at hrun
      obtain ⟨⟨out1, f1⟩, h1, ⟨more, f2⟩, h2, h3⟩ := hrun
      simp only [Prod.mk.injEq] at h1 h3
      obtain ⟨rfl, rfl⟩ := h1
      obtain ⟨rfl, rfl⟩ := h3
      simpa using ih hscan h2

theorem forall₂_countP_all {α β : Type} {R : α → β → Prop} {l₁ : List α} {l₂ : List β}
    (p : β → Bool) (h : List.Forall₂ R l₁ l₂) (hp : ∀ a b, R a b → p b = true) :
    l₂.countP p = l₁.length := by
  induction h with
  | nil => rfl
  | cons hab _ ih => simp [List.countP_cons, hp _ _ hab, ih]

theorem forall₂_countP_none {α β : Type} {R : α → β → Prop} {l₁ : List α} {l₂ : List β}
    (p : β → Bool) (h : List.Forall₂ R l₁ l₂) (hp : ∀ a b, R a b → p b = false) :
    l₂.countP p = 0 := by
  induction h with
  | nil => rfl
  | cons hab _ ih => simp [List.countP_cons, hp _ _ hab, ih]

theorem export_header_preamble (ctx : Ctx) (first : Bool) (v : ExportView)
    (section_name export_name : String) :
    (export_header ctx first v section_name export_name).countP Line.is_library =
      (if first then 1 else 0) ∧
    (export_header ctx first v section_name export_name).countP Line.is_exports_kw =
      (if first then 1 else 0) ∧
    (first = true → ∃ before,
      export_header ctx first v section_name export_name =
        before ++ [Line.library export_name, Line.exports_kw]) := by
  refine ⟨?_, ?_, ?_⟩
  · unfold export_header
    cases first <;> cases ctx.verbose <;> simp [List.countP_cons, Line.is_library]
  · unfold export_header
    cases first <;> cases ctx.verbose <;> simp [List.countP_cons, Line.is_exports_kw]
  · intro hfirst
    subst hfirst
    exact ⟨_, rfl⟩

theorem dump_exports_counts (ctx : Ctx) (first : Bool) (exports_rva exports_size : Nat)
    (out : List Line) (first1 : Bool) (v : ExportView)
    (hrun : dump_exports ctx first exports_rva exports_size = .ok (out, first1))
    (hview : export_view ctx exports_rva = .ok v) :
    out.countP Line.is_export =
      v.NumberOfNames +
        ((List.range v.NumberOfFunctions).filter
          (orphan_ordinal ctx v exports_rva exports_size)).length ∧
    out.countP Line.is_library = (if first then 1 else 0) ∧
    out.countP Line.is_exports_kw = (if first then 1 else 0) ∧
    (first = true → ∃ before name after,
      out = before ++ Line.library name :: Line.exports_kw :: after) := by
  obtain ⟨section_name, export_name, named, orphans, hout, hn, ho⟩ :=
    dump_exports_parts ctx first exports_rva exports_size out first1 v hrun hview
  have hn1 : ∀ k l, named_line ctx v exports_rva exports_size k = .ok l →
      ∃ sym fwd, l = Line.named k sym fwd := fun k l h => named_line_is_named _ _ _ _ _ _ h
  have ho1 : ∀ k l, orphan_line ctx v exports_rva exports_size k = .ok (some l) →
      ∃ sym fwd, l = Line.orphan k sym fwd := fun k l h => orphan_line_is_orphan _ _ _ _ _ _ h
  obtain ⟨hlib, hkw, hpair⟩ := export_header_preamble ctx first v section_name export_name
  subst hout
  refine ⟨?_, ?_, ?_, ?_⟩
  · rw [List.countP_append, List.countP_append,
      List.countP_eq_zero.mpr (fun l hl => by
        simp [export_header_no_export _ _ _ _ _ _ hl]),
      forall₂_countP_all Line.is_export hn (fun k l h => by
        obtain ⟨sym, fwd, rfl⟩ := hn1 k l h
        rfl),
      forall₂_countP_all Line.is_export ho (fun k l h => by
        obtain ⟨sym, fwd, rfl⟩ := ho1 k l h
        rfl),
      List.length_range', List.range_eq_range']
    omega
  · rw [List.countP_append, List.countP_append, hlib,
      forall₂_countP_none Line.is_library hn (fun k l h => by
        obtain ⟨sym, fwd, rfl⟩ := hn1 k l h
        rfl),
      forall₂_countP_none Line.is_library ho (fun k l h => by
        obtain ⟨sym, fwd, rfl⟩ := ho1 k l h
        rfl)]
    rfl
  · rw [List.countP_append, List.countP_append, hkw,
      forall₂_countP_none Line.is_exports_kw hn (fun k l h => by
        obtain ⟨sym, fwd, rfl⟩ := hn1 k l h
        rfl),
      forall₂_countP_none Line.is_exports_kw ho (fun k l h => by
        obtain ⟨sym, fwd, rfl⟩ := ho1 k l h
        rfl)]
    rfl
  · intro hfirst
    obtain ⟨before, hb⟩ := hpair hfirst
    exact ⟨before, export_name, named ++ orphans, by rw [hb]; simp⟩

/-- C10, as stated, fails: the second example is a file with three sections
that do not overlap, whose optional header names the export directory at RVA
0x3000 (in `.rdata`) with `NumberOfNames = 1`, one function and no orphan; it
also has a section named `.edata` that holds export data. The scan of `main`
decodes both, and the listing has 3 export lines, not `N + K = 1`. -/
theorem main_listing_decodes_two_regions :
    main_listing twin_ctx 0x3000 0x40 = .ok twin_listing ∧
    export_view twin_ctx 0x3000 = .ok twin_view ∧
    twin_view.NumberOfNames = 1 ∧
    ((List.range twin_view.NumberOfFunctions).filter
      (orphan_ordinal twin_ctx twin_view 0x3000 0x40)).length = 0 ∧
    twin_listing.countP Line.is_export = 3 ∧
    twin_ctx.sections.filterMap (scan_target 0x3000) = [0x2000, 0x3000] :=
  ⟨twin_run, twin_view_eq, rfl, by decide, by decide, by decide⟩

/-- C10, amended: for every state in which exactly one section of the table
makes the scan of `main` call `dump_exports` (its name starts with `.edata`, or
its range holds `exp_rva`), with `rva` the address the scan passes, and for
which the run completes, the listing holds exactly `N + K` export lines, where
`N` is `NumberOfNames` of the directory at `rva` and `K` the number of
function-table indices that lie in the export range and that no ordinal-table
entry references, and exactly one `LIBRARY name` line and one `EXPORTS` line,
the second right after the first. The state is arbitrary, so this holds with
verbose off and with verbose on. -/
theorem main_listing_counts (ctx : Ctx) (exp_rva exp_size rva : Nat) (v : ExportView)
    (out : List Line)
    (hscan : ctx.sections.filterMap (scan_target exp_rva) = [rva])
    (hview : export_view ctx rva = .ok v)
    (hrun : main_listing ctx exp_rva exp_size = .ok out) :
    out.countP Line.is_export =
      v.NumberOfNames +
        ((List.range v.NumberOfFunctions).filter
          (orphan_ordinal ctx v rva exp_size)).length ∧
    out.countP Line.is_library = 1 ∧
    out.countP Line.is_exports_kw = 1 ∧
    ∃ before name after, out = before ++ Line.library name :: Line.exports_kw :: after := by
  simp only [main_listing, bind_eq_ok, pure_eq_ok] at hrun
  obtain ⟨⟨lines, first1⟩, hs, hout⟩ := hrun
  have hd := scan_sections_single ctx exp_rva exp_size rva ctx.sections true hscan lines
    first1 hs
  obtain ⟨h1, h2, h3, h4⟩ := dump_exports_counts ctx true rva exp_size lines first1 v hd hview
  have hcomments : ∀ p : Line → Bool, (∀ t, p (Line.comment t) = false) →
      (if ctx.verbose = true then ctx.sections.map section_comment else []).countP p = 0 := by
    intro p hp
    rw [List.countP_eq_zero]
    intro l hl
    split at hl
    · obtain ⟨sec, _, rfl⟩ := List.mem_map.mp hl
      simp [section_comment, hp]
    · cases hl
  subst hout
  refine ⟨?_, ?_, ?_, ?_⟩
  · rw [List.countP_append, hcomments _ (fun _ => rfl), h1]
    omega
  · rw [List.countP_append, hcomments _ (fun _ => rfl), h2]
    rfl
  · rw [List.countP_append, hcomments _ (fun _ => rfl), h3]
    rfl
  · obtain ⟨before, name, after, hb⟩ := h4 rfl
    exact ⟨(if ctx.verbose = true then ctx.sections.map section_comment else []) ++ before,
      name, after, by rw [hb, List.append_assoc]⟩

theorem demo_main_run :
    main_listing (demo_ctx 1 false false) 0x2000 0x6c = .ok demo_listing := rfl

/-- Witness of C10 (amended): the plain example, whose only triggering section
is `.edata`; 2 names and 1 orphan give 3 export lines. -/
theorem main_listing_counts_witness :
    demo_listing.countP Line.is_export =
      (demo_view 1).NumberOfNames +
        ((List.range (demo_view 1).NumberOfFunctions).filter
          (orphan_ordinal (demo_ctx 1 false false) (demo_view 1) 0x2000 0x6c)).length ∧
    demo_listing.countP Line.is_library = 1 ∧
    demo_listing.countP Line.is_exports_kw = 1 ∧
    ∃ before name after,
      demo_listing = before ++ Line.library name :: Line.exports_kw :: after :=
  main_listing_counts (demo_ctx 1 false false) 0x2000 0x6c 0x2000 (demo_view 1) demo_listing
    (by decide) demo_view_plain demo_main_run

/-! ## Sequences of `dump_exports` calls -/

theorem export_header_comment (ctx : Ctx) (first : Bool) (v : ExportView)
    (section_name export_name : String) :
    (export_header ctx first v section_name export_name).countP Line.is_library_comment =
      (if first then 0 else 1) ∧
    (first = false →
      Line.library_comment export_name ∈ export_header ctx first v section_name export_name) := by
  refine ⟨?_, ?_⟩
  · unfold export_header
    cases first <;> cases ctx.verbose <;> simp [List.countP_cons, Line.is_library_comment]
  · intro hfirst
    subst hfirst
    unfold export_header
    simp

theorem dump_exports_later_call (ctx : Ctx) (exports_rva exports_size : Nat)
    (out : List Line) (first1 : Bool)
    (hrun : dump_exports ctx false exports_rva exports_size = .ok (out, first1)) :
    first1 = false ∧
    out.countP Line.is_library = 0 ∧
    out.countP Line.is_exports_kw = 0 ∧
    out.countP Line.is_library_comment = 1 ∧
    ∃ v name, export_view ctx exports_rva = .ok v ∧
      read_cstr ctx.image v.export_name = .ok name ∧
      Line.library_comment name ∈ out := by
  obtain ⟨v, section_name, export_name, named, orphans, hv, hname, hn, ho, hout, hf⟩ :=
    dump_exports_ok ctx false exports_rva exports_size out first1 hrun
  obtain ⟨_, h2, h3, _⟩ := dump_exports_counts ctx false exports_rva exports_size out first1 v
    hrun hv
  obtain ⟨hc, hmem⟩ := export_header_comment ctx false v section_name export_name
  have hn1 := named_pass_ok _ _ _ _ _ _ _ hn
  have ho1 := orphan_pass_ok _ _ _ _ _ _ _ ho
  refine ⟨hf, h2, h3, ?_, v, export_name, hv, hname, ?_⟩
  · subst hout
    rw [List.countP_append, List.countP_append, hc,
      forall₂_countP_none Line.is_library_comment hn1 (fun k l h => by
        obtain ⟨sym, fwd, rfl⟩ := named_line_is_named _ _ _ _ _ _ h
        rfl),
      forall₂_countP_none Line.is_library_comment ho1 (fun k l h => by
        obtain ⟨sym, fwd, rfl⟩ := orphan_line_is_orphan _ _ _ _ _ _ h
        rfl)]
    rfl
  · subst hout
    simp [hmem rfl]

theorem dump_exports_first_call (ctx : Ctx) (exports_rva exports_size : Nat)
    (out : List Line) (first1 : Bool)
    (hrun : dump_exports ctx true exports_rva exports_size = .ok (out, first1)) :
    first1 = false ∧
    out.countP Line.is_library = 1 ∧
    out.countP Line.is_exports_kw = 1 ∧
    out.countP Line.is_library_comment = 0 ∧
    ∃ before name after, out = before ++ Line.library name :: Line.exports_kw :: after := by
  obtain ⟨v, section_name, export_name, named, orphans, hv, hname, hn, ho, hout, hf⟩ :=
    dump_exports_ok ctx true exports_rva exports_size out first1 hrun
  obtain ⟨_, h2, h3, h4⟩ := dump_exports_counts ctx true exports_rva exports_size out first1 v
    hrun hv
  obtain ⟨hc, _⟩ := export_header_comment ctx true v section_name export_name
  have hn1 := named_pass_ok _ _ _ _ _ _ _ hn
  have ho1 := orphan_pass_ok _ _ _ _ _ _ _ ho
  refine ⟨hf, h2, h3, ?_, h4 rfl⟩
  subst hout
  rw [List.countP_append, List.countP_append, hc,
    forall₂_countP_none Line.is_library_comment hn1 (fun k l h => by
      obtain ⟨sym, fwd, rfl⟩ := named_line_is_named _ _ _ _ _ _ h
      rfl),
    forall₂_countP_none Line.is_library_comment ho1 (fun k l h => by
      obtain ⟨sym, fwd, rfl⟩ := orphan_line_is_orphan _ _ _ _ _ _ h
      rfl)]
  rfl

theorem dump_exports_calls_later (ctx : Ctx) (calls : List (Nat × Nat))
    (outs : List (List Line)) (first1 : Bool)
    (hrun : dump_exports_calls ctx calls false = .ok (outs, first1)) :
    first1 = false ∧
    List.Forall₂ (fun call out =>
      dump_exports ctx false call.1 call.2 = .ok (out, false)) calls outs := by
  induction calls generalizing outs first1 with
  | nil =>
    simp only [dump_exports_calls, pure_eq_ok, Prod.mk.injEq] at hrun
    obtain ⟨rfl, rfl⟩ := hrun
    exact ⟨rfl, List.Forall₂.nil⟩
  | cons call rest ih =>
    simp only [dump_exports_calls, bind_eq_ok, pure_eq_ok] at hrun
    obtain ⟨⟨out, f1⟩, h1, ⟨more, f2⟩, h2, h3⟩ := hrun
    simp only [Prod.mk.injEq] at h3
    obtain ⟨rfl, rfl⟩ := h3
    have hf : f1 = false := (dump_exports_later_call ctx _ _ out f1 h1).1
    subst hf
    obtain ⟨hf2, hrest⟩ := ih more f2 h2
    exact ⟨hf2, List.Forall₂.cons h1 hrest⟩

theorem forall₂_flatten_countP_zero {α β : Type} {R : α → List β → Prop} {l₁ : List α}
    {l₂ : List (List β)} (p : β → Bool) (h : List.Forall₂ R l₁ l₂)
    (hp : ∀ a b, R a b → b.countP p = 0) : l₂.flatten.countP p = 0 := by
  induction h with
  | nil => rfl
  | cons hab _ ih => simp [List.countP_append, hp _ _ hab, ih]

/-- C11: for every non-empty sequence of `dump_exports` calls in one run that
completes (the static flag starts set), the first call emits `LIBRARY name`
and right after it `EXPORTS`, once each, and no `; LIBRARY` comment; every
later call emits neither of the two preamble lines and emits the module name
of its directory once as the comment line `; LIBRARY name`; so the whole
output holds exactly one `LIBRARY` line and exactly one `EXPORTS` line. -/
theorem preamble_only_in_first_call (ctx : Ctx) (call : Nat × Nat) (rest : List (Nat × Nat))
    (outs : List (List Line)) (first1 : Bool)
    (hrun : dump_exports_calls ctx (call :: rest) true = .ok (outs, first1)) :
    ∃ out later, outs = out :: later ∧
      dump_exports ctx true call.1 call.2 = .ok (out, false) ∧
      out.countP Line.is_library = 1 ∧
      out.countP Line.is_exports_kw = 1 ∧
      out.countP Line.is_library_comment = 0 ∧
      (∃ before name after, out = before ++ Line.library name :: Line.exports_kw :: after) ∧
      List.Forall₂ (fun c o =>
        dump_exports ctx false c.1 c.2 = .ok (o, false) ∧
        o.countP Line.is_library = 0 ∧
        o.countP Line.is_exports_kw = 0 ∧
        o.countP Line.is_library_comment = 1 ∧
        ∃ v name, export_view ctx c.1 = .ok v ∧
          read_cstr ctx.image v.export_name = .ok name ∧
          Line.library_comment name ∈ o) rest later ∧
      outs.flatten.countP Line.is_library = 1 ∧
      outs.flatten.countP Line.is_exports_kw = 1 := by
  simp only [dump_exports_calls, bind_eq_ok, pure_eq_ok] at hrun
  obtain ⟨⟨out, f1⟩, h1, ⟨later, f2⟩, h2, h3⟩ := hrun
  simp only [Prod.mk.injEq] at h3
  obtain ⟨rfl, rfl⟩ := h3
  obtain ⟨hf, hl, hk, hc, hpair⟩ := dump_exports_first_call ctx _ _ out f1 h1
  subst hf
  obtain ⟨_, hlater⟩ := dump_exports_calls_later ctx rest later f2 h2
  have hlater1 := hlater.imp (fun c o h =>
    (⟨h, (dump_exports_later_call ctx _ _ o false h).2⟩ :
      dump_exports ctx false c.1 c.2 = .ok (o, false) ∧
      o.countP Line.is_library = 0 ∧
      o.countP Line.is_exports_kw = 0 ∧
      o.countP Line.is_library_comment = 1 ∧
      ∃ v name, export_view ctx c.1 = .ok v ∧
        read_cstr ctx.image v.export_name = .ok name ∧
        Line.library_comment name ∈ o))
  refine ⟨out, later, rfl, h1, hl, hk, hc, hpair, hlater1, ?_, ?_⟩
  · rw [List.flatten_cons, List.countP_append, hl,
      forall₂_flatten_countP_zero Line.is_library hlater1 (fun _ _ h => h.2.1)]
  · rw [List.flatten_cons, List.countP_append, hk,
      forall₂_flatten_countP_zero Line.is_exports_kw hlater1 (fun _ _ h => h.2.2.1)]

theorem twin_calls :
    dump_exports_calls twin_ctx [(0x2000, 0x40), (0x3000, 0x40)] true =
      .ok ([twin_listing.take 4, twin_listing.drop 4], false) := rfl

/-- Witness of C11: the two calls the scan makes for the second example; the
second call writes `; LIBRARY foo.dll`. -/
theorem preamble_only_in_first_call_witness :
    (twin_listing.take 4).countP Line.is_library = 1 ∧
    (twin_listing.take 4).countP Line.is_exports_kw = 1 ∧
    List.Forall₂ (fun c o =>
      dump_exports twin_ctx false c.1 c.2 = .ok (o, false) ∧
      o.countP Line.is_library = 0 ∧
      o.countP Line.is_exports_kw = 0 ∧
      o.countP Line.is_library_comment = 1 ∧
      ∃ v name, export_view twin_ctx c.1 = .ok v ∧
        read_cstr twin_ctx.image v.export_name = .ok name ∧
        Line.library_comment name ∈ o) [(0x3000, 0x40)] [twin_listing.drop 4] ∧
    [twin_listing.take 4, twin_listing.drop 4].flatten.countP Line.is_library = 1 ∧
    [twin_listing.take 4, twin_listing.drop 4].flatten.countP Line.is_exports_kw = 1 := by
  obtain ⟨out, later, heq, _, h1, h2, _, _, h5, h6, h7⟩ :=
    preamble_only_in_first_call twin_ctx (0x2000, 0x40) [(0x3000, 0x40)] _ _ twin_calls
  simp only [List.cons.injEq] at heq
  obtain ⟨rfl, rfl⟩ := heq
  exact ⟨h1, h2, h5, h6, h7⟩

/-! ## The scan of `main` as a sequence of calls -/

theorem scan_target_isSome (exp_rva : Nat) (sec : IMAGE_SECTION_HEADER) :
    (scan_target exp_rva sec).isSome = true ↔
      (sec.Name.take 6 = exp_sign ∨
        (sec.VirtualAddress ≤ exp_rva ∧
          exp_rva < (sec.VirtualAddress + sec.SizeOfRawData) % 2 ^ 32)) := by
  unfold scan_target
  by_cases hn : sec.Name.take 6 = exp_sign
  · simp [hn]
  · by_cases hr : sec.VirtualAddress ≤ exp_rva ∧
        exp_rva < (sec.VirtualAddress + sec.SizeOfRawData) % 2 ^ 32
    · simp only [if_neg hn, if_pos hr, Option.isSome_some, true_iff]
      exact Or.inr hr
    · simp only [if_neg hn, if_neg hr, Option.isSome_none, Bool.false_eq_true, false_iff]
      rintro (h | h)
      · exact hn h
      · exact hr h

theorem scan_sections_eq_calls (ctx : Ctx) (exp_rva exp_size : Nat)
    (sections : List IMAGE_SECTION_HEADER) (first : Bool) :
    scan_sections ctx exp_rva exp_size sections first =
      match dump_exports_calls ctx
          ((sections.filterMap (scan_target exp_rva)).map fun rva => (rva, exp_size)) first with
      | .ok (outs, first1) => .ok (outs.flatten, first1)
      | .error err => .error err := by
  induction sections generalizing first with
  | nil => rfl
  | cons sec rest ih =>
    cases hs : scan_target exp_rva sec with
    | none =>
      rw [List.filterMap_cons_none hs]
      simp only [scan_sections, hs, pure, Except.pure, bind, Except.bind]
      rw [ih first]
      cases dump_exports_calls ctx
        ((rest.filterMap (scan_target exp_rva)).map fun rva => (rva, exp_size)) first with
      | error err => rfl
      | ok r => simp
    | some rva =>
      rw [List.filterMap_cons_some hs]
      simp only [scan_sections, hs, List.map_cons, dump_exports_calls, pure, Except.pure, bind,
        Except.bind]
      cases dump_exports ctx first rva exp_size with
      | error err => rfl
      | ok r =>
        obtain ⟨out, first1⟩ := r
        simp only []
        rw [ih first1]
        cases dump_exports_calls ctx
          ((rest.filterMap (scan_target exp_rva)).map fun rva => (rva, exp_size)) first1 with
        | error err => rfl
        | ok r => simp

theorem alias_run :
    main_listing alias_ctx 0x2000 0x6c =
      .ok (demo_listing ++ Line.library_comment "foo.dll" :: demo_listing.drop 2) := rfl

/-- C18: the scan of `main` is the sequence of `dump_exports` calls for the
sections that satisfy either condition (name starts with `.edata`, or the range
holds `exp_rva`), one call per such section, in file order. The third example
has a section named `.edata` and a different section `.rdata` whose range holds
the export RVA 0x2000: the scan calls `dump_exports(0x2000, 0x6c)` twice and the
three export lines of the region are written twice, the second time after
`; LIBRARY foo.dll`. -/
theorem scan_decodes_once_per_matching_section :
    (∀ (ctx : Ctx) (exp_rva exp_size : Nat) (sections : List IMAGE_SECTION_HEADER)
        (first : Bool),
      scan_sections ctx exp_rva exp_size sections first =
        match dump_exports_calls ctx
            ((sections.filterMap (scan_target exp_rva)).map fun rva => (rva, exp_size))
            first with
        | .ok (outs, first1) => .ok (outs.flatten, first1)
        | .error err => .error err) ∧
    (∀ (exp_rva : Nat) (sec : IMAGE_SECTION_HEADER),
      (scan_target exp_rva sec).isSome = true ↔
        (sec.Name.take 6 = exp_sign ∨
          (sec.VirtualAddress ≤ exp_rva ∧
            exp_rva < (sec.VirtualAddress + sec.SizeOfRawData) % 2 ^ 32))) ∧
    alias_ctx.sections.map (scan_target 0x2000) = [none, some 0x2000, some 0x2000] ∧
    demo_edata.Name.take 6 = exp_sign ∧
    alias_rdata.Name.take 6 ≠ exp_sign ∧
    (alias_rdata.VirtualAddress ≤ 0x2000 ∧
      0x2000 < (alias_rdata.VirtualAddress + alias_rdata.SizeOfRawData) % 2 ^ 32) ∧
    main_listing alias_ctx 0x2000 0x6c =
      .ok (demo_listing ++ Line.library_comment "foo.dll" :: demo_listing.drop 2) ∧
    (demo_listing ++ Line.library_comment "foo.dll" :: demo_listing.drop 2).map Line.render =
      ["LIBRARY foo.dll\n", "EXPORTS\n", "Bar\n", "Baz DATA\n",
       "RtlFoo DATA ; WARNING: Symbol name guessed from forwarder (NTDLL.RtlFoo)\n",
       "; LIBRARY foo.dll\n", "Bar\n", "Baz DATA\n",
       "RtlFoo DATA ; WARNING: Symbol name guessed from forwarder (NTDLL.RtlFoo)\n"] :=
  ⟨scan_sections_eq_calls, scan_target_isSome, by decide, by decide, by decide, by decide,
    alias_run, by decide⟩

/-! ## The spec's example -/

theorem foo_section_table : section_table foo_dll = .ok [demo_text, demo_edata] := rfl

theorem foo_export_entry : export_entry foo_dll = .ok (0x2000, 0x4c) := rfl

theorem foo_run_ordinal :
    main_listing (foo_ctx false true) 0x2000 0x4c = .ok foo_listing_ordinal := rfl

theorem foo_run : main_listing (foo_ctx false false) 0x2000 0x4c = .ok foo_listing := rfl

/-- The end-to-end example of the spec, verbose off and ordinals off: the
listing is `LIBRARY foo.dll`, `EXPORTS`, `Bar`, `Baz`. -/
theorem foo_listing_text :
    main_listing (foo_ctx false false) 0x2000 0x4c = .ok foo_listing ∧
    foo_listing.map Line.render = ["LIBRARY foo.dll\n", "EXPORTS\n", "Bar\n", "Baz\n"] :=
  ⟨foo_run, by decide⟩

/-- C12, as stated, fails: for the spec's example with ordinal display on and
verbose off, the two export lines are `Bar` and `Baz` padded with blanks to 24
columns before the tab, not `Bar\t@1` and `Baz\t@2`. -/
theorem ordinal_line_is_padded :
    main_listing (foo_ctx false true) 0x2000 0x4c = .ok foo_listing_ordinal ∧
    foo_listing_ordinal.map Line.render =
      ["LIBRARY foo.dll\n", "EXPORTS\n",
       "Bar                     \t@1\n", "Baz                     \t@2\n"] ∧
    foo_listing_ordinal.map Line.render ≠
      ["LIBRARY foo.dll\n", "EXPORTS\n", "Bar\t@1\n", "Baz\t@2\n"] :=
  ⟨foo_run_ordinal, by decide, by decide⟩

theorem fmt_left_of_le (width : Nat) (s : String) (h : width ≤ s.length) :
    fmt_left width s = s := by
  unfold fmt_left
  rw [Nat.sub_eq_zero_of_le h]
  apply String.ext
  simp

/-- C12, amended: with ordinal display on and verbose off, the text
`dump_symbol` writes for a CODE export (the target is owned by a section with
the code bit) with decorated name `s` and ordinal `n` is `s`, padded with blanks
on the right up to 24 columns, a tab character, `@` and the decimal `n`; it is
exactly `s`, tab, `@`, `n` when `s` has 24 characters or more. The line of a
named export is that text and a newline. For the spec's example the two export
lines are `Bar` and `Baz`, each followed by 21 blanks, a tab and `@1`, `@2`. -/
theorem ordinal_line_format (ctx : Ctx) (name : String) (ord : Int) (rva : Nat)
    (sec : IMAGE_SECTION_HEADER) (i : Nat)
    (hordinal : ctx.ordinal_flag = true) (hverbose : ctx.verbose = false)
    (hsec : find_section ctx.sections rva = some sec)
    (hcode : sec.Characteristics &&& IMAGE_SCN_CNT_CODE ≠ 0)
    (hfit : (decorated_name ctx name).length < 256) :
    (∃ sym, dump_symbol ctx name ord rva = .ok sym ∧
      sym.render =
        decorated_name ctx name ++
          String.mk (List.replicate (24 - (decorated_name ctx name).length) ' ') ++
          "\t@" ++ toString ord ∧
      (24 ≤ (decorated_name ctx name).length →
        sym.render = decorated_name ctx name ++ "\t@" ++ toString ord) ∧
      (Line.named i sym none).render = sym.render ++ "\n") ∧
    (foo_listing_ordinal.drop 2).map Line.render =
      ["Bar" ++ String.mk (List.replicate 21 ' ') ++ "\t@1\n",
       "Baz" ++ String.mk (List.replicate 21 ' ') ++ "\t@2\n"] := by
  refine ⟨⟨_, (dump_symbol_ok ctx name ord rva _).mpr ⟨hfit, rfl⟩, ?_, ?_, rfl⟩, by decide⟩
  · have hdata : (sec.Characteristics &&& IMAGE_SCN_CNT_CODE = 0) = False := by simp [hcode]
    simp only [Symbol.render, hsec, hordinal, hverbose, if_true, hdata, decide_False,
      Bool.false_eq_true, if_false, String.join, List.foldl, String.append_empty, fmt_left]
  · intro hlen
    have hdata : (sec.Characteristics &&& IMAGE_SCN_CNT_CODE = 0) = False := by simp [hcode]
    simp only [Symbol.render, hsec, hordinal, hverbose, if_true, hdata, decide_False,
      Bool.false_eq_true, if_false, String.join, List.foldl, String.append_empty,
      fmt_left_of_le 24 _ hlen]

/-- Witness of C12 (amended): the export `Bar` of the spec's example, ordinal 1,
target 0x1010 in `.text`. -/
theorem ordinal_line_format_witness :
    ∃ sym, dump_symbol (foo_ctx false true) "Bar" 1 0x1010 = .ok sym ∧
      sym.render =
        decorated_name (foo_ctx false true) "Bar" ++
          String.mk (List.replicate
            (24 - (decorated_name (foo_ctx false true) "Bar").length) ' ') ++
          "\t@" ++ toString (1 : Int) ∧
      (24 ≤ (decorated_name (foo_ctx false true) "Bar").length →
        sym.render = decorated_name (foo_ctx false true) "Bar" ++ "\t@" ++ toString (1 : Int)) ∧
      (Line.named 0 sym none).render = sym.render ++ "\n" :=
  (ordinal_line_format (foo_ctx false true) "Bar" 1 0x1010 demo_text 0 rfl rfl rfl
    (by decide) (by decide)).1

/-! ## What the scan checks before decoding -/

/-- C15, a fault of the code: nothing checks that the export directory's own
location resolves before decoding begins. The file `hollow.dll` of the fourth
example loads; the range of its section `.rdata` holds the export RVA 0x2000,
so the scan calls `dump_exports(0x2000, ...)`; `find_section(0x2000)` is that
section, but its `PointerToRawData` is 0: `rva_to_ptr(0x2000)` is `NULL`, and
`dump_exports` dereferences it (line 232, `exports->Name`). -/
theorem scan_decodes_without_raw_data :
    load_pe_image (some hollow_dll) = .ok (some hollow_dll) ∧
    section_table hollow_dll = .ok [demo_text, hollow_rdata] ∧
    export_entry hollow_dll = .ok (0x2000, 0x6c) ∧
    scan_target 0x2000 hollow_rdata = some 0x2000 ∧
    find_section hollow_ctx.sections 0x2000 = some hollow_rdata ∧
    hollow_rdata.PointerToRawData = 0 ∧
    rva_to_ptr hollow_ctx.sections 0x2000 = .ok none ∧
    main_listing hollow_ctx 0x2000 0x6c = .error .nullPointer ∧
    main hollow_world ["pexports", "hollow.dll"] = .error .nullPointer :=
  ⟨rfl, rfl, rfl, by decide, rfl, rfl, rfl, rfl, rfl⟩

/-- What the scan of `main` does establish before it calls `dump_exports` with
some `exports_rva` for a section of the table whose `VirtualAddress +
SizeOfRawData` does not wrap around 2^32: `find_section(exports_rva)` is a
section. The result of `rva_to_ptr(exports_rva)` is a valid offset exactly
when `PointerToRawData` of that section is not zero; otherwise it is `NULL`. -/
theorem scan_target_is_placed (sections : List IMAGE_SECTION_HEADER) (exp_rva rva : Nat)
    (sec : IMAGE_SECTION_HEADER) (hsec : sec ∈ sections)
    (htarget : scan_target exp_rva sec = some rva)
    (hnowrap : sec.VirtualAddress ≤ (sec.VirtualAddress + sec.SizeOfRawData) % 2 ^ 32) :
    ∃ owner, find_section sections rva = some owner ∧
      (owner.PointerToRawData ≠ 0 →
        rva_to_ptr sections rva =
          .ok (some (rva - owner.VirtualAddress + owner.PointerToRawData))) ∧
      (owner.PointerToRawData = 0 → rva_to_ptr sections rva = .ok none) := by
  have hin : sec.VirtualAddress ≤ rva ∧
      rva ≤ (sec.VirtualAddress + sec.SizeOfRawData) % 2 ^ 32 := by
    unfold scan_target at htarget
    by_cases hn : sec.Name.take 6 = exp_sign
    · rw [if_pos hn] at htarget
      cases htarget
      exact ⟨Nat.le_refl _, hnowrap⟩
    · rw [if_neg hn] at htarget
      by_cases hr : sec.VirtualAddress ≤ exp_rva ∧
          exp_rva < (sec.VirtualAddress + sec.SizeOfRawData) % 2 ^ 32
      · rw [if_pos hr] at htarget
        cases htarget
        exact ⟨hr.1, Nat.le_of_lt hr.2⟩
      · rw [if_neg hr] at htarget
        cases htarget
  cases hf : find_section sections rva with
  | none => exact absurd hin ((find_section_eq_none_iff sections rva).mp hf sec hsec)
  | some owner =>
    refine ⟨owner, rfl, ?_, ?_⟩
    · intro hp
      simp [rva_to_ptr, hf, hp]
    · intro hp
      simp [rva_to_ptr, hf, hp]

/-- The section `.edata` of the first example, which the scan decodes at its
own address 0x2000, is placed. -/
theorem scan_target_is_placed_edata :
    ∃ owner, find_section [demo_text, demo_edata] 0x2000 = some owner ∧
      (owner.PointerToRawData ≠ 0 →
        rva_to_ptr [demo_text, demo_edata] 0x2000 =
          .ok (some (0x2000 - owner.VirtualAddress + owner.PointerToRawData))) ∧
      (owner.PointerToRawData = 0 → rva_to_ptr [demo_text, demo_edata] 0x2000 = .ok none) :=
  scan_target_is_placed [demo_text, demo_edata] 0x2000 0x2000 demo_edata (by simp)
    (by decide) (by decide)

/-! ## Annotations and name decoration -/

/-- C16, as stated, fails: in the plain example run verbose is off, and the
line of the recovered ordinal 2 ends with the `; WARNING: Symbol name guessed
from forwarder` comment. -/
theorem orphan_warning_without_verbose :
    (demo_ctx 1 false false).verbose = false ∧
    dump_exports (demo_ctx 1 false false) true 0x2000 0x6c = .ok (demo_listing, false) ∧
    Line.orphan 2 (Symbol.mk "RtlFoo" 3 0x205f "RtlFoo" "RtlFoo" true []) "NTDLL.RtlFoo" ∈
      demo_listing ∧
    (Line.orphan 2 (Symbol.mk "RtlFoo" 3 0x205f "RtlFoo" "RtlFoo" true [])
        "NTDLL.RtlFoo").render =
      "RtlFoo DATA ; WARNING: Symbol name guessed from forwarder (NTDLL.RtlFoo)\n" :=
  ⟨rfl, demo_run_plain, by simp [demo_listing], by decide⟩

theorem Symbol.render_without_notes (sym : Symbol) (h : sym.notes = []) :
    sym.render = sym.head ++ (if sym.data then " DATA" else "") := by
  unfold Symbol.render
  rw [h]
  apply String.ext
  simp [String.join]

/-- C16, amended: for every run of `dump_exports` that completes with verbose
off, the line of a named export carries no comment annotation (no section
name, no raw RVA, no `no section` warning, no forwarder target): it is the name
part, ` DATA` for a data export, and the newline. The line of a recovered
ordinal carries none of the verbose annotations either, and it carries the
`Symbol name guessed from forwarder` warning, which is printed whatever the
verbose flag is. -/
theorem annotations_without_verbose (ctx : Ctx) (first : Bool)
    (exports_rva exports_size : Nat) (out : List Line) (first1 : Bool) (v : ExportView)
    (hrun : dump_exports ctx first exports_rva exports_size = .ok (out, first1))
    (hview : export_view ctx exports_rva = .ok v)
    (hverbose : ctx.verbose = false) :
    (∀ i sym fwd, Line.named i sym fwd ∈ out →
      sym.notes = [] ∧ fwd = none ∧
      (Line.named i sym fwd).render =
        sym.head ++ (if sym.data then " DATA" else "") ++ "\n") ∧
    (∀ j sym fwd, Line.orphan j sym fwd ∈ out →
      sym.notes = [] ∧
      (Line.orphan j sym fwd).render =
        sym.head ++ (if sym.data then " DATA" else "") ++
          " ; WARNING: Symbol name guessed from forwarder (" ++ fwd ++ ")\n") := by
  constructor
  · intro i sym fwd hmem
    obtain ⟨_, hline⟩ := (named_mem_out _ _ _ _ _ _ _ hrun hview i sym fwd).mp hmem
    obtain ⟨_, _, _, target, name, sym1, _, _, _, _, _, hsym, h7⟩ :=
      named_line_ok _ _ _ _ _ _ hline
    rcases h7 with ⟨htrue, _⟩ | ⟨_, heq⟩
    · rw [hverbose] at htrue
      simp at htrue
    · cases heq
      obtain ⟨_, hs⟩ := (dump_symbol_ok _ _ _ _ _).mp hsym
      have hnotes : sym.notes = [] := by
        rw [hs]
        simp [hverbose]
      refine ⟨hnotes, rfl, ?_⟩
      show sym.render ++ "\n" = _
      rw [Symbol.render_without_notes sym hnotes]
  · intro j sym fwd hmem
    obtain ⟨_, hline⟩ := (orphan_mem_out _ _ _ _ _ _ _ hrun hview j sym fwd).mp hmem
    obtain ⟨target, _, hcases⟩ := orphan_line_ok _ _ _ _ _ _ hline
    rcases hcases with ⟨_, h0⟩ | ⟨_, _, h0⟩ | ⟨_, _, _, fwd1, name, sym1, _, _, _, hsym, h0⟩
    · cases h0
    · cases h0
    · cases h0
      obtain ⟨_, hs⟩ := (dump_symbol_ok _ _ _ _ _).mp hsym
      have hnotes : sym.notes = [] := by
        rw [hs]
        simp [hverbose]
      refine ⟨hnotes, ?_⟩
      show sym.render ++ " ; WARNING: Symbol name guessed from forwarder (" ++ fwd ++ ")\n" = _
      rw [Symbol.render_without_notes sym hnotes]

/-- Witness of C16 (amended): the plain example run. -/
theorem annotations_without_verbose_witness :
    (∀ i sym fwd, Line.named i sym fwd ∈ demo_listing →
      sym.notes = [] ∧ fwd = none ∧
      (Line.named i sym fwd).render =
        sym.head ++ (if sym.data then " DATA" else "") ++ "\n") ∧
    (∀ j sym fwd, Line.orphan j sym fwd ∈ demo_listing →
      sym.notes = [] ∧
      (Line.orphan j sym fwd).render =
        sym.head ++ (if sym.data then " DATA" else "") ++
          " ; WARNING: Symbol name guessed from forwarder (" ++ fwd ++ ")\n") :=
  annotations_without_verbose (demo_ctx 1 false false) true 0x2000 0x6c demo_listing false
    (demo_view 1) demo_run_plain demo_view_plain rfl

/-- C17: for every name and every symbol tree for which the decorated name fits
the buffer, `dump_symbol` returns, and the name text it wrote to the buffer `s`
is the name followed by `@` and the decimal stack-argument size when the lookup
of the name succeeds, and the name unchanged when it finds nothing. With
ordinal display off this text is the name part of the line as it stands; with
ordinal display on it is printed left-justified in 24 columns before the
ordinal. -/
theorem decorated_name_text (ctx : Ctx) (name : String) (ord : Int) (rva : Nat)
    (hfit : (decorated_name ctx name).length < 256) :
    ∃ sym, dump_symbol ctx name ord rva = .ok sym ∧
      (∀ size, ctx.symbols name = some size → sym.s = name ++ "@" ++ toString size) ∧
      (ctx.symbols name = none → sym.s = name) ∧
      (ctx.ordinal_flag = false → sym.head = sym.s) ∧
      (ctx.ordinal_flag = true →
        sym.head = fmt_left 24 sym.s ++ "\t@" ++ toString ord) ∧
      sym.render = sym.head ++ (if sym.data then " DATA" else "") ++ String.join sym.notes := by
  refine ⟨_, (dump_symbol_ok ctx name ord rva _).mpr ⟨hfit, rfl⟩, ?_, ?_, ?_, ?_, rfl⟩
  · intro size hsize
    simp only [decorated_name, hsize]
  · intro hnone
    simp only [decorated_name, hnone]
  · intro hflag
    simp only [hflag, Bool.false_eq_true, if_false]
  · intro hflag
    simp only [hflag, if_true]

/-- Witness of C17: `Bar` with 8 bytes of stack arguments is written as
`Bar@8`. -/
theorem decorated_name_text_witness :
    ∃ sym, dump_symbol stdcall_ctx "Bar" 1 0x1010 = .ok sym ∧
      sym.s = "Bar@8" ∧ sym.render = "Bar@8" := by
  obtain ⟨sym, h1, h2, _, h4, _, h6⟩ := decorated_name_text stdcall_ctx "Bar" 1 0x1010
    (by decide)
  refine ⟨sym, h1, ?_, ?_⟩
  · rw [h2 8 (by decide)]
    decide
  · obtain ⟨_, hs⟩ := (dump_symbol_ok _ _ _ _ _).mp h1
    rw [hs]
    decide

/-! ## Loading the image -/

theorem read_byte_of_lt (image : List Nat) (off i : Nat) (h : off + i < image.length) :
    read_byte image (some off) i = .ok (image.get ⟨off + i, h⟩) := by
  unfold read_byte
  dsimp only
  rw [List.get?_eq_get h]

theorem read_byte_ok (image : List Nat) (off i b : Nat)
    (h : read_byte image (some off) i = .ok b) :
    ∃ hlt : off + i < image.length, b = image.get ⟨off + i, hlt⟩ := by
  unfold read_byte at h
  dsimp only at h
  cases hg : image.get? (off + i) with
  | none =>
    rw [hg] at h
    cases h
  | some c =>
    rw [hg] at h
    simp only [Except.ok.injEq] at h
    obtain ⟨hlt, hc⟩ := List.get?_eq_some.mp hg
    exact ⟨hlt, by rw [← h, ← hc]⟩

theorem read_bytes_of_le (image : List Nat) (off i count : Nat)
    (h : off + i + count ≤ image.length) :
    read_bytes image (some off) i count = .ok ((image.drop (off + i)).take count) := by
  induction count generalizing i with
  | zero => simp [read_bytes, pure, Except.pure]
  | succ count ih =>
    have hlt : off + i < image.length := by omega
    have hrest := ih (i + 1) (by omega)
    simp only [read_bytes, read_byte_of_lt image off i hlt, hrest, bind, Except.bind, pure,
      Except.pure, Except.ok.injEq]
    rw [List.drop_eq_getElem_cons hlt, List.take_succ_cons]
    rfl

theorem read_bytes_ok (image : List Nat) (off i count : Nat) (bytes : List Nat)
    (h : read_bytes image (some off) i count = .ok bytes) :
    bytes = (image.drop (off + i)).take count ∧ (0 < count → off + i + count ≤ image.length) := by
  induction count generalizing i bytes with
  | zero =>
    simp only [read_bytes, pure_eq_ok] at h
    simp [← h]
  | succ count ih =>
    simp only [read_bytes, bind_eq_ok, pure_eq_ok] at h
    obtain ⟨b, hb, rest, hrest, heq⟩ := h
    obtain ⟨hlt, hbv⟩ := read_byte_ok image off i b hb
    obtain ⟨hr, hlen⟩ := ih (i + 1) rest hrest
    constructor
    · rw [← heq, List.drop_eq_getElem_cons hlt, List.take_succ_cons, hr, hbv]
      rfl
    · intro _
      rcases Nat.eq_zero_or_pos count with h0 | hpos
      · omega
      · have := hlen hpos
        omega

theorem load_pe_image_of_magic (content : List Nat) (h2 : 2 ≤ content.length) :
    load_pe_image (some content) =
      if content.take 2 ≠ mz_sign then .ok none
      else
        (e_lfanew content >>= fun off =>
          read_bytes content (some off) 0 4 >>= fun signature =>
            if signature ≠ pe_sign then pure none else pure (some content)) := by
  have hne : ¬ content.length = 0 := by omega
  have hread : read_bytes content (some 0) 0 2 = .ok (content.take 2) := by
    have := read_bytes_of_le content 0 0 2 (by omega)
    simpa using this
  simp only [load_pe_image, hne, if_false, hread, bind, Except.bind]
  split <;> rfl

/-- C13: for every file content that is read in full, `load_pe_image` returns
`NULL` if the first two bytes are not `M`, `Z`, and returns `NULL` if the four
bytes at offset `e_lfanew` are not `P`, `E`, 0, 0; it returns the buffered
image, the whole content, exactly when both signatures match. The bytes a
signature test reads are taken to lie inside the file. -/
theorem load_pe_image_signatures (content : List Nat) :
    (2 ≤ content.length → content.take 2 ≠ mz_sign →
      load_pe_image (some content) = .ok none) ∧
    (∀ off, content.take 2 = mz_sign → e_lfanew content = .ok off →
      off + 4 ≤ content.length → (content.drop off).take 4 ≠ pe_sign →
      load_pe_image (some content) = .ok none) ∧
    (∀ off, content.take 2 = mz_sign → e_lfanew content = .ok off →
      off + 4 ≤ content.length → (content.drop off).take 4 = pe_sign →
      load_pe_image (some content) = .ok (some content)) ∧
    (∀ image, load_pe_image (some content) = .ok (some image) →
      image = content ∧ content.take 2 = mz_sign ∧
      ∃ off, e_lfanew content = .ok off ∧ (content.drop off).take 4 = pe_sign) := by
  have hlen : ∀ {c : List Nat}, c.take 2 = mz_sign → 2 ≤ c.length := by
    intro c hc
    have := congrArg List.length hc
    simp only [List.length_take, mz_sign, List.length_cons, List.length_nil] at this
    omega
  refine ⟨?_, ?_, ?_, ?_⟩
  · intro h2 hmz
    rw [load_pe_image_of_magic content h2, if_pos hmz]
  · intro off hmz he hoff hpe
    have hread := read_bytes_of_le content off 0 4 (by omega)
    simp only [Nat.add_zero] at hread
    rw [load_pe_image_of_magic content (hlen hmz), if_neg (not_not.mpr hmz), he]
    simp only [bind, Except.bind, hread, if_pos hpe]
    rfl
  · intro off hmz he hoff hpe
    have hread := read_bytes_of_le content off 0 4 (by omega)
    simp only [Nat.add_zero] at hread
    rw [load_pe_image_of_magic content (hlen hmz), if_neg (not_not.mpr hmz), he]
    simp only [bind, Except.bind, hread, if_neg (not_not.mpr hpe)]
    rfl
  · intro image h
    unfold load_pe_image at h
    dsimp only at h
    by_cases h0 : content.length = 0
    · rw [if_pos h0] at h
      cases h
    · rw [if_neg h0] at h
      simp only [bind_eq_ok] at h
      obtain ⟨magic, hmagic, h⟩ := h
      obtain ⟨hm, _⟩ := read_bytes_ok content 0 0 2 magic hmagic
      simp only [Nat.add_zero, List.drop_zero] at hm
      by_cases hmz : magic ≠ mz_sign
      · rw [if_pos hmz] at h
        cases h
      · rw [if_neg hmz] at h
        simp only [bind_eq_ok] at h
        obtain ⟨off, he, signature, hsig, h⟩ := h
        obtain ⟨hs, _⟩ := read_bytes_ok content off 0 4 signature hsig
        simp only [Nat.add_zero] at hs
        by_cases hpe : signature ≠ pe_sign
        · rw [if_pos hpe] at h
          cases h
        · rw [if_neg hpe, pure_eq_ok] at h
          refine ⟨(Option.some.inj h).symm, ?_, off, he, ?_⟩
          · rw [← hm]
            exact not_not.mp hmz
          · rw [← hs]
            exact not_not.mp hpe

/-- Witness of C13: the file `foo.dll` of the spec's example has both
signatures and is returned whole; 64 zero bytes have no `MZ` signature, and a
DOS header followed by zero bytes has no `PE` signature at `e_lfanew` = 0x40:
both are rejected. -/
theorem load_pe_image_signatures_witness :
    load_pe_image (some foo_dll) = .ok (some foo_dll) ∧
    load_pe_image (some (List.replicate 64 0)) = .ok none ∧
    load_pe_image (some (dos_header ++ List.replicate 8 0)) = .ok none :=
  ⟨(load_pe_image_signatures foo_dll).2.2.1 0x40 rfl rfl (by decide) rfl,
    (load_pe_image_signatures (List.replicate 64 0)).1 (by decide) (by decide),
    (load_pe_image_signatures (dos_header ++ List.replicate 8 0)).2.1 0x40 rfl rfl
      (by decide) (by decide)⟩

theorem foo_dll_loads : load_pe_image (some foo_dll) = .ok (some foo_dll) := rfl

/-! ## The include-path list -/

theorem byte_at_append (a r : List Nat) (c : Nat) : byte_at (a ++ c :: r) a.length = c := by
  unfold byte_at
  induction a with
  | nil => rfl
  | cons hd tl ih => simpa using ih

theorem splitOn_ne_nil (sep : Nat) (xs : List Nat) : xs.splitOn sep ≠ [] :=
  List.splitOnP_ne_nil _ _

theorem byte_at_length (buf : List Nat) : byte_at buf buf.length = 0 := by
  simp [byte_at]

theorem set_append_length (a r : List Nat) (c x : Nat) :
    (a ++ c :: r).set a.length x = a ++ x :: r := by
  induction a with
  | nil => rfl
  | cons hd tl ih => simp [ih]

theorem string_at_segment (done seg r : List Nat) (h : 0 ∉ seg) :
    string_at (done ++ seg ++ 0 :: r) done.length = seg := by
  unfold string_at
  rw [List.append_assoc, List.drop_left]
  induction seg with
  | nil => simp
  | cons hd tl ih =>
    have hhd : hd ≠ 0 := fun h0 => h (by simp [h0])
    have htl : 0 ∉ tl := fun h0 => h (by simp [h0])
    rw [List.cons_append, List.takeWhile_cons_of_pos (by simpa using hhd), ih htl]

theorem string_at_tail (buf : List Nat) (k : Nat) (h : 0 ∉ buf) :
    string_at buf k = buf.drop k := by
  unfold string_at
  rw [List.takeWhile_eq_self_iff]
  intro x hx
  have : x ∈ buf := List.mem_of_mem_drop hx
  simpa using fun h0 : x = 0 => h (h0 ▸ this)

theorem add_path_loop_spec (sep : Nat) (hsep : sep ≠ 0) (rest : List Nat) :
    ∀ (done seg : List Nat) (inc_path : List (List Nat)) (fuel : Nat),
      rest.length < fuel → 0 ∉ done ++ seg ++ rest → (∀ x ∈ seg, x ≠ sep) →
      ∃ path1,
        add_path_loop sep fuel (done ++ seg ++ rest) (done.length + seg.length) done.length
            inc_path =
          (done ++ seg ++ rest, (done ++ seg ++ rest).length, path1,
            inc_path ++ ((seg ++ rest).splitOn sep).dropLast) ∧
        ((seg ++ rest).splitOn sep).getLast? = some ((done ++ seg ++ rest).drop path1) := by
  induction rest with
  | nil =>
    intro done seg inc_path fuel hfuel hzero hseg
    obtain ⟨fuel, rfl⟩ : ∃ f, fuel = f + 1 := ⟨fuel - 1, by omega⟩
    refine ⟨done.length, ?_, ?_⟩
    · have hp : done.length + seg.length = (done ++ seg ++ []).length := by simp
      rw [hp]
      simp only [add_path_loop, byte_at_length, if_true]
      have hsplit : (seg ++ []).splitOn sep = [seg ++ []] :=
        List.splitOnP_eq_single _ _ (fun x hx => by
          simpa using hseg x (by simpa using hx))
      rw [hsplit]
      simp
    · have hsplit : (seg ++ []).splitOn sep = [seg ++ []] :=
        List.splitOnP_eq_single _ _ (fun x hx => by
          simpa using hseg x (by simpa using hx))
      rw [hsplit]
      simp
  | cons c rest ih =>
    intro done seg inc_path fuel hfuel hzero hseg
    obtain ⟨fuel, rfl⟩ : ∃ f, fuel = f + 1 := ⟨fuel - 1, by simp at hfuel; omega⟩
    have hc0 : c ≠ 0 := fun h0 => hzero (by simp [h0])
    have hp : done.length + seg.length = (done ++ seg).length := by simp
    have hbyte : byte_at (done ++ seg ++ c :: rest) (done.length + seg.length) = c := by
      rw [hp]
      exact byte_at_append _ _ _
    by_cases hcs : c = sep
    · subst hcs
      have hseg0 : 0 ∉ seg := fun h0 => hzero (by simp [h0])
      have hset : (done ++ seg ++ c :: rest).set (done.length + seg.length) 0 =
          done ++ seg ++ 0 :: rest := by
        rw [hp]
        exact set_append_length _ _ _ _
      have hback : (done ++ seg ++ 0 :: rest).set (done.length + seg.length) c =
          done ++ seg ++ c :: rest := by
        rw [hp]
        exact set_append_length _ _ _ _
      obtain ⟨path1, hloop, hlast⟩ := ih (done ++ seg ++ [c]) [] (inc_path ++ [seg]) fuel
        (by simp at hfuel; omega) (by simpa using hzero) (by simp)
      have hsplit : (seg ++ c :: rest).splitOn c = seg :: rest.splitOn c :=
        List.splitOnP_first _ _ (fun x hx => by simpa using hseg x hx) c (by simp) rest
      refine ⟨path1, ?_, ?_⟩
      · simp only [add_path_loop, hbyte, hc0, if_false, if_true, hset, hback, str_list_add,
          string_at_segment done seg rest hseg0]
        have hlen : (done ++ seg ++ [c]).length + ([] : List Nat).length =
            done.length + seg.length + 1 := by
          simp only [List.length_append, List.length_cons, List.length_nil]
        have hlen2 : (done ++ seg ++ [c]).length = done.length + seg.length + 1 := by
          simp only [List.length_append, List.length_cons, List.length_nil]
        rw [hlen, hlen2] at hloop
        simp only [List.append_nil, List.nil_append, List.append_assoc, List.singleton_append]
          at hloop ⊢
        rw [hloop, hsplit, List.dropLast_cons_of_ne_nil (splitOn_ne_nil c rest)]
      · rw [hsplit]
        obtain ⟨hd, tl, hcons⟩ := List.exists_cons_of_ne_nil (splitOn_ne_nil c rest)
        rw [hcons, List.getLast?_cons_cons, ← hcons]
        simpa using hlast
    · have hseg1 : ∀ x ∈ seg ++ [c], x ≠ sep := by
        intro x hx
        rcases List.mem_append.mp hx with hx | hx
        · exact hseg x hx
        · simpa using (List.mem_singleton.mp hx) ▸ hcs
      obtain ⟨path1, hloop, hlast⟩ := ih done (seg ++ [c]) inc_path fuel
        (by simp at hfuel; omega) (by simpa using hzero) hseg1
      refine ⟨path1, ?_, ?_⟩
      · simp only [add_path_loop, hbyte, hc0, hcs, if_false]
        have hlen : done.length + (seg ++ [c]).length = done.length + seg.length + 1 := by
          simp only [List.length_append, List.length_cons, List.length_nil]
          omega
        rw [hlen] at hloop
        simpa using hloop
      · simpa using hlast

theorem splitOn_trailing (sep : Nat) (xs : List Nat) :
    ∃ hd tl, (xs ++ [sep]).splitOn sep = hd :: tl ∧ tl.getLast? = some [] := by
  induction xs with
  | nil =>
    refine ⟨[], [[]], ?_, rfl⟩
    show List.splitOnP (· == sep) [sep] = _
    simp
  | cons x xs ih =>
    obtain ⟨hd, tl, hsplit, hlast⟩ := ih
    have hsplit1 : List.splitOnP (· == sep) (xs ++ [sep]) = hd :: tl := hsplit
    show ∃ hd1 tl1, List.splitOnP (· == sep) (x :: (xs ++ [sep])) = hd1 :: tl1 ∧ _
    rw [List.splitOnP_cons, hsplit1]
    by_cases hx : (x == sep) = true
    · rw [if_pos hx]
      refine ⟨[], hd :: tl, rfl, ?_⟩
      cases tl with
      | nil => cases hlast
      | cons t ts => rw [List.getLast?_cons_cons]; exact hlast
    · rw [if_neg hx]
      exact ⟨x :: hd, tl, rfl, hlast⟩

/-- C19: for every non-empty path-list string `p` (its characters are not
NUL) and every list `inc_path`, `add_path_list(p)` returns, and the new list
is the old one, unchanged, followed in left-to-right order by the segments of
`p` split on the path separator, without the last segment when `p` ends with a
separator (that segment is then empty); the buffer of `p` holds the same
characters afterwards. For an absent `p` the list stays as it is. -/
theorem add_path_list_appends_segments (sep : Nat) (inc_path : List (List Nat))
    (buf : List Nat) (hsep : sep ≠ 0) (hbuf : 0 ∉ buf) (hne : buf ≠ []) :
    add_path_list sep inc_path (some buf) =
      .ok (inc_path ++
          (if buf.getLast? = some sep then (buf.splitOn sep).dropLast else buf.splitOn sep),
        some buf) ∧
    (buf.getLast? = some sep → (buf.splitOn sep).getLast? = some []) ∧
    add_path_list sep inc_path none = .ok (inc_path, none) := by
  refine ⟨?_, ?_, rfl⟩
  · obtain ⟨path1, hloop, hlast⟩ := add_path_loop_spec sep hsep buf [] [] inc_path
      (buf.length + 1) (by omega) (by simpa using hbuf) (by simp)
    simp only [List.nil_append, List.length_nil, Nat.add_zero] at hloop hlast
    have hlen : buf.length ≠ 0 := fun h0 => hne (List.length_eq_zero.mp h0)
    have hbyte : byte_at buf (buf.length - 1) = sep ↔ buf.getLast? = some sep := by
      obtain ⟨ys, y, rfl⟩ : ∃ ys y, buf = ys ++ [y] :=
        ⟨buf.dropLast, buf.getLast hne, (List.dropLast_append_getLast hne).symm⟩
      have h1 : (ys ++ [y]).length - 1 = ys.length := by simp
      rw [h1, byte_at_append]
      simp
    unfold add_path_list
    simp only [hloop, if_neg hlen]
    by_cases hs : buf.getLast? = some sep
    · rw [if_pos hs, if_neg (not_not.mpr (hbyte.mpr hs))]
      rfl
    · rw [if_neg hs, if_pos (fun h => hs (hbyte.mp h))]
      have hjoin : (buf.splitOn sep).dropLast ++ [buf.drop path1] = buf.splitOn sep :=
        List.dropLast_append_getLast? _ (by rw [hlast]; rfl)
      simp only [str_list_add, string_at_tail buf path1 hbuf, pure, Except.pure,
        List.append_assoc, hjoin]
  · intro hs
    obtain ⟨ys, rfl⟩ := List.getLast?_eq_some_iff.mp hs
    obtain ⟨hd, tl, hsplit, hlast⟩ := splitOn_trailing sep ys
    rw [hsplit]
    cases tl with
    | nil => cases hlast
    | cons t ts => rw [List.getLast?_cons_cons]; exact hlast

/-- Witness of C19: the path list `a:bc:` added to a list that holds `/u`,
with the separator `:`. -/
theorem add_path_list_appends_segments_witness :
    add_path_list 58 [[0x2f, 0x75]] (some [0x61, 58, 0x62, 0x63, 58]) =
      .ok ([[0x2f, 0x75]] ++
          (if [0x61, 58, 0x62, 0x63, 58].getLast? = some 58 then
            ([0x61, 58, 0x62, 0x63, 58].splitOn 58).dropLast
          else [0x61, 58, 0x62, 0x63, 58].splitOn 58),
        some [0x61, 58, 0x62, 0x63, 58]) ∧
    [[0x2f, 0x75]] ++
        (if [0x61, 58, 0x62, 0x63, 58].getLast? = some 58 then
          ([0x61, 58, 0x62, 0x63, 58].splitOn 58).dropLast
        else [0x61, 58, 0x62, 0x63, 58].splitOn 58) =
      [[0x2f, 0x75], [0x61], [0x62, 0x63]] :=
  ⟨(add_path_list_appends_segments 58 [[0x2f, 0x75]] [0x61, 58, 0x62, 0x63, 58]
    (by decide) (by decide) (by decide)).1, by decide⟩

/-- The empty path list: `add_path_list("")` reads `p[-1]`, the byte before
the string. -/
theorem add_path_list_empty (sep : Nat) (inc_path : List (List Nat)) :
    add_path_list sep inc_path (some []) = .error .outOfBounds := rfl

/-! ## The whole run -/

theorem demo_world_foo :
    main demo_world ["pexports", "foo.dll"] = .ok { stdout := foo_listing, status := 0 } := rfl

theorem demo_world_bad :
    main demo_world ["pexports", "-v", "-h", "foo.h", "bad.dll"] =
      .ok { stdout := [Line.comment "; gcc -E -xc-header foo.h"], status := 1 } := rfl

theorem demo_world_plain :
    main demo_world ["pexports", "plain.exe"] = .ok { stdout := [], status := 0 } := rfl

theorem demo_world_usage :
    (main demo_world ["pexports", "-v"]).map (fun out => (out.stdout.length, out.status)) =
      .ok (1, 1) := rfl

theorem demo_world_unknown_option :
    main demo_world ["pexports", "-x", "foo.dll"] = .ok { stdout := [], status := 1 } := rfl

theorem parse_headers_shown (w : World) (inc_path : List (List Nat)) (o : Options)
    (shown : List Line) (symbols : Option (String → Option Int))
    (hrun : parse_headers w inc_path o = .ok (shown, symbols)) :
    shown = [] ∨
      (o.verbose = true ∧ o.header_files ≠ [] ∧
        ∃ arguments, header_arguments w inc_path o.header_files = .ok (some arguments) ∧
          shown = [Line.comment ("; " ++ (o.cpp ++ arguments))]) := by
  unfold parse_headers at hrun
  by_cases hh : o.header_files = []
  · rw [if_pos hh] at hrun
    cases hrun
    exact Or.inl rfl
  · rw [if_neg hh] at hrun
    cases ha : header_arguments w inc_path o.header_files with
    | error err =>
      simp only [ha, bind, Except.bind] at hrun
      cases hrun
    | ok r =>
      cases r with
      | none =>
        simp only [ha, bind, Except.bind, pure, Except.pure] at hrun
        cases hrun
        exact Or.inl rfl
      | some arguments =>
        simp only [ha, bind, Except.bind, pure, Except.pure] at hrun
        cases hv : o.verbose with
        | false =>
          left
          cases hp : w.popen (o.cpp ++ arguments) <;>
            simp only [hp, hv, Bool.false_eq_true, if_false] at hrun <;>
            cases hrun <;> rfl
        | true =>
          right
          refine ⟨rfl, hh, arguments, rfl, ?_⟩
          cases hp : w.popen (o.cpp ++ arguments) <;>
            simp only [hp, hv, if_true] at hrun <;>
            cases hrun <;> rfl

theorem parse_headers_quiet (w : World) (inc_path : List (List Nat)) (o : Options)
    (shown : List Line) (symbols : Option (String → Option Int))
    (hquiet : o.verbose = false ∨ o.header_files = [])
    (hrun : parse_headers w inc_path o = .ok (shown, symbols)) : shown = [] := by
  rcases parse_headers_shown w inc_path o shown symbols hrun with h | ⟨hv, hh, _⟩
  · exact h
  · rcases hquiet with h | h
    · rw [hv] at h
      cases h
    · exact absurd h hh

theorem main_after_headers (w : World) (prog : String) (args : List String) (o : Options)
    (f : String) (inc_path : List (List Nat)) (shown : List Line)
    (symbols : Option (String → Option Int))
    (hargs : parse_args args initial_options = some o)
    (hfile : o.filename = some f)
    (hinc : include_paths w = .ok inc_path)
    (hhdr : parse_headers w inc_path o = .ok (shown, symbols)) :
    main w (prog :: args) =
      match symbols with
      | none => .ok { stdout := shown, status := 1 }
      | some symbols => main_load (w.file f) o symbols shown := by
  simp only [main, hinc, List.tail_cons, hargs, hfile, hhdr, bind, Except.bind, pure,
    Except.pure]
  cases symbols <;> rfl

theorem scan_target_none (exp_rva : Nat) (sec : IMAGE_SECTION_HEADER)
    (hname : sec.Name.take 6 ≠ exp_sign)
    (hrange : ¬ (sec.VirtualAddress ≤ exp_rva ∧
      exp_rva < sec.VirtualAddress + sec.SizeOfRawData)) :
    scan_target exp_rva sec = none := by
  unfold scan_target
  rw [if_neg hname, if_neg]
  rintro ⟨h1, h2⟩
  exact hrange ⟨h1, Nat.lt_of_lt_of_le h2 (Nat.mod_le _ _)⟩

theorem filterMap_scan_target_none (exp_rva : Nat) (sections : List IMAGE_SECTION_HEADER)
    (hname : ∀ sec ∈ sections, sec.Name.take 6 ≠ exp_sign)
    (hrange : ∀ sec ∈ sections, ¬ (sec.VirtualAddress ≤ exp_rva ∧
      exp_rva < sec.VirtualAddress + sec.SizeOfRawData)) :
    sections.filterMap (scan_target exp_rva) = [] := by
  rw [List.filterMap_eq_nil_iff]
  intro sec hsec
  exact scan_target_none exp_rva sec (hname sec hsec) (hrange sec hsec)

/-! ## A file with a wrong signature -/

/-- C14, as stated, fails: in the fifth example `bad.dll` has no `MZ` signature
and `load_pe_image` returns `NULL`, but with `-v` and `-h foo.h` on the command
line `parse_headers` has run before the load and has written the preprocessor
command to standard output; the exit status is 1. -/
theorem bad_signature_verbose_header_output :
    load_pe_image (demo_world.file "bad.dll") = .ok none ∧
    main demo_world ["pexports", "-v", "-h", "foo.h", "bad.dll"] =
      .ok { stdout := [Line.comment "; gcc -E -xc-header foo.h"], status := 1 } ∧
    (Line.comment "; gcc -E -xc-header foo.h").render = "; gcc -E -xc-header foo.h\n" :=
  ⟨rfl, rfl, rfl⟩

/-- C14, amended: for every command line naming a file that `load_pe_image`
rejects (a wrong `MZ` or `PE` signature among the causes), whatever the options
`-v`, `-o`, `-h`, `-p`, once the include paths are read and `parse_headers`
returns, the run exits with status 1 and standard output holds what
`parse_headers` wrote: nothing when `-v` is absent or no `-h` header is given,
and otherwise at most the one comment line `; ` followed by the preprocessor
command. -/
theorem bad_signature_exit (w : World) (prog : String) (args : List String) (o : Options)
    (f : String) (inc_path : List (List Nat)) (shown : List Line)
    (symbols : Option (String → Option Int))
    (hargs : parse_args args initial_options = some o)
    (hfile : o.filename = some f)
    (hload : load_pe_image (w.file f) = .ok none)
    (hinc : include_paths w = .ok inc_path)
    (hhdr : parse_headers w inc_path o = .ok (shown, symbols)) :
    main w (prog :: args) = .ok { stdout := shown, status := 1 } ∧
    ((o.verbose = false ∨ o.header_files = []) → shown = []) ∧
    (shown = [] ∨
      (o.verbose = true ∧ o.header_files ≠ [] ∧
        ∃ arguments, header_arguments w inc_path o.header_files = .ok (some arguments) ∧
          shown = [Line.comment ("; " ++ (o.cpp ++ arguments))])) := by
  refine ⟨?_, fun hquiet => parse_headers_quiet w inc_path o shown symbols hquiet hhdr,
    parse_headers_shown w inc_path o shown symbols hhdr⟩
  rw [main_after_headers w prog args o f inc_path shown symbols hargs hfile hinc hhdr]
  cases symbols with
  | none => rfl
  | some symbols =>
    simp only [main_load, hload, bind, Except.bind, pure, Except.pure]

/-- Witness of C14 (amended): `bad.dll` of the fifth example with the options
`-o` and `-p cpp`, no header: nothing on standard output, status 1. -/
theorem bad_signature_exit_witness :
    main demo_world ["pexports", "-o", "-p", "cpp", "bad.dll"] =
        .ok { stdout := [], status := 1 } ∧
      ((false = false ∨ ([] : List String) = []) → ([] : List Line) = []) ∧
      (([] : List Line) = [] ∨
        (false = true ∧ ([] : List String) ≠ [] ∧
          ∃ arguments, header_arguments demo_world [] [] = .ok (some arguments) ∧
            ([] : List Line) = [Line.comment ("; " ++ ("cpp" ++ arguments))])) :=
  bad_signature_exit demo_world "pexports" ["-o", "-p", "cpp", "bad.dll"]
    { verbose := false, ordinal_flag := true, header_files := [], cpp := "cpp",
      filename := some "bad.dll" }
    "bad.dll" [] [] (some fun _ => none) rfl rfl rfl rfl rfl

/-! ## An image without an export section -/

/-- C20: for every loaded image whose section table has no section with a name
that starts with the six bytes `.edata` and no section with
`VirtualAddress <= exp_rva < VirtualAddress + SizeOfRawData`, the scan of `main`
has no section to call `dump_exports` for, and with verbose off the run writes
nothing to standard output and returns status 0. -/
theorem no_export_section_empty_listing (w : World) (prog : String) (args : List String)
    (o : Options) (f : String) (inc_path : List (List Nat)) (shown : List Line)
    (symbols : String → Option Int) (image : List Nat) (exp_rva exp_size : Nat)
    (sections : List IMAGE_SECTION_HEADER)
    (hargs : parse_args args initial_options = some o)
    (hfile : o.filename = some f)
    (hverbose : o.verbose = false)
    (hinc : include_paths w = .ok inc_path)
    (hhdr : parse_headers w inc_path o = .ok (shown, some symbols))
    (hload : load_pe_image (w.file f) = .ok (some image))
    (hentry : export_entry image = .ok (exp_rva, exp_size))
    (htable : section_table image = .ok sections)
    (hname : ∀ sec ∈ sections, sec.Name.take 6 ≠ exp_sign)
    (hrange : ∀ sec ∈ sections, ¬ (sec.VirtualAddress ≤ exp_rva ∧
      exp_rva < sec.VirtualAddress + sec.SizeOfRawData)) :
    sections.filterMap (scan_target exp_rva) = [] ∧
    main w (prog :: args) = .ok { stdout := [], status := 0 } := by
  have hnone := filterMap_scan_target_none exp_rva sections hname hrange
  refine ⟨hnone, ?_⟩
  have hshown := parse_headers_quiet w inc_path o shown (some symbols) (Or.inl hverbose) hhdr
  subst hshown
  rw [main_after_headers w prog args o f inc_path [] (some symbols) hargs hfile hinc hhdr]
  simp only [main_load, hload, hentry, htable, main_listing, hverbose,
    scan_sections_none _ exp_rva exp_size sections true hnone, bind, Except.bind, pure,
    Except.pure, Bool.false_eq_true, if_false, List.append_nil]

/-- Witness of C20: `plain.exe` of the fifth example; its export directory
entry 0x1200 is the first address past `.text`, which `find_section` would
still count to that section. -/
theorem no_export_section_empty_listing_witness :
    [demo_text].filterMap (scan_target 0x1200) = [] ∧
    main demo_world ["pexports", "-o", "plain.exe"] = .ok { stdout := [], status := 0 } :=
  no_export_section_empty_listing demo_world "pexports" ["-o", "plain.exe"]
    { verbose := false, ordinal_flag := true, header_files := [], cpp := "gcc -E -xc-header",
      filename := some "plain.exe" }
    "plain.exe" [] [] (fun _ => none)
    (pe_file [demo_text] 0x1200 0x28 (List.replicate 0x400 0)) 0x1200 0x28 [demo_text]
    rfl rfl rfl rfl rfl rfl rfl rfl (by decide) (by decide)

end Pexports
